import Mathlib

/-!
Verification of the core data model of the training-log site (src/app.js).

The JavaScript source keeps a hierarchical base document
(period → block → week → day → exercise), a sparse overlay of patches
keyed by a string entry key, and structural mutation handlers.  This file
gives a shallow embedding of that core and proves the specification
claims about it.

Modelling conventions:
* JavaScript numbers are modelled as exact rationals (ℚ).  Every numeric
  value the core manipulates comes from a decimal literal in a form
  field, a route string, or the JSON document; on that fragment the
  double representation is exact for the comparisons the code performs,
  and no arithmetic beyond comparison is done on identifiers.  NaN is
  modelled by the `none` result of the number conversion and by the
  dedicated `JV.nan` value.
* Dynamically typed values that flow through the selection and the
  accessor arguments are modelled by the sum type `JV`
  (string / number / null / undefined / NaN).
* `Number(string)` is modelled on the whitespace-trimmed decimal
  fragment (optional sign, digits, optional fractional part); hex,
  exponent and Infinity forms are outside the model.
* `String(number)` agrees with JavaScript on integral values (decimal
  digits, with a leading minus for negatives).  Non-integral rationals
  are rendered as an injective fraction form; no claim depends on the
  exact text JavaScript would produce for them.
* `toLowerCase`, `trim` and `localeCompare` are modelled on ASCII:
  `Char.toLower`, trimming of ASCII whitespace, and code-point order.
-/

namespace TrainLog

/-! ## Character-list utilities (the model of `split`, `join`, `trim`) -/

/-- ASCII whitespace recognised by the model of `String.prototype.trim`. -/
def isJsSpace (c : Char) : Bool :=
  c = ' ' || c = '\t' || c = '\n' || c = '\r'

/-- Model of `s.trim()` on character lists. -/
def jsTrimList (cs : List Char) : List Char :=
  ((cs.dropWhile isJsSpace).reverse.dropWhile isJsSpace).reverse

/-- Model of `s.trim()`. -/
def jsTrim (s : String) : String :=
  String.mk (jsTrimList s.data)

/-- Model of `String.prototype.split` with a one-character separator. -/
def splitChar (sep : Char) : List Char → List (List Char)
  | [] => [[]]
  | c :: cs =>
    if c = sep then [] :: splitChar sep cs
    else
      match splitChar sep cs with
      | [] => [[c]]
      | h :: t => (c :: h) :: t

/-- Model of `Array.prototype.join` with a one-character separator
(element-to-string conversion happens at the call sites). -/
def joinChar (sep : Char) : List (List Char) → List Char
  | [] => []
  | [p] => p
  | p :: ps => p ++ sep :: joinChar sep ps

theorem splitChar_ne_nil (sep : Char) (cs : List Char) : splitChar sep cs ≠ [] := by
  cases cs with
  | nil => simp [splitChar]
  | cons c cs =>
    simp only [splitChar]
    split
    · simp
    · split
      · simp
      · simp

theorem splitChar_cons_sep (sep : Char) (cs : List Char) :
    splitChar sep (sep :: cs) = [] :: splitChar sep cs := by
  simp [splitChar]

theorem splitChar_cons_ne (sep c : Char) (cs : List Char) (h : c ≠ sep) :
    splitChar sep (c :: cs) =
      (c :: (splitChar sep cs).headD []) :: (splitChar sep cs).tail := by
  simp only [splitChar, if_neg h]
  rcases hs : splitChar sep cs with _ | ⟨h', t⟩
  · exact absurd hs (splitChar_ne_nil sep cs)
  · simp

/-- Splitting a sep-free chunk yields that single chunk. -/
theorem splitChar_of_not_mem (sep : Char) (cs : List Char) (h : sep ∉ cs) :
    splitChar sep cs = [cs] := by
  induction cs with
  | nil => rfl
  | cons c cs ih =>
    have hc : c ≠ sep := fun hc => h (hc ▸ List.mem_cons_self c cs)
    have hcs : sep ∉ cs := fun hm => h (List.mem_cons_of_mem c hm)
    rw [splitChar_cons_ne sep c cs hc, ih hcs]
    rfl

/-- A separator placed between two chunks splits them independently. -/
theorem splitChar_append_sep (sep : Char) (xs ys : List Char) :
    splitChar sep (xs ++ sep :: ys) = splitChar sep xs ++ splitChar sep ys := by
  induction xs with
  | nil => simp [splitChar_cons_sep, splitChar]
  | cons c cs ih =>
    by_cases hc : c = sep
    · subst hc
      rw [List.cons_append, splitChar_cons_sep, splitChar_cons_sep, ih]
      rfl
    · rw [List.cons_append, splitChar_cons_ne sep c _ hc, splitChar_cons_ne sep c cs hc, ih]
      rcases hs : splitChar sep cs with _ | ⟨h', t⟩
      · exact absurd hs (splitChar_ne_nil sep cs)
      · simp

/-- Round trip: splitting a join of sep-free parts recovers the parts. -/
theorem splitChar_joinChar (sep : Char) (ps : List (List Char))
    (hne : ps ≠ []) (hfree : ∀ p ∈ ps, sep ∉ p) :
    splitChar sep (joinChar sep ps) = ps := by
  induction ps with
  | nil => exact absurd rfl hne
  | cons p ps ih =>
    cases ps with
    | nil =>
      simp only [joinChar]
      exact splitChar_of_not_mem sep p (hfree p (List.mem_cons_self p []))
    | cons q qs =>
      have hj : joinChar sep (p :: q :: qs) = p ++ sep :: joinChar sep (q :: qs) := rfl
      rw [hj, splitChar_append_sep,
        splitChar_of_not_mem sep p (hfree p (List.mem_cons_self p _)),
        ih (by simp) (fun r hr => hfree r (List.mem_cons_of_mem p hr))]
      rfl

/-- Every chunk produced by a split is free of the separator. -/
theorem not_mem_of_mem_splitChar (sep : Char) (cs : List Char) :
    ∀ p ∈ splitChar sep cs, sep ∉ p := by
  induction cs with
  | nil =>
    intro p hp
    simp only [splitChar, List.mem_singleton] at hp
    subst hp; simp
  | cons c cs ih =>
    intro p hp
    by_cases hc : c = sep
    · subst hc
      rw [splitChar_cons_sep] at hp
      rcases List.mem_cons.mp hp with h | h
      · subst h; simp
      · exact ih p h
    · rw [splitChar_cons_ne sep c cs hc] at hp
      rcases hs : splitChar sep cs with _ | ⟨h', t⟩
      · exact absurd hs (splitChar_ne_nil sep cs)
      · rw [hs] at hp
        simp only [List.headD_cons, List.tail_cons] at hp
        rcases List.mem_cons.mp hp with h | h
        · subst h
          intro hmem
          rcases List.mem_cons.mp hmem with h1 | h1
          · exact hc h1.symm
          · exact ih h' (by rw [hs]; exact List.mem_cons_self _ _) h1
        · exact ih p (by rw [hs]; exact List.mem_cons_of_mem _ h)

/-! ## Decimal numerals (the model of `String(n)` and `Number(s)`) -/

/-- Digits of a natural number, least significant first; `fuel`-structured
so that the kernel can evaluate it. -/
def natDigitsRev (fuel n : Nat) : List Nat :=
  match fuel with
  | 0 => []
  | fuel + 1 => if n = 0 then [] else n % 10 :: natDigitsRev fuel (n / 10)

/-- Value of a least-significant-first digit list. -/
def valDigitsRev : List Nat → Nat
  | [] => 0
  | d :: ds => d + 10 * valDigitsRev ds

theorem valDigitsRev_natDigitsRev (fuel n : Nat) (h : n ≤ fuel) :
    valDigitsRev (natDigitsRev fuel n) = n := by
  induction fuel generalizing n with
  | zero => interval_cases n; rfl
  | succ fuel ih =>
    by_cases h0 : n = 0
    · subst h0; simp [natDigitsRev, valDigitsRev]
    · have hlt : n / 10 ≤ fuel := by
        have : n / 10 < n := Nat.div_lt_self (Nat.pos_of_ne_zero h0) (by norm_num)
        omega
      simp only [natDigitsRev, if_neg h0, valDigitsRev, ih (n / 10) hlt]
      omega

theorem natDigitsRev_lt_ten (fuel n : Nat) : ∀ d ∈ natDigitsRev fuel n, d < 10 := by
  induction fuel generalizing n with
  | zero => intro d hd; simp [natDigitsRev] at hd
  | succ fuel ih =>
    intro d hd
    by_cases h0 : n = 0
    · subst h0; simp [natDigitsRev] at hd
    · simp only [natDigitsRev, if_neg h0, List.mem_cons] at hd
      rcases hd with h | h
      · subst h; exact Nat.mod_lt n (by norm_num)
      · exact ih (n / 10) d h

theorem natDigitsRev_ne_nil (fuel n : Nat) (h0 : n ≠ 0) (h : n ≤ fuel) :
    natDigitsRev fuel n ≠ [] := by
  cases fuel with
  | zero => omega
  | succ fuel => simp [natDigitsRev, if_neg h0]

/-- Decimal digit to character. -/
def digitChar10 (d : Nat) : Char := Char.ofNat (48 + d)

/-- Character to decimal digit value (the model of `c.charCodeAt(0) - 48`). -/
def digitVal (c : Char) : Nat := c.toNat - 48

/-- Decimal digit test. -/
def isDigit10 (c : Char) : Bool := 48 ≤ c.toNat && c.toNat ≤ 57

theorem digitChar10_isDigit10 (d : Nat) (h : d < 10) : isDigit10 (digitChar10 d) = true := by
  interval_cases d <;> decide

theorem digitVal_digitChar10 (d : Nat) (h : d < 10) : digitVal (digitChar10 d) = d := by
  interval_cases d <;> decide

/-- Model of `String(n)` for a natural number: standard decimal digits. -/
def natDecimal (n : Nat) : String :=
  if n = 0 then "0" else String.mk (((natDigitsRev n n).map digitChar10).reverse)

/-- Model of `String(n)` for an integer. -/
def intDecimal (n : Int) : String :=
  if n < 0 then "-" ++ natDecimal n.natAbs else natDecimal n.natAbs

/-- Fold a most-significant-first digit string into its value
(the accumulator loop of a decimal parse). -/
def parseDigits (cs : List Char) : Nat :=
  cs.foldl (fun a c => a * 10 + digitVal c) 0

/-- Strict decimal natural parse: nonempty, digits only. -/
def parseNatStrict (cs : List Char) : Option Nat :=
  if !cs.isEmpty && cs.all isDigit10 then some (parseDigits cs) else none

/-- Strict decimal integer parse: optional leading minus. -/
def parseIntStrict (cs : List Char) : Option Int :=
  match cs with
  | [] => none
  | c :: ds =>
    if c = '-' then (parseNatStrict ds).map (fun m : Nat => -(m : Int))
    else (parseNatStrict (c :: ds)).map (fun m : Nat => (m : Int))

theorem parseIntStrict_cons (c : Char) (ds : List Char) :
    parseIntStrict (c :: ds) =
      if c = '-' then (parseNatStrict ds).map (fun m : Nat => -(m : Int))
      else (parseNatStrict (c :: ds)).map (fun m : Nat => (m : Int)) := rfl

theorem parseDigits_rev_digits (ds : List Nat) (h : ∀ d ∈ ds, d < 10) :
    parseDigits ((ds.map digitChar10).reverse) = valDigitsRev ds := by
  unfold parseDigits
  rw [List.foldl_reverse, List.foldr_map]
  induction ds with
  | nil => rfl
  | cons d ds ih =>
    simp only [List.foldr_cons, valDigitsRev]
    rw [ih (fun e he => h e (List.mem_cons_of_mem d he))]
    rw [digitVal_digitChar10 d (h d (List.mem_cons_self d ds))]
    ring

theorem natDecimal_data (n : Nat) :
    (natDecimal n).data = if n = 0 then ['0']
      else ((natDigitsRev n n).map digitChar10).reverse := by
  unfold natDecimal
  split <;> rfl

theorem natDecimal_all_digits (n : Nat) : (natDecimal n).data.all isDigit10 = true := by
  rw [natDecimal_data]
  split
  · decide
  · rw [List.all_eq_true]
    intro c hc
    rw [List.mem_reverse] at hc
    rcases List.mem_map.mp hc with ⟨d, hd, rfl⟩
    exact digitChar10_isDigit10 d (natDigitsRev_lt_ten n n d hd)

theorem natDecimal_ne_nil (n : Nat) : (natDecimal n).data ≠ [] := by
  rw [natDecimal_data]
  split
  · simp
  · simp only [ne_eq, List.reverse_eq_nil_iff, List.map_eq_nil_iff]
    exact natDigitsRev_ne_nil n n (by assumption) le_rfl

/-- Strict parsing inverts decimal printing of naturals. -/
theorem parseNatStrict_natDecimal (n : Nat) :
    parseNatStrict (natDecimal n).data = some n := by
  unfold parseNatStrict
  rw [if_pos]
  · congr 1
    rw [natDecimal_data]
    by_cases h0 : n = 0
    · subst h0; rfl
    · rw [if_neg h0, parseDigits_rev_digits _ (natDigitsRev_lt_ten n n)]
      exact valDigitsRev_natDigitsRev n n le_rfl
  · rw [Bool.and_eq_true]
    refine ⟨?_, natDecimal_all_digits n⟩
    rcases hd : (natDecimal n).data with _ | ⟨c, cs⟩
    · exact absurd hd (natDecimal_ne_nil n)
    · rfl

theorem minus_not_digit : isDigit10 '-' = false := by decide

theorem natDecimal_head_ne_minus (n : Nat) :
    ∀ c ∈ (natDecimal n).data, c ≠ '-' := by
  intro c hc hminus
  have hall := natDecimal_all_digits n
  rw [List.all_eq_true] at hall
  have := hall c hc
  rw [hminus] at this
  exact absurd this (by decide)

/-- Strict parsing inverts decimal printing of integers. -/
theorem parseIntStrict_intDecimal (n : Int) :
    parseIntStrict (intDecimal n).data = some n := by
  unfold intDecimal
  by_cases h : n < 0
  · rw [if_pos h]
    have hdata : ("-" ++ natDecimal n.natAbs).data = '-' :: (natDecimal n.natAbs).data := rfl
    rw [hdata, parseIntStrict_cons, if_pos rfl, parseNatStrict_natDecimal]
    simp only [Option.map_some']
    congr 1
    omega
  · rw [if_neg h]
    rcases hd : (natDecimal n.natAbs).data with _ | ⟨c, cs⟩
    · exact absurd hd (natDecimal_ne_nil n.natAbs)
    · have hc : c ≠ '-' := natDecimal_head_ne_minus n.natAbs c (by rw [hd]; exact List.mem_cons_self c cs)
      rw [parseIntStrict_cons, if_neg hc, ← hd, parseNatStrict_natDecimal]
      simp only [Option.map_some']
      congr 1
      omega

theorem intDecimal_injective : Function.Injective intDecimal := by
  intro a b h
  have ha := parseIntStrict_intDecimal a
  have hb := parseIntStrict_intDecimal b
  rw [h, hb] at ha
  exact (Option.some_injective _ ha).symm

/-- Digit-and-dot split cases for the unsigned part of `Number(string)`:
decimal digits with an optional fractional part ("1", "1.5", "1.", ".5"). -/
def parseUnsignedParts : List (List Char) → Option ℚ
  | [ip] => if !ip.isEmpty && ip.all isDigit10 then some (parseDigits ip : ℚ) else none
  | [ip, fp] =>
    if (!ip.isEmpty || !fp.isEmpty) && ip.all isDigit10 && fp.all isDigit10 then
      some (mkRat (parseDigits ip * 10 ^ fp.length + parseDigits fp) (10 ^ fp.length))
    else none
  | _ => none

/-- Model of the unsigned part of `Number(string)`.  Hex, exponent and
Infinity forms are outside the model and the claims. -/
def parseUnsigned (cs : List Char) : Option ℚ :=
  parseUnsignedParts (splitChar '.' cs)

/-- Sign handling of `Number(string)` after trimming. -/
def jsNumOfTrimmed : List Char → Option ℚ
  | [] => some 0
  | c :: cs =>
    if c = '-' then (parseUnsigned cs).map (fun q => -q)
    else if c = '+' then parseUnsigned cs
    else parseUnsigned (c :: cs)

/-- Model of `Number(string)`: trim, empty means zero, optional sign,
then the unsigned decimal fragment; `none` models NaN. -/
def jsStringToNumber (s : String) : Option ℚ :=
  jsNumOfTrimmed (jsTrimList s.data)

theorem parseUnsignedParts_single (ip : List Char) :
    parseUnsignedParts [ip] =
      if !ip.isEmpty && ip.all isDigit10 then some (parseDigits ip : ℚ) else none := rfl

theorem jsNumOfTrimmed_cons (c : Char) (cs : List Char) :
    jsNumOfTrimmed (c :: cs) =
      if c = '-' then (parseUnsigned cs).map (fun q => -q)
      else if c = '+' then parseUnsigned cs
      else parseUnsigned (c :: cs) := rfl

theorem dropWhile_eq_self_of_all (p : Char → Bool) (l : List Char)
    (h : ∀ c ∈ l, p c = false) : l.dropWhile p = l := by
  cases l with
  | nil => rfl
  | cons c cs =>
    rw [List.dropWhile_cons, h c (List.mem_cons_self c cs)]
    simp

theorem jsTrimList_eq_self (l : List Char) (h : ∀ c ∈ l, isJsSpace c = false) :
    jsTrimList l = l := by
  unfold jsTrimList
  rw [dropWhile_eq_self_of_all _ _ h,
    dropWhile_eq_self_of_all _ _ (fun c hc => h c (List.mem_reverse.mp hc)),
    List.reverse_reverse]

theorem isDigit10_not_space (c : Char) (h : isDigit10 c = true) : isJsSpace c = false := by
  unfold isDigit10 at h
  unfold isJsSpace
  rw [Bool.and_eq_true] at h
  have h1 := of_decide_eq_true h.1
  have h2 := of_decide_eq_true h.2
  simp only [Bool.or_eq_false_iff, decide_eq_false_iff_not]
  refine ⟨⟨⟨?_, ?_⟩, ?_⟩, ?_⟩ <;> · intro he; subst he; revert h1 h2; decide

theorem natDecimal_mem_digit (n : Nat) (c : Char) (hc : c ∈ (natDecimal n).data) :
    isDigit10 c = true := by
  have hall := natDecimal_all_digits n
  rw [List.all_eq_true] at hall
  exact hall c hc

theorem parseDigits_natDecimal (n : Nat) : parseDigits (natDecimal n).data = n := by
  have h := parseNatStrict_natDecimal n
  unfold parseNatStrict at h
  by_cases hg : (!(natDecimal n).data.isEmpty && (natDecimal n).data.all isDigit10) = true
  · rw [if_pos hg] at h
    exact Option.some_injective _ h
  · rw [if_neg hg] at h
    exact absurd h (by simp)

theorem parseUnsigned_natDecimal (n : Nat) :
    parseUnsigned (natDecimal n).data = some (n : ℚ) := by
  unfold parseUnsigned
  have hdot : '.' ∉ (natDecimal n).data := by
    intro hm
    have := natDecimal_mem_digit n '.' hm
    exact absurd this (by decide)
  rw [splitChar_of_not_mem '.' _ hdot, parseUnsignedParts_single, if_pos]
  · rw [parseDigits_natDecimal]
  · rw [Bool.and_eq_true]
    refine ⟨?_, natDecimal_all_digits n⟩
    rcases hd : (natDecimal n).data with _ | ⟨c, cs⟩
    · exact absurd hd (natDecimal_ne_nil n)
    · rfl

/-- The model of `Number` inverts the model of `String` on integers
(used when a canonical entry-key segment is compared to a node number). -/
theorem jsStringToNumber_intDecimal (k : Int) :
    jsStringToNumber (intDecimal k) = some (k : ℚ) := by
  unfold jsStringToNumber intDecimal
  by_cases h : k < 0
  · rw [if_pos h]
    have hdata : ("-" ++ natDecimal k.natAbs).data = '-' :: (natDecimal k.natAbs).data := rfl
    rw [hdata]
    have htrim : jsTrimList ('-' :: (natDecimal k.natAbs).data) = '-' :: (natDecimal k.natAbs).data := by
      refine jsTrimList_eq_self _ (fun c hc => ?_)
      rcases List.mem_cons.mp hc with h1 | h1
      · subst h1; decide
      · exact isDigit10_not_space c (natDecimal_mem_digit _ c h1)
    rw [htrim, jsNumOfTrimmed_cons, if_pos rfl, parseUnsigned_natDecimal]
    simp only [Option.map_some']
    congr 1
    rw [Int.cast_natAbs, abs_of_neg h]
    push_cast
    ring
  · rw [if_neg h]
    have htrim : jsTrimList (natDecimal k.natAbs).data = (natDecimal k.natAbs).data :=
      jsTrimList_eq_self _ (fun c hc => isDigit10_not_space c (natDecimal_mem_digit _ c hc))
    rw [htrim]
    rcases hd : (natDecimal k.natAbs).data with _ | ⟨c, cs⟩
    · exact absurd hd (natDecimal_ne_nil k.natAbs)
    · have hdig : isDigit10 c = true :=
        natDecimal_mem_digit k.natAbs c (by rw [hd]; exact List.mem_cons_self c cs)
      have hcm : c ≠ '-' := by intro he; subst he; exact absurd hdig (by decide)
      have hcp : c ≠ '+' := by intro he; subst he; exact absurd hdig (by decide)
      rw [jsNumOfTrimmed_cons, if_neg hcm, if_neg hcp, ← hd, parseUnsigned_natDecimal]
      congr 1
      rw [Int.cast_natAbs, abs_of_nonneg (not_lt.mp h)]

/-! ## JavaScript dynamic values -/

/-- Dynamically typed JavaScript values flowing through the selection and
the accessor/key arguments: strings, numbers, null, undefined, NaN. -/
inductive JV where
  | str (s : String)
  | num (q : ℚ)
  | nul
  | undef
  | nan
deriving DecidableEq

/-- Model of `String(n)` for a JavaScript number.  It agrees with
JavaScript on integral values; non-integral rationals get an injective
fraction rendering (no claim depends on their exact text). -/
def jsNumToString (q : ℚ) : String :=
  if q.den = 1 then intDecimal q.num else intDecimal q.num ++ "/" ++ natDecimal q.den

/-- Model of `String(v)`. -/
def jsToString : JV → String
  | .str s => s
  | .num q => jsNumToString q
  | .nul => "null"
  | .undef => "undefined"
  | .nan => "NaN"

/-- Element-to-string conversion used by `Array.prototype.join`
(null and undefined become the empty string there). -/
def jsJoinStr : JV → String
  | .str s => s
  | .num q => jsNumToString q
  | .nul => ""
  | .undef => ""
  | .nan => "NaN"

/-- Model of JavaScript truthiness for the values in `JV`. -/
def jsTruthy : JV → Bool
  | .str s => !s.isEmpty
  | .num q => decide (q ≠ 0)
  | .nul => false
  | .undef => false
  | .nan => false

/-- Model of `Number(v)`; `none` models NaN. -/
def jsToNumber : JV → Option ℚ
  | .str s => jsStringToNumber s
  | .num q => some q
  | .nul => some 0
  | .undef => none
  | .nan => none

/-! ## slugify -/

/-- Characters kept by the slug regex `[a-z0-9]` (after lowercasing). -/
def isSlugKeep (c : Char) : Bool :=
  ('a' ≤ c && c ≤ 'z') || ('0' ≤ c && c ≤ '9')

/-- Collapse runs of dashes to a single dash (the effect of replacing
each maximal run matched by the regex with one dash). -/
def collapseDash : List Char → List Char
  | [] => []
  | c :: cs =>
    match c, collapseDash cs with
    | '-', '-' :: t => '-' :: t
    | _, t => c :: t

/-- Drop one leading dash (the regex alternative matching at the start). -/
def dropLeadDash : List Char → List Char
  | '-' :: t => t
  | cs => cs

/-- Drop one trailing dash (the regex alternative matching at the end). -/
def dropTrailDash (cs : List Char) : List Char :=
  (dropLeadDash cs.reverse).reverse

/-- Model of `slugify`: trim, lowercase, strip quotes, replace runs of
non-alphanumerics with one dash, strip edge dashes. -/
def slugify (s : String) : String :=
  let cs := jsTrimList s.data
  let cs := cs.map Char.toLower
  let cs := cs.filter (fun c => c ≠ '\'' && c ≠ '"')
  let cs := cs.map (fun c => if isSlugKeep c then c else '-')
  String.mk (dropTrailDash (dropLeadDash (collapseDash cs)))

/-! ## The data model (§3 shape of the base document) -/

structure Exercise where
  id : String
  name : String
  work : Option String
  videos : Option (List String)
  lifterComment : Option String
  coachComment : Option String
  updatedAt : Option String
deriving DecidableEq

structure Day where
  day : ℚ
  label : String
  exercises : List Exercise
deriving DecidableEq

structure Week where
  week : ℚ
  days : List Day
deriving DecidableEq

structure Block where
  id : ℚ
  weeks : List Week
deriving DecidableEq

structure Period where
  id : String
  name : String
  blocks : List Block
deriving DecidableEq

structure Doc where
  periods : List Period
deriving DecidableEq

/-! ## Hierarchy Accessor (getPeriod .. getExercise) -/

/-- The predicate of `getPeriod`: `p.id === periodId`. -/
def periodPred (periodId : JV) (p : Period) : Bool := periodId == JV.str p.id

/-- The predicate of `getBlock`: `String(b.id) === String(blockId)`. -/
def blockPred (blockId : JV) (b : Block) : Bool := jsNumToString b.id == jsToString blockId

/-- The predicate of `getWeek`: `Number(w.week) === Number(week)`. -/
def weekPred (week : JV) (w : Week) : Bool := jsToNumber week == some w.week

/-- The predicate of `getDay`: `Number(d.day) === Number(day)`. -/
def dayPred (day : JV) (d : Day) : Bool := jsToNumber day == some d.day

/-- The predicate of `getExercise`: `e.id === exerciseId`. -/
def exercisePred (exerciseId : JV) (e : Exercise) : Bool := exerciseId == JV.str e.id

def getPeriod (doc : Doc) (periodId : JV) : Option Period :=
  doc.periods.find? (periodPred periodId)

def getBlock (p : Period) (blockId : JV) : Option Block :=
  p.blocks.find? (blockPred blockId)

def getWeek (b : Block) (week : JV) : Option Week :=
  b.weeks.find? (weekPred week)

def getDay (w : Week) (day : JV) : Option Day :=
  w.days.find? (dayPred day)

def getExercise (d : Day) (exerciseId : JV) : Option Exercise :=
  d.exercises.find? (exercisePred exerciseId)

/-- The five chained lookups of the Hierarchy Accessor; `none` is the
not-found signal of any link in the chain. -/
def resolveLocator (doc : Doc) (periodId blockId week day exerciseId : JV) : Option Exercise :=
  match getPeriod doc periodId with
  | none => none
  | some p =>
    match getBlock p blockId with
    | none => none
    | some b =>
      match getWeek b week with
      | none => none
      | some w =>
        match getDay w day with
        | none => none
        | some d => getExercise d exerciseId

/-! ## Address Codec (entryKey and its inverse split) -/

/-- Model of `entryKey`: join the five components with the reserved
separator, converting each with the join conversion. -/
def entryKey (periodId blockId week day exerciseId : JV) : String :=
  String.mk (joinChar '|'
    [(jsJoinStr periodId).data, (jsJoinStr blockId).data, (jsJoinStr week).data,
     (jsJoinStr day).data, (jsJoinStr exerciseId).data])

/-- Model of the decode side (`r.k.split("|")` in renderOverview). -/
def decodeKey (k : String) : List String :=
  (splitChar '|' k.data).map String.mk

/-- The destructuring `const [periodId, blockId, week, day, exerciseId]`:
component i of the decoded key, `none` modelling `undefined`. -/
def decodeComp (k : String) (i : Nat) : Option String :=
  (decodeKey k)[i]?

/-! ## Patches and the Overlay Store -/

/-- A dynamically typed value stored in a patch field. -/
inductive PV where
  | str (s : String)
  | arr (vs : List String)
  | num (q : ℚ)
  | nul
deriving DecidableEq

/-- A patch record: every known field optional (absent meaning the
property is not present on the object) plus arbitrary additional
properties that the core never reads. -/
structure Patch where
  work : Option PV := none
  videos : Option PV := none
  lifterComment : Option PV := none
  coachComment : Option PV := none
  updatedAt : Option PV := none
  more : List (String × PV) := []
deriving DecidableEq

/-- The fully materialised Resolved Entry returned by `getPatchedEntry`. -/
structure Entry where
  periodId : JV
  periodName : String
  blockId : ℚ
  week : ℚ
  day : ℚ
  exerciseId : String
  exerciseName : String
  work : String
  videos : List String
  lifterComment : String
  coachComment : String
  updatedAt : Option String
deriving DecidableEq

/-- Model of `applyPatchToEntry`: field-level override with runtime type
checks; a falsy patch leaves the entry unchanged. -/
def applyPatchToEntry (entry : Entry) : Option Patch → Entry
  | none => entry
  | some patch =>
    { entry with
      work := match patch.work with | some (.str s) => s | _ => entry.work
      videos := match patch.videos with | some (.arr vs) => vs | _ => entry.videos
      lifterComment := match patch.lifterComment with | some (.str s) => s | _ => entry.lifterComment
      coachComment := match patch.coachComment with | some (.str s) => s | _ => entry.coachComment
      updatedAt := match patch.updatedAt with | some (.str s) => some s | _ => entry.updatedAt }

/-- The defaulted base entry built inside `getPatchedEntry` before the
patch is applied (missing optional base fields defaulted). -/
def baseEntryOf (periodId : JV) (p : Period) (b : Block) (w : Week) (d : Day)
    (ex : Exercise) : Entry :=
  { periodId := periodId
    periodName := p.name
    blockId := b.id
    week := w.week
    day := d.day
    exerciseId := ex.id
    exerciseName := ex.name
    work := ex.work.getD ""
    videos := ex.videos.getD []
    lifterComment := ex.lifterComment.getD ""
    coachComment := ex.coachComment.getD ""
    updatedAt := match ex.updatedAt with | some s => if s = "" then none else some s | none => none }

/-- The overlay: a JavaScript object from entry key to patch, modelled as
an association list in property order. -/
abbrev Edits := List (String × Patch)

/-- Model of `edits[key]` (property read). -/
def lookupEdits (m : Edits) (k : String) : Option Patch :=
  (m.find? (fun kv => kv.1 == k)).map (fun kv => kv.2)

/-- Model of `edits[key] = p` (property write: replace or append). -/
def setEdits (m : Edits) (k : String) (p : Patch) : Edits :=
  if m.any (fun kv => kv.1 == k) then
    m.map (fun kv => if kv.1 == k then (k, p) else kv)
  else m ++ [(k, p)]

/-- Model of `delete edits[key]`. -/
def eraseEdits (m : Edits) (k : String) : Edits :=
  m.filter (fun kv => kv.1 != k)

/-- Model of `getPatchedEntry`: resolve the five-link chain, default the
base fields, then apply the overlay patch stored under the key built
from the call arguments. -/
def getPatchedEntry (doc : Doc) (edits : Edits)
    (periodId blockId week day exerciseId : JV) : Option Entry :=
  match getPeriod doc periodId with
  | none => none
  | some p =>
    match getBlock p blockId with
    | none => none
    | some b =>
      match getWeek b week with
      | none => none
      | some w =>
        match getDay w day with
        | none => none
        | some d =>
          match getExercise d exerciseId with
          | none => none
          | some ex =>
            some (applyPatchToEntry (baseEntryOf periodId p b w d ex)
              (lookupEdits edits (entryKey periodId blockId week day exerciseId)))

/-! ## The selection and saveEntryPatch -/

/-- The current selection (`sel`); `periodId`/`exerciseId` hold a string
or null, the numeric levels hold any JavaScript value. -/
structure Sel where
  periodId : Option String
  blockId : JV
  week : JV
  day : JV
  exerciseId : Option String
deriving DecidableEq

def jvOfStrOpt : Option String → JV
  | some s => .str s
  | none => .nul

/-- The entry key of the current selection, as built by `saveEntryPatch`
and the remove handlers. -/
def selKey (sel : Sel) : String :=
  entryKey (jvOfStrOpt sel.periodId) sel.blockId sel.week sel.day (jvOfStrOpt sel.exerciseId)

/-- Spread-merge of the unknown additional properties of two patches
(`\x7b...prev, ...part}` on the properties the core never reads). -/
def mergeMore (prev part : List (String × PV)) : List (String × PV) :=
  prev.filter (fun kv => !(part.any (fun kv2 => kv2.1 == kv.1))) ++ part

/-- Model of the object spread `\x7b...prev, ...partFields}`. -/
def mergePatch (prev part : Patch) : Patch :=
  { work := part.work <|> prev.work
    videos := part.videos <|> prev.videos
    lifterComment := part.lifterComment <|> prev.lifterComment
    coachComment := part.coachComment <|> prev.coachComment
    updatedAt := part.updatedAt <|> prev.updatedAt
    more := mergeMore prev.more part.more }

/-- Model of `saveEntryPatch`: merge the partial fields over the existing
patch, stamp `updatedAt` unconditionally, store under the selection key. -/
def saveEntryPatch (edits : Edits) (sel : Sel) (part : Patch) (now : String) : Edits :=
  let key := selKey sel
  let prev := (lookupEdits edits key).getD {}
  let next := { mergePatch prev part with updatedAt := some (.str now) }
  setEdits edits key next

/-! ## Merge/Export Engine (mergeBaseWithEdits) -/

/-- Patch application to a stored exercise node (the in-place field
assignments of the merge loop). -/
def applyPatchToExercise (ex : Exercise) (patch : Patch) : Exercise :=
  { ex with
    work := match patch.work with | some (.str s) => some s | _ => ex.work
    videos := match patch.videos with | some (.arr vs) => some vs | _ => ex.videos
    lifterComment := match patch.lifterComment with | some (.str s) => some s | _ => ex.lifterComment
    coachComment := match patch.coachComment with | some (.str s) => some s | _ => ex.coachComment
    updatedAt := match patch.updatedAt with | some (.str s) => some s | _ => ex.updatedAt }

/-- The canonical entry key of an exercise at a given document path
(`entryKey(p.id, b.id, w.week, d.day, ex.id)`). -/
def exKey (pid : String) (bid wk dy : ℚ) (eid : String) : String :=
  entryKey (.str pid) (.num bid) (.num wk) (.num dy) (.str eid)

/-- Model of `mergeBaseWithEdits`: walk every exercise of (a deep copy
of) the base and apply the patch stored under its canonical key. -/
def mergeBaseWithEdits (base : Doc) (editsMap : Edits) : Doc :=
  { periods := base.periods.map (fun p =>
    { p with blocks := p.blocks.map (fun b =>
      { b with weeks := b.weeks.map (fun w =>
        { w with days := w.days.map (fun d =>
          { d with exercises := d.exercises.map (fun ex =>
            match lookupEdits editsMap (exKey p.id b.id w.week d.day ex.id) with
            | none => ex
            | some patch => applyPatchToExercise ex patch) }) }) }) }) }

/-! ## In-place updates of the mutable document

JavaScript mutates the node object returned by the accessor; since the
accessor returns the first match, this is an update of the first
matching element. -/

def updateFirst (pred : α → Bool) (f : α → α) : List α → List α
  | [] => []
  | x :: xs => if pred x then f x :: xs else x :: updateFirst pred f xs

def updatePeriodIn (doc : Doc) (pid : JV) (f : Period → Period) : Doc :=
  ⟨updateFirst (periodPred pid) f doc.periods⟩

def updateBlockIn (doc : Doc) (pid bid : JV) (f : Block → Block) : Doc :=
  updatePeriodIn doc pid (fun p => { p with blocks := updateFirst (blockPred bid) f p.blocks })

def updateWeekIn (doc : Doc) (pid bid wk : JV) (f : Week → Week) : Doc :=
  updateBlockIn doc pid bid (fun b => { b with weeks := updateFirst (weekPred wk) f b.weeks })

def updateDayIn (doc : Doc) (pid bid wk dy : JV) (f : Day → Day) : Doc :=
  updateWeekIn doc pid bid wk (fun w => { w with days := updateFirst (dayPred dy) f w.days })

/-! ## Stable sort (the model of Array.prototype.sort with a comparator) -/

def insertSorted (le : α → α → Bool) (x : α) : List α → List α
  | [] => [x]
  | y :: ys => if le y x then y :: insertSorted le x ys else x :: y :: ys

/-- Stable insertion sort: the model of the (stable) `Array.prototype.sort`
with an ascending comparator. -/
def sortBy (le : α → α → Bool) (l : List α) : List α :=
  l.foldl (fun acc x => insertSorted le x acc) []

def blockLe (a b : Block) : Bool := decide (a.id ≤ b.id)

def weekLe (a b : Week) : Bool := decide (a.week ≤ b.week)

def dayLe (a b : Day) : Bool := decide (a.day ≤ b.day)

/-- Lexicographic code-point comparison of character lists. -/
def charListLe : List Char → List Char → Bool
  | [], _ => true
  | _ :: _, [] => false
  | a :: as, b :: bs =>
    if a.toNat < b.toNat then true
    else if b.toNat < a.toNat then false
    else charListLe as bs

/-- Code-point comparison of strings. -/
def strLe (a b : String) : Bool := charListLe a.data b.data

/-- Comparator of the exercise sort; `localeCompare` modelled as
code-point order (faithful on the ASCII names of the claims). -/
def exerciseLe (a b : Exercise) : Bool := strLe a.name b.name

/-! ## ensureSelected (the fallback-selection walk) -/

/-- The placeholder subtree pushed when the document has no periods. -/
def defaultPeriodSubtree : Period :=
  ⟨"period-1", "Period 1", [⟨1, [⟨1, [⟨1, "Day 1", []⟩]⟩]⟩]⟩

/-- The placeholder exercise pushed when a day has no exercises. -/
def defaultExercise : Exercise :=
  ⟨"exercise-1", "Exercise 1", some "", some [], some "", some "", none⟩

/-- The block found under the current selection (the chain
`getBlock(getPeriod(sel.periodId), sel.blockId)` on the current document). -/
def getBlockAt (doc : Doc) (pid bid : JV) : Option Block :=
  (getPeriod doc pid).bind (fun p => getBlock p bid)

/-- The week found under the current selection. -/
def getWeekAt (doc : Doc) (pid bid wk : JV) : Option Week :=
  (getBlockAt doc pid bid).bind (fun b => getWeek b wk)

/-- The day found under the current selection. -/
def getDayAt (doc : Doc) (pid bid wk dy : JV) : Option Day :=
  (getWeekAt doc pid bid wk).bind (fun w => getDay w dy)

/-- Document part of the period stage of `ensureSelected`: push one
placeholder period subtree if the document is empty. -/
def periodDocStep (doc : Doc) : Doc :=
  if doc.periods.isEmpty then ⟨doc.periods ++ [defaultPeriodSubtree]⟩ else doc

/-- Selection part of the period stage: default to the first period when
the selected one is absent or unresolvable, resetting the lower levels. -/
def periodSelStep (doc0 : Doc) (sel : Sel) : Sel :=
  if !(jsTruthy (jvOfStrOpt sel.periodId)) || (getPeriod doc0 (jvOfStrOpt sel.periodId)).isNone then
    ⟨some (doc0.periods.headD defaultPeriodSubtree).id, .nul, .nul, .nul, none⟩
  else sel

/-- Stage of `ensureSelected` for the period level. -/
def fixPeriodLevel (doc : Doc) (sel : Sel) : Doc × Sel :=
  (periodDocStep doc, periodSelStep (periodDocStep doc) sel)

/-- Document part of the block stage: push one placeholder block into
the selected period if it has none. -/
def blockDocStep (doc : Doc) (sel : Sel) (p : Period) : Doc :=
  if p.blocks.isEmpty then
    updatePeriodIn doc (jvOfStrOpt sel.periodId) (fun q => { q with blocks := q.blocks ++ [⟨1, []⟩] })
  else doc

/-- Selection part of the block stage. -/
def blockSelStep (sel : Sel) (p1 : Period) : Sel :=
  if !(jsTruthy sel.blockId) || (getBlock p1 sel.blockId).isNone then
    { sel with blockId := .num (p1.blocks.headD ⟨1, []⟩).id, week := .nul, day := .nul, exerciseId := none }
  else sel

/-- Stage of `ensureSelected` for the block level.  JavaScript keeps the
node object returned by the accessor and mutates it in place; the model
re-resolves the same first-match path after each update.  A `none` arm
models the TypeError the source would throw on an unresolvable
selection, leaving the state mutated so far. -/
def fixBlockLevel (doc : Doc) (sel : Sel) : Doc × Sel :=
  match getPeriod doc (jvOfStrOpt sel.periodId) with
  | none => (doc, sel)
  | some p =>
    match getPeriod (blockDocStep doc sel p) (jvOfStrOpt sel.periodId) with
    | none => (blockDocStep doc sel p, sel)
    | some p1 => (blockDocStep doc sel p, blockSelStep sel p1)

/-- Document part of the week stage. -/
def weekDocStep (doc : Doc) (sel : Sel) (b : Block) : Doc :=
  if b.weeks.isEmpty then
    updateBlockIn doc (jvOfStrOpt sel.periodId) sel.blockId (fun c => { c with weeks := c.weeks ++ [⟨1, []⟩] })
  else doc

/-- Selection part of the week stage. -/
def weekSelStep (sel : Sel) (b1 : Block) : Sel :=
  if !(jsTruthy sel.week) || (getWeek b1 sel.week).isNone then
    { sel with week := .num (b1.weeks.headD ⟨1, []⟩).week, day := .nul, exerciseId := none }
  else sel

/-- Stage of `ensureSelected` for the week level. -/
def fixWeekLevel (doc : Doc) (sel : Sel) : Doc × Sel :=
  match getBlockAt doc (jvOfStrOpt sel.periodId) sel.blockId with
  | none => (doc, sel)
  | some b =>
    match getBlockAt (weekDocStep doc sel b) (jvOfStrOpt sel.periodId) sel.blockId with
    | none => (weekDocStep doc sel b, sel)
    | some b1 => (weekDocStep doc sel b, weekSelStep sel b1)

/-- Document part of the day stage. -/
def dayDocStep (doc : Doc) (sel : Sel) (w : Week) : Doc :=
  if w.days.isEmpty then
    updateWeekIn doc (jvOfStrOpt sel.periodId) sel.blockId sel.week
      (fun v => { v with days := v.days ++ [⟨1, "Day 1", []⟩] })
  else doc

/-- Selection part of the day stage. -/
def daySelStep (sel : Sel) (w1 : Week) : Sel :=
  if !(jsTruthy sel.day) || (getDay w1 sel.day).isNone then
    { sel with day := .num (w1.days.headD ⟨1, "Day 1", []⟩).day, exerciseId := none }
  else sel

/-- Stage of `ensureSelected` for the day level. -/
def fixDayLevel (doc : Doc) (sel : Sel) : Doc × Sel :=
  match getWeekAt doc (jvOfStrOpt sel.periodId) sel.blockId sel.week with
  | none => (doc, sel)
  | some w =>
    match getWeekAt (dayDocStep doc sel w) (jvOfStrOpt sel.periodId) sel.blockId sel.week with
    | none => (dayDocStep doc sel w, sel)
    | some w1 => (dayDocStep doc sel w, daySelStep sel w1)

/-- Document part of the exercise stage. -/
def exerciseDocStep (doc : Doc) (sel : Sel) (d : Day) : Doc :=
  if d.exercises.isEmpty then
    updateDayIn doc (jvOfStrOpt sel.periodId) sel.blockId sel.week sel.day
      (fun e => { e with exercises := e.exercises ++ [defaultExercise] })
  else doc

/-- Selection part of the exercise stage. -/
def exerciseSelStep (sel : Sel) (d1 : Day) : Sel :=
  if !(jsTruthy (jvOfStrOpt sel.exerciseId)) || (getExercise d1 (jvOfStrOpt sel.exerciseId)).isNone then
    { sel with exerciseId := some (d1.exercises.headD defaultExercise).id }
  else sel

/-- Stage of `ensureSelected` for the exercise level. -/
def fixExerciseLevel (doc : Doc) (sel : Sel) : Doc × Sel :=
  match getDayAt doc (jvOfStrOpt sel.periodId) sel.blockId sel.week sel.day with
  | none => (doc, sel)
  | some d =>
    match getDayAt (exerciseDocStep doc sel d) (jvOfStrOpt sel.periodId) sel.blockId sel.week sel.day with
    | none => (exerciseDocStep doc sel d, sel)
    | some d1 => (exerciseDocStep doc sel d, exerciseSelStep sel d1)

/-- Model of `ensureSelected`: the cascading fallback-selection walk,
creating one placeholder child at each empty level along the selection. -/
def ensureSelected (doc : Doc) (sel : Sel) : Doc × Sel :=
  let s1 := fixPeriodLevel doc sel
  let s2 := fixBlockLevel s1.1 s1.2
  let s3 := fixWeekLevel s2.1 s2.2
  let s4 := fixDayLevel s3.1 s3.2
  fixExerciseLevel s4.1 s4.2

/-! ## Structure Mutator handlers

Each handler is the body of the corresponding button listener in
`wireManager`.  The result is `none` when the JavaScript code would
throw a TypeError on an unresolvable selection; toast-and-return
rejections return the state unchanged.  Persistence and rendering are
external; `renderNav`'s own selection defaulting never changes a
selection that `ensureSelected` has produced. -/

structure St where
  doc : Doc
  sel : Sel
  edits : Edits
deriving DecidableEq

/-- Model of the `btnAddPeriod` click handler. -/
def addPeriod (st : St) (nameInput : String) : St :=
  let name := jsTrim nameInput
  if name.isEmpty then st
  else
    let id := slugify name
    if st.doc.periods.any (fun p => p.id == id) then st
    else
      let doc : Doc := ⟨st.doc.periods ++ [⟨id, name, []⟩]⟩
      let sel : Sel := ⟨some id, .nul, .nul, .nul, none⟩
      let ds := ensureSelected doc sel
      ⟨ds.1, ds.2, st.edits⟩

/-- Model of the `btnAddBlock` click handler. -/
def addBlock (st : St) (numInput : String) : Option St :=
  match jsStringToNumber numInput with
  | none => some st
  | some blockId =>
    if blockId == 0 || decide (blockId < 1) then some st
    else
      match getPeriod st.doc (jvOfStrOpt st.sel.periodId) with
      | none => none
      | some p =>
        if p.blocks.any (fun b => b.id == blockId) then some st
        else
          let doc := updatePeriodIn st.doc (jvOfStrOpt st.sel.periodId)
            (fun q => { q with blocks := sortBy blockLe (q.blocks ++ [⟨blockId, []⟩]) })
          let sel := { st.sel with blockId := .num blockId, week := .nul, day := .nul, exerciseId := none }
          let ds := ensureSelected doc sel
          some ⟨ds.1, ds.2, st.edits⟩

/-- Model of the `btnAddWeek` click handler. -/
def addWeek (st : St) (numInput : String) : Option St :=
  match getPeriod st.doc (jvOfStrOpt st.sel.periodId) with
  | none => none
  | some p =>
    let bOpt := getBlock p st.sel.blockId
    match jsStringToNumber numInput with
    | none => some st
    | some week =>
      if week == 0 || decide (week < 1) then some st
      else
        match bOpt with
        | none => none
        | some b =>
          if b.weeks.any (fun w => w.week == week) then some st
          else
            let doc := updateBlockIn st.doc (jvOfStrOpt st.sel.periodId) st.sel.blockId
              (fun c => { c with weeks := sortBy weekLe (c.weeks ++ [⟨week, []⟩]) })
            let sel := { st.sel with week := .num week, day := .nul, exerciseId := none }
            let ds := ensureSelected doc sel
            some ⟨ds.1, ds.2, st.edits⟩

/-- Model of the `btnAddDay` click handler. -/
def addDay (st : St) (numInput labelInput : String) : Option St :=
  match getPeriod st.doc (jvOfStrOpt st.sel.periodId) with
  | none => none
  | some p =>
    match getBlock p st.sel.blockId with
    | none => none
    | some b =>
      let wOpt := getWeek b st.sel.week
      match jsStringToNumber numInput with
      | none => some st
      | some day =>
        if day == 0 || decide (day < 1) then some st
        else
          match wOpt with
          | none => none
          | some w =>
            if w.days.any (fun d => d.day == day) then some st
            else
              let label0 := jsTrim labelInput
              let label := if label0.isEmpty then "Day " ++ jsNumToString day else label0
              let doc := updateWeekIn st.doc (jvOfStrOpt st.sel.periodId) st.sel.blockId st.sel.week
                (fun v => { v with days := sortBy dayLe (v.days ++ [⟨day, label, []⟩]) })
              let sel := { st.sel with day := .num day, exerciseId := none }
              let ds := ensureSelected doc sel
              some ⟨ds.1, ds.2, st.edits⟩

/-- Model of the `btnAddExercise` click handler. -/
def addExercise (st : St) (nameInput workInput : String) : Option St :=
  match getPeriod st.doc (jvOfStrOpt st.sel.periodId) with
  | none => none
  | some p =>
    match getBlock p st.sel.blockId with
    | none => none
    | some b =>
      match getWeek b st.sel.week with
      | none => none
      | some w =>
        let dOpt := getDay w st.sel.day
        let name := jsTrim nameInput
        if name.isEmpty then some st
        else
          let id := slugify name
          match dOpt with
          | none => none
          | some d =>
            if d.exercises.any (fun e => e.id == id) then some st
            else
              let work := jsTrim workInput
              let newEx : Exercise := ⟨id, name, some work, some [], some "", some "", none⟩
              let doc := updateDayIn st.doc (jvOfStrOpt st.sel.periodId) st.sel.blockId st.sel.week st.sel.day
                (fun e => { e with exercises := sortBy exerciseLe (e.exercises ++ [newEx]) })
              let sel := { st.sel with exerciseId := some id }
              let ds := ensureSelected doc sel
              some ⟨ds.1, ds.2, st.edits⟩

/-- Remove the first element satisfying the predicate
(`findIndex` + `splice(idx, 1)`). -/
def removeFirst (pred : α → Bool) : List α → List α
  | [] => []
  | x :: xs => if pred x then xs else x :: removeFirst pred xs

/-- Model of the `btnRemoveExercise` click handler: splice out the
exercise, delete its overlay key, reset the selection. -/
def removeExercise (st : St) : Option St :=
  match getPeriod st.doc (jvOfStrOpt st.sel.periodId) with
  | none => none
  | some p =>
    match getBlock p st.sel.blockId with
    | none => none
    | some b =>
      match getWeek b st.sel.week with
      | none => none
      | some w =>
        match getDay w st.sel.day with
        | none => none
        | some d =>
          let pred := fun (e : Exercise) => jvOfStrOpt st.sel.exerciseId == JV.str e.id
          if d.exercises.any pred then
            let doc := updateDayIn st.doc (jvOfStrOpt st.sel.periodId) st.sel.blockId st.sel.week st.sel.day
              (fun e => { e with exercises := removeFirst pred e.exercises })
            let key := selKey st.sel
            let edits := eraseEdits st.edits key
            let sel := { st.sel with exerciseId := none }
            let ds := ensureSelected doc sel
            some ⟨ds.1, ds.2, edits⟩
          else some st

/-- Model of the `btnRemoveDay` click handler.  Note: the overlay is not
touched. -/
def removeDay (st : St) : Option St :=
  match getPeriod st.doc (jvOfStrOpt st.sel.periodId) with
  | none => none
  | some p =>
    match getBlock p st.sel.blockId with
    | none => none
    | some b =>
      match getWeek b st.sel.week with
      | none => none
      | some w =>
        let pred := fun (d : Day) => jsToNumber st.sel.day == some d.day
        if w.days.any pred then
          let doc := updateWeekIn st.doc (jvOfStrOpt st.sel.periodId) st.sel.blockId st.sel.week
            (fun v => { v with days := removeFirst pred v.days })
          let sel := { st.sel with day := .nul, exerciseId := none }
          let ds := ensureSelected doc sel
          some ⟨ds.1, ds.2, st.edits⟩
        else some st

/-- Model of the `btnRemoveWeek` click handler.  The overlay is not
touched. -/
def removeWeek (st : St) : Option St :=
  match getPeriod st.doc (jvOfStrOpt st.sel.periodId) with
  | none => none
  | some p =>
    match getBlock p st.sel.blockId with
    | none => none
    | some b =>
      let pred := fun (w : Week) => jsToNumber st.sel.week == some w.week
      if b.weeks.any pred then
        let doc := updateBlockIn st.doc (jvOfStrOpt st.sel.periodId) st.sel.blockId
          (fun c => { c with weeks := removeFirst pred c.weeks })
        let sel := { st.sel with week := .nul, day := .nul, exerciseId := none }
        let ds := ensureSelected doc sel
        some ⟨ds.1, ds.2, st.edits⟩
      else some st

/-- Model of the `btnRemoveBlock` click handler (note the numeric
comparison `Number(b.id) === Number(sel.blockId)`).  The overlay is not
touched. -/
def removeBlock (st : St) : Option St :=
  match getPeriod st.doc (jvOfStrOpt st.sel.periodId) with
  | none => none
  | some p =>
    let pred := fun (b : Block) => jsToNumber st.sel.blockId == some b.id
    if p.blocks.any pred then
      let doc := updatePeriodIn st.doc (jvOfStrOpt st.sel.periodId)
        (fun q => { q with blocks := removeFirst pred q.blocks })
      let sel := { st.sel with blockId := .nul, week := .nul, day := .nul, exerciseId := none }
      let ds := ensureSelected doc sel
      some ⟨ds.1, ds.2, st.edits⟩
    else some st

/-- Model of the `btnRemovePeriod` click handler.  The overlay is not
touched. -/
def removePeriod (st : St) : St :=
  let pred := fun (p : Period) => st.sel.periodId == some p.id
  if st.doc.periods.any pred then
    let doc : Doc := ⟨removeFirst pred st.doc.periods⟩
    let sel : Sel := ⟨none, .nul, .nul, .nul, none⟩
    let ds := ensureSelected doc sel
    ⟨ds.1, ds.2, st.edits⟩
  else st

/-! ## The specified merge (§4.6), stated from the spec for the
refinement claim -/

/-- Modelled from the spec (§4.6): apply one overlay entry by decoding
its key to a locator (exactly five segments), resolving it via the
Hierarchy Accessor, and overwriting the exercise in place if found. -/
def applyOverlayKeySpec (doc : Doc) (k : String) (patch : Patch) : Doc :=
  match (splitChar '|' k.data).map String.mk with
  | [pid, bid, wk, dy, eid] =>
    match resolveLocator doc (.str pid) (.str bid) (.str wk) (.str dy) (.str eid) with
    | none => doc
    | some _ =>
      let pe := exercisePred (JV.str eid)
      let fe := fun ex => applyPatchToExercise ex patch
      updateDayIn doc (.str pid) (.str bid) (.str wk) (.str dy)
        (fun d => { d with exercises := updateFirst pe fe d.exercises })
  | _ => doc

/-- Modelled from the spec (§4.6): fold every overlay entry into a deep
copy of the base document. -/
def mergeOverlayIntoBaseSpec (doc : Doc) (overlay : Edits) : Doc :=
  overlay.foldl (fun acc kv => applyOverlayKeySpec acc kv.1 kv.2) doc

/-! ## Invariants and canonical keys -/

/-- An identifier slug never contains the reserved separator (the ids of
§3 are URL-safe slugs; `slugify` output is a fortiori separator-free). -/
def slugSepFree (s : String) : Prop := '|' ∉ s.data

instance (s : String) : Decidable (slugSepFree s) := by
  unfold slugSepFree; infer_instance

/-- A JavaScript number holding an integer. -/
def intQ (q : ℚ) : Prop := q.den = 1

instance (q : ℚ) : Decidable (intQ q) := by
  unfold intQ; infer_instance

/-- The §3 uniqueness/shape invariants of a base document: identifiers
unique at each level, slugs separator-free, numeric levels integral. -/
def docInv (doc : Doc) : Prop :=
  (doc.periods.map Period.id).Nodup ∧
  ∀ p ∈ doc.periods, slugSepFree p.id ∧
    (p.blocks.map Block.id).Nodup ∧
    ∀ b ∈ p.blocks, intQ b.id ∧
      (b.weeks.map Week.week).Nodup ∧
      ∀ w ∈ b.weeks, intQ w.week ∧
        (w.days.map Day.day).Nodup ∧
        ∀ d ∈ w.days, intQ d.day ∧
          (d.exercises.map Exercise.id).Nodup ∧
          ∀ e ∈ d.exercises, slugSepFree e.id

instance (doc : Doc) : Decidable (docInv doc) := by
  unfold docInv; infer_instance

/-- A canonical integer segment: the decimal rendering of an integer. -/
def canonIntSeg (s : String) : Bool :=
  match parseIntStrict s.data with
  | some n => intDecimal n == s
  | none => false

/-- A canonical entry key: exactly five segments with the three numeric
segments in canonical integer form (the image of `entryKey` on
locators). -/
def canonKeyB (k : String) : Bool :=
  match (splitChar '|' k.data).map String.mk with
  | [_, bid, wk, dy, _] => canonIntSeg bid && canonIntSeg wk && canonIntSeg dy
  | _ => false

def canonKey (k : String) : Prop := canonKeyB k = true

instance (k : String) : Decidable (canonKey k) := by
  unfold canonKey; infer_instance

/-! ## Generic lemmas about the list operations of the model -/

theorem find?_updateFirst_same (pred : α → Bool) (f : α → α) (l : List α)
    (h : ∀ x, pred (f x) = pred x) :
    (updateFirst pred f l).find? pred = (l.find? pred).map f := by
  induction l with
  | nil => rfl
  | cons x xs ih =>
    by_cases hx : pred x = true
    · rw [updateFirst, if_pos hx, List.find?_cons_of_pos _ (by rw [h x]; exact hx),
        List.find?_cons_of_pos _ hx]
      rfl
    · rw [updateFirst, if_neg hx,
        List.find?_cons_of_neg _ hx, List.find?_cons_of_neg _ hx]
      exact ih

theorem find?_updateFirst_cases (pred1 pred2 : α → Bool) (f : α → α) (l : List α)
    (h : ∀ x, pred2 (f x) = pred2 x) :
    (updateFirst pred1 f l).find? pred2 = l.find? pred2 ∨
    ∃ x, l.find? pred1 = some x ∧ l.find? pred2 = some x ∧
      (updateFirst pred1 f l).find? pred2 = some (f x) := by
  induction l with
  | nil => left; rfl
  | cons x xs ih =>
    by_cases h1 : pred1 x = true
    · by_cases h2 : pred2 x = true
      · right
        exact ⟨x, List.find?_cons_of_pos _ h1, List.find?_cons_of_pos _ h2, by
          rw [updateFirst, if_pos h1, List.find?_cons_of_pos _ (by rw [h x]; exact h2)]⟩
      · left
        rw [updateFirst, if_pos h1, List.find?_cons_of_neg _ (by rw [h x]; exact h2),
          List.find?_cons_of_neg _ h2]
    · by_cases h2 : pred2 x = true
      · left
        rw [updateFirst, if_neg h1, List.find?_cons_of_pos _ h2, List.find?_cons_of_pos _ h2]
      · rw [updateFirst, if_neg h1, List.find?_cons_of_neg _ h2, List.find?_cons_of_neg _ h2]
        rcases ih with hl | ⟨y, hy1, hy2, hy3⟩
        · left; exact hl
        · right; exact ⟨y, by rw [List.find?_cons_of_neg _ h1]; exact hy1, hy2, hy3⟩

theorem updateFirst_map (g : α → β) (pred : α → Bool) (f : α → α) (l : List α)
    (h : ∀ x, g (f x) = g x) :
    (updateFirst pred f l).map g = l.map g := by
  induction l with
  | nil => rfl
  | cons x xs ih =>
    by_cases hx : pred x = true
    · rw [updateFirst, if_pos hx]
      simp [h x]
    · rw [updateFirst, if_neg hx]
      simp only [List.map_cons, ih]

theorem map_eq_self_of_id (l : List α) (g : α → α) (h : ∀ y ∈ l, g y = y) :
    l.map g = l := by
  induction l with
  | nil => rfl
  | cons x xs ih =>
    rw [List.map_cons, h x (List.mem_cons_self x xs),
      ih (fun y hy => h y (List.mem_cons_of_mem x hy))]

theorem updateFirst_eq_map (pred : α → Bool) (f g : α → α) (l : List α)
    (hp : List.Pairwise (fun a b => pred a = false ∨ pred b = false) l)
    (h1 : ∀ x ∈ l, pred x = false → g x = x)
    (h2 : ∀ x ∈ l, pred x = true → f x = g x) :
    updateFirst pred f l = l.map g := by
  induction l with
  | nil => rfl
  | cons x xs ih =>
    rcases List.pairwise_cons.mp hp with ⟨hx, hxs⟩
    by_cases hpx : pred x = true
    · have hall : ∀ y ∈ xs, g y = y := by
        intro y hy
        have hpy : pred y = false := by
          rcases hx y hy with h | h
          · rw [hpx] at h; exact absurd h (by simp)
          · exact h
        exact h1 y (List.mem_cons_of_mem x hy) hpy
      rw [updateFirst, if_pos hpx, List.map_cons, h2 x (List.mem_cons_self x xs) hpx,
        map_eq_self_of_id xs g hall]
    · rw [updateFirst, if_neg hpx, List.map_cons,
        h1 x (List.mem_cons_self x xs) (by simpa using hpx)]
      congr 1
      exact ih hxs (fun y hy => h1 y (List.mem_cons_of_mem x hy))
        (fun y hy => h2 y (List.mem_cons_of_mem x hy))

theorem removeFirst_of_all_neg (pred : α → Bool) (l : List α)
    (h : ∀ x ∈ l, pred x = false) : removeFirst pred l = l := by
  induction l with
  | nil => rfl
  | cons x xs ih =>
    rw [removeFirst, if_neg (by simp [h x (List.mem_cons_self x xs)])]
    rw [ih (fun y hy => h y (List.mem_cons_of_mem x hy))]

theorem lookupEdits_cons (k1 : String) (p1 : Patch) (m : Edits) (k : String) :
    lookupEdits ((k1, p1) :: m) k = if k1 = k then some p1 else lookupEdits m k := by
  by_cases h : k1 = k
  · rw [if_pos h]
    unfold lookupEdits
    rw [List.find?_cons_of_pos _ (by simpa using h)]
    rfl
  · rw [if_neg h]
    unfold lookupEdits
    rw [List.find?_cons_of_neg _ (by simpa using h)]

theorem lookupEdits_eraseEdits (m : Edits) (k k' : String) :
    lookupEdits (eraseEdits m k) k' = if k' = k then none else lookupEdits m k' := by
  induction m with
  | nil =>
    unfold lookupEdits eraseEdits
    simp only [List.filter_nil, List.find?_nil, Option.map_none']
    split <;> rfl
  | cons kv m ih =>
    rcases kv with ⟨k1, p1⟩
    unfold eraseEdits
    rw [List.filter_cons]
    by_cases h1 : k1 = k
    · have : ((k1, p1).1 != k) = false := by simp [h1]
      rw [this]
      simp only [Bool.false_eq_true, if_false]
      unfold eraseEdits at ih
      rw [ih]
      by_cases h2 : k' = k
      · rw [if_pos h2, if_pos h2]
      · rw [if_neg h2, if_neg h2, lookupEdits_cons, if_neg (by rw [h1]; exact fun he => h2 he.symm)]
    · have : ((k1, p1).1 != k) = true := by simp [h1]
      rw [this]
      simp only [if_true]
      rw [lookupEdits_cons]
      by_cases h3 : k1 = k'
      · rw [if_pos h3]
        have h2 : ¬(k' = k) := fun he => h1 (h3.trans he)
        rw [if_neg h2, lookupEdits_cons, if_pos h3]
      · rw [if_neg h3]
        unfold eraseEdits at ih
        rw [ih]
        by_cases h2 : k' = k
        · rw [if_pos h2, if_pos h2]
        · rw [if_neg h2, if_neg h2, lookupEdits_cons, if_neg h3]

theorem lookupEdits_setEdits_self (m : Edits) (k : String) (p : Patch) :
    lookupEdits (setEdits m k p) k = some p := by
  unfold setEdits
  by_cases h : m.any (fun kv => kv.1 == k) = true
  · rw [if_pos h]
    induction m with
    | nil => rw [List.any_nil] at h; exact absurd h (by decide)
    | cons kv m ih =>
      rcases kv with ⟨k1, p1⟩
      by_cases h1 : k1 = k
      · simp only [List.map_cons]
        rw [if_pos (by simpa using h1)]
        rw [lookupEdits_cons, if_pos rfl]
      · simp only [List.map_cons]
        rw [if_neg (by simpa using h1)]
        rw [lookupEdits_cons, if_neg h1]
        rcases List.any_eq_true.mp h with ⟨x, hx, hpx⟩
        rcases List.mem_cons.mp hx with he | hm
        · exfalso; apply h1; subst he; simpa using hpx
        · exact ih (List.any_eq_true.mpr ⟨x, hm, hpx⟩)
  · rw [if_neg h]
    have hnone : lookupEdits m k = none := by
      unfold lookupEdits
      rw [List.find?_eq_none.mpr]
      · rfl
      · intro x hx hpx
        exact h (List.any_eq_true.mpr ⟨x, hx, hpx⟩)
    unfold lookupEdits at hnone ⊢
    rw [List.find?_append]
    rcases hf : m.find? (fun kv => kv.1 == k) with _ | y
    · rw [hf]
      simp only [Option.none_or]
      rw [List.find?_cons_of_pos _ (by simp)]
      rfl
    · rw [hf] at hnone; simp at hnone

/-! ## Claim C5 -/

/-- C5: applyPatchToEntry performs a field-level override: each of the
five overlayable fields equals the patch value exactly when the patch
supplies it with the expected shape (string for the text fields and
updatedAt, array for videos) and the base value otherwise; a videos
patch fully replaces the base sequence, and wrong-shape patch fields are
ignored in favour of the base value. -/
theorem c5_applyPatchToEntry_override (e : Entry) (p : Patch) :
    ((applyPatchToEntry e (some p)).work =
      match p.work with | some (.str s) => s | _ => e.work) ∧
    ((applyPatchToEntry e (some p)).videos =
      match p.videos with | some (.arr vs) => vs | _ => e.videos) ∧
    ((applyPatchToEntry e (some p)).lifterComment =
      match p.lifterComment with | some (.str s) => s | _ => e.lifterComment) ∧
    ((applyPatchToEntry e (some p)).coachComment =
      match p.coachComment with | some (.str s) => s | _ => e.coachComment) ∧
    ((applyPatchToEntry e (some p)).updatedAt =
      match p.updatedAt with | some (.str s) => some s | _ => e.updatedAt) ∧
    (applyPatchToEntry e none = e) :=
  ⟨rfl, rfl, rfl, rfl, rfl, rfl⟩

/-! ## Claim C10 -/

/-- C10: applyPatchToEntry never touches the identity and
ancestor-context fields of the resolved entry: for every patch,
including one carrying arbitrary additional fields, periodId,
periodName, blockId, week, day, exerciseId and exerciseName all equal
the base entry's values. -/
theorem c10_applyPatchToEntry_frame (e : Entry) (p : Option Patch) :
    (applyPatchToEntry e p).periodId = e.periodId ∧
    (applyPatchToEntry e p).periodName = e.periodName ∧
    (applyPatchToEntry e p).blockId = e.blockId ∧
    (applyPatchToEntry e p).week = e.week ∧
    (applyPatchToEntry e p).day = e.day ∧
    (applyPatchToEntry e p).exerciseId = e.exerciseId ∧
    (applyPatchToEntry e p).exerciseName = e.exerciseName := by
  cases p <;> exact ⟨rfl, rfl, rfl, rfl, rfl, rfl, rfl⟩

/-! ## Claim C6 -/

/-- C6: after saveEntryPatch writes partial fields under the selection
key, the stored patch is the previous patch overridden field-by-field by
the supplied partial fields (the previous value survives exactly for
fields the partial record does not supply), updatedAt is stamped to the
write time unconditionally, and an immediately following get returns
this patch. -/
theorem c6_saveEntryPatch_upsert (edits : Edits) (sel : Sel) (part : Patch) (now : String) :
    lookupEdits (saveEntryPatch edits sel part now) (selKey sel) =
      some { work := part.work <|> ((lookupEdits edits (selKey sel)).getD {}).work
             videos := part.videos <|> ((lookupEdits edits (selKey sel)).getD {}).videos
             lifterComment := part.lifterComment <|> ((lookupEdits edits (selKey sel)).getD {}).lifterComment
             coachComment := part.coachComment <|> ((lookupEdits edits (selKey sel)).getD {}).coachComment
             updatedAt := some (.str now)
             more := mergeMore ((lookupEdits edits (selKey sel)).getD {}).more part.more } := by
  unfold saveEntryPatch
  rw [lookupEdits_setEdits_self]
  rfl

/-! ## Claim C4 -/

theorem pipe_not_mem_natDecimal (n : Nat) : '|' ∉ (natDecimal n).data := by
  intro hm
  have := natDecimal_mem_digit n '|' hm
  exact absurd this (by decide)

theorem intDecimal_data (n : Int) :
    (intDecimal n).data = if n < 0 then '-' :: (natDecimal n.natAbs).data
      else (natDecimal n.natAbs).data := by
  unfold intDecimal
  split <;> rfl

theorem pipe_not_mem_intDecimal (n : Int) : '|' ∉ (intDecimal n).data := by
  rw [intDecimal_data]
  split
  · intro hm
    rcases List.mem_cons.mp hm with h | h
    · exact absurd h (by decide)
    · exact pipe_not_mem_natDecimal n.natAbs h
  · exact pipe_not_mem_natDecimal n.natAbs

/-- On an integer-valued JavaScript number, String() prints the integer. -/
theorem jsNumToString_intCast (n : Int) : jsNumToString ((n : Int) : ℚ) = intDecimal n := by
  unfold jsNumToString
  rw [if_pos (Rat.den_intCast n), Rat.num_intCast]

theorem entryKey_data (v1 v2 v3 v4 v5 : JV) :
    (entryKey v1 v2 v3 v4 v5).data =
      joinChar '|' [(jsJoinStr v1).data, (jsJoinStr v2).data, (jsJoinStr v3).data,
        (jsJoinStr v4).data, (jsJoinStr v5).data] := rfl

/-- Decoding an encoded key with separator-free components recovers the
five components. -/
theorem decodeKey_entryKey (v1 v2 v3 v4 v5 : JV)
    (h1 : '|' ∉ (jsJoinStr v1).data) (h2 : '|' ∉ (jsJoinStr v2).data)
    (h3 : '|' ∉ (jsJoinStr v3).data) (h4 : '|' ∉ (jsJoinStr v4).data)
    (h5 : '|' ∉ (jsJoinStr v5).data) :
    decodeKey (entryKey v1 v2 v3 v4 v5) =
      [jsJoinStr v1, jsJoinStr v2, jsJoinStr v3, jsJoinStr v4, jsJoinStr v5] := by
  unfold decodeKey
  rw [entryKey_data, splitChar_joinChar '|' _ (by simp) (by
    intro q hq
    simp only [List.mem_cons, List.not_mem_nil, or_false] at hq
    rcases hq with rfl | rfl | rfl | rfl | rfl
    exacts [h1, h2, h3, h4, h5])]
  rfl

/-- C4 counterexample: the decode side does not fail on a key of six
segments; the destructuring yields five fully defined components (the
first five segments), so a key that does not consist of exactly five
segments is not rejected, contrary to the claim. -/
theorem c4_counterexample :
    (decodeKey "a|1|2|3|e|x").length ≠ 5 ∧
    decodeComp "a|1|2|3|e|x" 0 = some "a" ∧
    decodeComp "a|1|2|3|e|x" 1 = some "1" ∧
    decodeComp "a|1|2|3|e|x" 2 = some "2" ∧
    decodeComp "a|1|2|3|e|x" 3 = some "3" ∧
    decodeComp "a|1|2|3|e|x" 4 = some "e" := by
  refine ⟨?_, ?_, ?_, ?_, ?_, ?_⟩ <;> decide

/-- C4 (amended): encoding joins the five components with the reserved
separator and, on locators whose slug components are separator-free,
decoding recovers exactly the original components (numeric ones as their
decimal serialisations); encoding is injective on such locators and
independent of the number-versus-decimal-string representation of the
numeric components.  Decoding, however, never fails on oversized keys:
it takes the first five segments, and only keys with fewer than five
segments leave trailing components undefined. -/
theorem c4_codec_amended (pid eid : String) (b w d : Int)
    (hp : slugSepFree pid) (he : slugSepFree eid) :
    (decodeKey (entryKey (.str pid) (.num (b : ℚ)) (.num (w : ℚ)) (.num (d : ℚ)) (.str eid)) =
      [pid, intDecimal b, intDecimal w, intDecimal d, eid]) ∧
    (entryKey (.str pid) (.num (b : ℚ)) (.num (w : ℚ)) (.num (d : ℚ)) (.str eid) =
      entryKey (.str pid) (.str (intDecimal b)) (.str (intDecimal w)) (.str (intDecimal d)) (.str eid)) ∧
    (∀ pid2 eid2 : String, ∀ b2 w2 d2 : Int, slugSepFree pid2 → slugSepFree eid2 →
      entryKey (.str pid) (.num (b : ℚ)) (.num (w : ℚ)) (.num (d : ℚ)) (.str eid) =
        entryKey (.str pid2) (.num (b2 : ℚ)) (.num (w2 : ℚ)) (.num (d2 : ℚ)) (.str eid2) →
      pid = pid2 ∧ b = b2 ∧ w = w2 ∧ d = d2 ∧ eid = eid2) ∧
    (∀ k : String, (decodeKey k).length < 5 → decodeComp k 4 = none) ∧
    (∀ k : String, 5 ≤ (decodeKey k).length → (decodeComp k 4).isSome = true) := by
  have hjoin : ∀ m : Int, jsJoinStr (.num ((m : Int) : ℚ)) = intDecimal m := fun m => by
    show jsNumToString ((m : Int) : ℚ) = intDecimal m
    exact jsNumToString_intCast m
  have hdec : decodeKey (entryKey (.str pid) (.num (b : ℚ)) (.num (w : ℚ)) (.num (d : ℚ)) (.str eid)) =
      [pid, intDecimal b, intDecimal w, intDecimal d, eid] := by
    rw [decodeKey_entryKey _ _ _ _ _ (show '|' ∉ (jsJoinStr (.str pid)).data from hp)
      (by rw [hjoin b]; exact pipe_not_mem_intDecimal b)
      (by rw [hjoin w]; exact pipe_not_mem_intDecimal w)
      (by rw [hjoin d]; exact pipe_not_mem_intDecimal d)
      (show '|' ∉ (jsJoinStr (.str eid)).data from he)]
    rw [hjoin b, hjoin w, hjoin d]
    rfl
  refine ⟨hdec, ?_, ?_, ?_, ?_⟩
  · show String.mk _ = String.mk _
    congr 2
  · intro pid2 eid2 b2 w2 d2 hp2 he2 heq
    have hdec2 : decodeKey (entryKey (.str pid2) (.num (b2 : ℚ)) (.num (w2 : ℚ)) (.num (d2 : ℚ)) (.str eid2)) =
        [pid2, intDecimal b2, intDecimal w2, intDecimal d2, eid2] := by
      rw [decodeKey_entryKey _ _ _ _ _ (show '|' ∉ (jsJoinStr (.str pid2)).data from hp2)
        (by rw [hjoin b2]; exact pipe_not_mem_intDecimal b2)
        (by rw [hjoin w2]; exact pipe_not_mem_intDecimal w2)
        (by rw [hjoin d2]; exact pipe_not_mem_intDecimal d2)
        (show '|' ∉ (jsJoinStr (.str eid2)).data from he2)]
      rw [hjoin b2, hjoin w2, hjoin d2]
      rfl
    rw [heq, hdec2] at hdec
    injection hdec with e1 hdec
    injection hdec with e2 hdec
    injection hdec with e3 hdec
    injection hdec with e4 hdec
    injection hdec with e5 _
    exact ⟨e1.symm, intDecimal_injective e2.symm, intDecimal_injective e3.symm,
      intDecimal_injective e4.symm, e5.symm⟩
  · intro k hlen
    unfold decodeComp
    exact List.getElem?_eq_none (by omega)
  · intro k hlen
    unfold decodeComp
    rw [List.getElem?_eq_getElem (by omega)]
    rfl

/-! ## Claim C2 -/

/-- C2: getPatchedEntry returns the not-found sentinel exactly when one
of the five chained lookups fails, for every overlay whatsoever; when
all five succeed it returns the base entry with missing optional fields
defaulted and the overlay patch applied on top. -/
theorem c2_getPatchedEntry_resolution (doc : Doc) (edits : Edits)
    (pid bid wk dy eid : JV) :
    (getPatchedEntry doc edits pid bid wk dy eid = none ↔
      resolveLocator doc pid bid wk dy eid = none) ∧
    (∀ p b w d ex, getPeriod doc pid = some p → getBlock p bid = some b →
      getWeek b wk = some w → getDay w dy = some d → getExercise d eid = some ex →
      getPatchedEntry doc edits pid bid wk dy eid =
        some (applyPatchToEntry (baseEntryOf pid p b w d ex)
          (lookupEdits edits (entryKey pid bid wk dy eid)))) := by
  constructor
  · unfold getPatchedEntry resolveLocator
    rcases hp : getPeriod doc pid with _ | p
    · simp
    · rcases hb : getBlock p bid with _ | b
      · simp [hb]
      · rcases hw : getWeek b wk with _ | w
        · simp [hb, hw]
        · rcases hd : getDay w dy with _ | d
          · simp [hb, hw, hd]
          · rcases he : getExercise d eid with _ | ex
            · simp [hb, hw, hd, he]
            · simp [hb, hw, hd, he]
  · intro p b w d ex hp hb hw hd he
    unfold getPatchedEntry
    rw [hp]
    simp [hb, hw, hd, he]

/-! ## Concrete fixtures (the document of the spec's scenarios) -/

def exSquat : Exercise := ⟨"squat", "Squat", some "5x5", some [], some "", some "", none⟩

def cDay : Day := ⟨1, "Day 1", [exSquat]⟩

def cWeek : Week := ⟨1, [cDay]⟩

def cBlock : Block := ⟨1, [cWeek]⟩

def cPeriod : Period := ⟨"serie-1-2026", "Serie 1 2026", [cBlock]⟩

def cDoc : Doc := ⟨[cPeriod]⟩

def cSel : Sel := ⟨some "serie-1-2026", .num 1, .num 1, .num 1, some "squat"⟩

def cPatch : Patch := { work := some (.str "OLD") }

def cEdits : Edits := [("serie-1-2026|1|1|1|squat", cPatch)]

def cSt : St := ⟨cDoc, cSel, cEdits⟩

theorem c2_getPatchedEntry_resolution_witness :
    getPatchedEntry cDoc cEdits (.str "serie-1-2026") (.num 1) (.num 1) (.num 1) (.str "squat") =
      some (applyPatchToEntry
        (baseEntryOf (.str "serie-1-2026") cPeriod cBlock cWeek cDay exSquat)
        (lookupEdits cEdits (entryKey (.str "serie-1-2026") (.num 1) (.num 1) (.num 1) (.str "squat")))) :=
  (c2_getPatchedEntry_resolution cDoc cEdits (.str "serie-1-2026") (.num 1) (.num 1) (.num 1)
    (.str "squat")).2 cPeriod cBlock cWeek cDay exSquat rfl rfl rfl rfl rfl

theorem c4_codec_amended_witness :
    decodeKey (entryKey (.str "p") (.num ((1 : Int) : ℚ)) (.num ((2 : Int) : ℚ))
      (.num ((3 : Int) : ℚ)) (.str "e")) =
      ["p", intDecimal 1, intDecimal 2, intDecimal 3, "e"] :=
  (c4_codec_amended "p" "e" 1 2 3 (by decide) (by decide)).1

/-! ## Claim C1 -/

/-- C1 (amended): only the exercise-level removal touches the overlay,
and it deletes exactly the selection's own entry key; the day-, week-,
block- and period-level removals complete without deleting any overlay
entry at all, so patches addressed at descendants of the removed node
remain in the overlay. -/
theorem c1_removal_purge_amended (st : St) :
    (∀ st', removeDay st = some st' → st'.edits = st.edits) ∧
    (∀ st', removeWeek st = some st' → st'.edits = st.edits) ∧
    (∀ st', removeBlock st = some st' → st'.edits = st.edits) ∧
    ((removePeriod st).edits = st.edits) ∧
    (∀ st', removeExercise st = some st' →
      (∀ k, lookupEdits st'.edits k =
        if k = selKey st.sel then none else lookupEdits st.edits k) ∨ st' = st) := by
  refine ⟨?_, ?_, ?_, ?_, ?_⟩
  · intro st' h
    simp only [removeDay] at h
    split at h
    · exact absurd h (by simp)
    · split at h
      · exact absurd h (by simp)
      · split at h
        · exact absurd h (by simp)
        · split at h
          · injection h with h; subst h; rfl
          · injection h with h; subst h; rfl
  · intro st' h
    simp only [removeWeek] at h
    split at h
    · exact absurd h (by simp)
    · split at h
      · exact absurd h (by simp)
      · split at h
        · injection h with h; subst h; rfl
        · injection h with h; subst h; rfl
  · intro st' h
    simp only [removeBlock] at h
    split at h
    · exact absurd h (by simp)
    · split at h
      · injection h with h; subst h; rfl
      · injection h with h; subst h; rfl
  · simp only [removePeriod]
    split <;> rfl
  · intro st' h
    simp only [removeExercise] at h
    split at h
    · exact absurd h (by simp)
    · split at h
      · exact absurd h (by simp)
      · split at h
        · exact absurd h (by simp)
        · split at h
          · exact absurd h (by simp)
          · split at h
            · left
              injection h with h
              subst h
              intro k
              show lookupEdits (eraseEdits st.edits (selKey st.sel)) k = _
              exact lookupEdits_eraseEdits st.edits (selKey st.sel) k
            · right
              injection h with h
              exact h.symm

def cStDayRemoved : St := (removeDay cSt).getD cSt

theorem c1_removal_purge_amended_witness : cStDayRemoved.edits = cSt.edits :=
  (c1_removal_purge_amended cSt).1 cStDayRemoved (by decide)

/-- C1 counterexample: removing the selected day succeeds (the removed
exercise no longer resolves), yet the overlay entry whose key decodes to
a locator under the removed day is still present afterwards — the
removal did not purge descendant overlay entries. -/
theorem c1_counterexample :
    (removeDay cSt).map (fun st' => lookupEdits st'.edits "serie-1-2026|1|1|1|squat") =
      some (some cPatch) ∧
    (removeDay cSt).map (fun st' =>
      resolveLocator st'.doc (.str "serie-1-2026") (.num 1) (.num 1) (.num 1) (.str "squat")) =
      some none ∧
    decodeKey "serie-1-2026|1|1|1|squat" = ["serie-1-2026", "1", "1", "1", "squat"] := by
  refine ⟨?_, ?_, ?_⟩ <;> decide

/-! ## Update and head-selection lemmas for the accessor chain -/

theorem getPeriod_updatePeriodIn (doc : Doc) (pid : JV) (f : Period → Period)
    (hid : ∀ q, (f q).id = q.id) :
    getPeriod (updatePeriodIn doc pid f) pid = (getPeriod doc pid).map f := by
  unfold getPeriod updatePeriodIn
  exact find?_updateFirst_same _ f doc.periods (fun x => by unfold periodPred; rw [hid x])

theorem getBlockAt_updateBlockIn (doc : Doc) (pid bid : JV) (f : Block → Block)
    (hid : ∀ b, (f b).id = b.id) :
    getBlockAt (updateBlockIn doc pid bid f) pid bid = (getBlockAt doc pid bid).map f := by
  unfold getBlockAt updateBlockIn
  rw [getPeriod_updatePeriodIn doc pid
    (fun p => { p with blocks := updateFirst (blockPred bid) f p.blocks }) (fun q => rfl)]
  rcases hp : getPeriod doc pid with _ | p
  · rfl
  · show getBlock { p with blocks := updateFirst (blockPred bid) f p.blocks } bid =
      (getBlock p bid).map f
    unfold getBlock
    exact find?_updateFirst_same _ f p.blocks (fun x => by unfold blockPred; rw [hid x])

theorem getWeekAt_updateWeekIn (doc : Doc) (pid bid wk : JV) (f : Week → Week)
    (hid : ∀ w, (f w).week = w.week) :
    getWeekAt (updateWeekIn doc pid bid wk f) pid bid wk = (getWeekAt doc pid bid wk).map f := by
  unfold getWeekAt updateWeekIn
  rw [getBlockAt_updateBlockIn doc pid bid
    (fun b => { b with weeks := updateFirst (weekPred wk) f b.weeks }) (fun b => rfl)]
  rcases hb : getBlockAt doc pid bid with _ | b
  · rfl
  · show getWeek { b with weeks := updateFirst (weekPred wk) f b.weeks } wk =
      (getWeek b wk).map f
    unfold getWeek
    exact find?_updateFirst_same _ f b.weeks (fun x => by unfold weekPred; rw [hid x])

theorem getDayAt_updateDayIn (doc : Doc) (pid bid wk dy : JV) (f : Day → Day)
    (hid : ∀ d, (f d).day = d.day) :
    getDayAt (updateDayIn doc pid bid wk dy f) pid bid wk dy =
      (getDayAt doc pid bid wk dy).map f := by
  unfold getDayAt updateDayIn
  rw [getWeekAt_updateWeekIn doc pid bid wk
    (fun w => { w with days := updateFirst (dayPred dy) f w.days }) (fun w => rfl)]
  rcases hw : getWeekAt doc pid bid wk with _ | w
  · rfl
  · show getDay { w with days := updateFirst (dayPred dy) f w.days } dy =
      (getDay w dy).map f
    unfold getDay
    exact find?_updateFirst_same _ f w.days (fun x => by unfold dayPred; rw [hid x])

theorem getPeriod_head (doc : Doc) (p : Period) (rest : List Period)
    (h : doc.periods = p :: rest) : getPeriod doc (.str p.id) = some p := by
  unfold getPeriod
  rw [h]
  exact List.find?_cons_of_pos _ (by unfold periodPred; simp)

theorem getBlock_head (p : Period) (b : Block) (rest : List Block)
    (h : p.blocks = b :: rest) : getBlock p (.num b.id) = some b := by
  unfold getBlock
  rw [h]
  exact List.find?_cons_of_pos _ (by unfold blockPred jsToString; simp)

theorem getWeek_head (b : Block) (w : Week) (rest : List Week)
    (h : b.weeks = w :: rest) : getWeek b (.num w.week) = some w := by
  unfold getWeek
  rw [h]
  exact List.find?_cons_of_pos _ (by unfold weekPred jsToNumber; simp)

theorem getDay_head (w : Week) (d : Day) (rest : List Day)
    (h : w.days = d :: rest) : getDay w (.num d.day) = some d := by
  unfold getDay
  rw [h]
  exact List.find?_cons_of_pos _ (by unfold dayPred jsToNumber; simp)

theorem getExercise_head (d : Day) (e : Exercise) (rest : List Exercise)
    (h : d.exercises = e :: rest) : getExercise d (.str e.id) = some e := by
  unfold getExercise
  rw [h]
  exact List.find?_cons_of_pos _ (by unfold exercisePred; simp)

theorem resolveLocator_eq_bind (doc : Doc) (pid bid wk dy eid : JV) :
    resolveLocator doc pid bid wk dy eid =
      (getDayAt doc pid bid wk dy).bind (fun d => getExercise d eid) := by
  unfold resolveLocator getDayAt getWeekAt getBlockAt
  rcases hp : getPeriod doc pid with _ | p
  · rfl
  · rcases hb : getBlock p bid with _ | b
    · simp [hb]
    · rcases hw : getWeek b wk with _ | w
      · simp [hb, hw]
      · rcases hd : getDay w dy with _ | d
        · simp [hb, hw, hd]
        · simp [hb, hw, hd]

/-! ## Stage lemmas for the fallback-selection walk (claim C9) -/

theorem fixPeriodLevel_found (doc : Doc) (sel : Sel) :
    ∃ p, getPeriod (fixPeriodLevel doc sel).1
      (jvOfStrOpt (fixPeriodLevel doc sel).2.periodId) = some p := by
  show ∃ p, getPeriod (periodDocStep doc) (jvOfStrOpt (periodSelStep (periodDocStep doc) sel).periodId) = some p
  have hne : (periodDocStep doc).periods ≠ [] := by
    unfold periodDocStep
    split
    · simp
    · rename_i hh
      simpa using hh
  unfold periodSelStep
  by_cases hcond : (!(jsTruthy (jvOfStrOpt sel.periodId)) ||
      (getPeriod (periodDocStep doc) (jvOfStrOpt sel.periodId)).isNone) = true
  · rw [if_pos hcond]
    rcases hh : (periodDocStep doc).periods with _ | ⟨p0, rest⟩
    · exact absurd hh hne
    · refine ⟨p0, ?_⟩
      show getPeriod (periodDocStep doc) (JV.str ((p0 :: rest).headD defaultPeriodSubtree).id) = some p0
      simp only [List.headD_cons]
      exact getPeriod_head (periodDocStep doc) p0 rest hh
  · rw [if_neg hcond]
    rcases ho : getPeriod (periodDocStep doc) (jvOfStrOpt sel.periodId) with _ | p
    · exfalso
      apply hcond
      rw [ho]
      simp
    · exact ⟨p, rfl⟩

theorem fixBlockLevel_eq (doc : Doc) (sel : Sel) (p p1 : Period)
    (hp : getPeriod doc (jvOfStrOpt sel.periodId) = some p)
    (hp1 : getPeriod (blockDocStep doc sel p) (jvOfStrOpt sel.periodId) = some p1) :
    fixBlockLevel doc sel = (blockDocStep doc sel p, blockSelStep sel p1) := by
  unfold fixBlockLevel
  rw [hp]
  show (match getPeriod (blockDocStep doc sel p) (jvOfStrOpt sel.periodId) with
    | none => (blockDocStep doc sel p, sel)
    | some p1 => (blockDocStep doc sel p, blockSelStep sel p1)) = _
  rw [hp1]

theorem fixBlockLevel_found (doc : Doc) (sel : Sel)
    (h : ∃ p, getPeriod doc (jvOfStrOpt sel.periodId) = some p) :
    ∃ b, getBlockAt (fixBlockLevel doc sel).1
      (jvOfStrOpt (fixBlockLevel doc sel).2.periodId)
      (fixBlockLevel doc sel).2.blockId = some b := by
  obtain ⟨p, hp⟩ := h
  obtain ⟨D, P1, hD, hp1, hbl⟩ :
      ∃ D P1, blockDocStep doc sel p = D ∧
        getPeriod D (jvOfStrOpt sel.periodId) = some P1 ∧ P1.blocks ≠ [] := by
    by_cases hbe : p.blocks.isEmpty = true
    · refine ⟨_, { p with blocks := p.blocks ++ [⟨1, []⟩] }, rfl, ?_, by simp⟩
      unfold blockDocStep
      rw [if_pos hbe, getPeriod_updatePeriodIn doc (jvOfStrOpt sel.periodId)
        (fun q => { q with blocks := q.blocks ++ [⟨1, []⟩] }) (fun q => rfl), hp]
      rfl
    · refine ⟨_, p, rfl, ?_, ?_⟩
      · unfold blockDocStep
        rw [if_neg hbe]
        exact hp
      · intro hnil
        exact hbe (by rw [hnil]; rfl)
  have heq : fixBlockLevel doc sel = (D, blockSelStep sel P1) := by
    subst hD
    exact fixBlockLevel_eq doc sel p P1 hp hp1
  rw [heq]
  have hpidsel : (blockSelStep sel P1).periodId = sel.periodId := by
    unfold blockSelStep; split <;> rfl
  show ∃ b, getBlockAt D (jvOfStrOpt (blockSelStep sel P1).periodId) (blockSelStep sel P1).blockId = some b
  rw [hpidsel]
  unfold blockSelStep
  by_cases hcond : (!(jsTruthy sel.blockId) || (getBlock P1 sel.blockId).isNone) = true
  · rw [if_pos hcond]
    rcases hbl' : P1.blocks with _ | ⟨b0, rest⟩
    · exact absurd hbl' hbl
    · refine ⟨b0, ?_⟩
      show getBlockAt D (jvOfStrOpt sel.periodId) (.num ((b0 :: rest).headD ⟨1, []⟩).id) = some b0
      simp only [List.headD_cons]
      unfold getBlockAt
      rw [hp1]
      show getBlock P1 (.num b0.id) = some b0
      exact getBlock_head P1 b0 rest hbl'
  · rw [if_neg hcond]
    rcases hgb : getBlock P1 sel.blockId with _ | b
    · exfalso; apply hcond; rw [hgb]; simp
    · refine ⟨b, ?_⟩
      show getBlockAt D (jvOfStrOpt sel.periodId) sel.blockId = some b
      unfold getBlockAt
      rw [hp1]
      exact hgb

theorem fixWeekLevel_eq (doc : Doc) (sel : Sel) (b b1 : Block)
    (hb : getBlockAt doc (jvOfStrOpt sel.periodId) sel.blockId = some b)
    (hb1 : getBlockAt (weekDocStep doc sel b) (jvOfStrOpt sel.periodId) sel.blockId = some b1) :
    fixWeekLevel doc sel = (weekDocStep doc sel b, weekSelStep sel b1) := by
  unfold fixWeekLevel
  rw [hb]
  show (match getBlockAt (weekDocStep doc sel b) (jvOfStrOpt sel.periodId) sel.blockId with
    | none => (weekDocStep doc sel b, sel)
    | some b1 => (weekDocStep doc sel b, weekSelStep sel b1)) = _
  rw [hb1]

theorem fixWeekLevel_found (doc : Doc) (sel : Sel)
    (h : ∃ b, getBlockAt doc (jvOfStrOpt sel.periodId) sel.blockId = some b) :
    ∃ w, getWeekAt (fixWeekLevel doc sel).1
      (jvOfStrOpt (fixWeekLevel doc sel).2.periodId)
      (fixWeekLevel doc sel).2.blockId
      (fixWeekLevel doc sel).2.week = some w := by
  obtain ⟨b, hb⟩ := h
  obtain ⟨D, B1, hD, hb1, hwl⟩ :
      ∃ D B1, weekDocStep doc sel b = D ∧
        getBlockAt D (jvOfStrOpt sel.periodId) sel.blockId = some B1 ∧ B1.weeks ≠ [] := by
    by_cases hwe : b.weeks.isEmpty = true
    · refine ⟨_, { b with weeks := b.weeks ++ [⟨1, []⟩] }, rfl, ?_, by simp⟩
      unfold weekDocStep
      rw [if_pos hwe, getBlockAt_updateBlockIn doc (jvOfStrOpt sel.periodId) sel.blockId
        (fun c => { c with weeks := c.weeks ++ [⟨1, []⟩] }) (fun c => rfl), hb]
      rfl
    · refine ⟨_, b, rfl, ?_, ?_⟩
      · unfold weekDocStep
        rw [if_neg hwe]
        exact hb
      · intro hnil
        exact hwe (by rw [hnil]; rfl)
  have heq : fixWeekLevel doc sel = (D, weekSelStep sel B1) := by
    subst hD
    exact fixWeekLevel_eq doc sel b B1 hb hb1
  rw [heq]
  have hpidsel : (weekSelStep sel B1).periodId = sel.periodId := by
    unfold weekSelStep; split <;> rfl
  have hbidsel : (weekSelStep sel B1).blockId = sel.blockId := by
    unfold weekSelStep; split <;> rfl
  show ∃ w, getWeekAt D (jvOfStrOpt (weekSelStep sel B1).periodId)
    (weekSelStep sel B1).blockId (weekSelStep sel B1).week = some w
  rw [hpidsel, hbidsel]
  unfold weekSelStep
  by_cases hcond : (!(jsTruthy sel.week) || (getWeek B1 sel.week).isNone) = true
  · rw [if_pos hcond]
    rcases hwl' : B1.weeks with _ | ⟨w0, rest⟩
    · exact absurd hwl' hwl
    · refine ⟨w0, ?_⟩
      show getWeekAt D (jvOfStrOpt sel.periodId) sel.blockId
        (.num ((w0 :: rest).headD ⟨1, []⟩).week) = some w0
      simp only [List.headD_cons]
      unfold getWeekAt
      rw [hb1]
      show getWeek B1 (.num w0.week) = some w0
      exact getWeek_head B1 w0 rest hwl'
  · rw [if_neg hcond]
    rcases hgw : getWeek B1 sel.week with _ | w
    · exfalso; apply hcond; rw [hgw]; simp
    · refine ⟨w, ?_⟩
      show getWeekAt D (jvOfStrOpt sel.periodId) sel.blockId sel.week = some w
      unfold getWeekAt
      rw [hb1]
      exact hgw

theorem fixDayLevel_eq (doc : Doc) (sel : Sel) (w w1 : Week)
    (hw : getWeekAt doc (jvOfStrOpt sel.periodId) sel.blockId sel.week = some w)
    (hw1 : getWeekAt (dayDocStep doc sel w) (jvOfStrOpt sel.periodId) sel.blockId sel.week = some w1) :
    fixDayLevel doc sel = (dayDocStep doc sel w, daySelStep sel w1) := by
  unfold fixDayLevel
  rw [hw]
  show (match getWeekAt (dayDocStep doc sel w) (jvOfStrOpt sel.periodId) sel.blockId sel.week with
    | none => (dayDocStep doc sel w, sel)
    | some w1 => (dayDocStep doc sel w, daySelStep sel w1)) = _
  rw [hw1]

theorem fixDayLevel_found (doc : Doc) (sel : Sel)
    (h : ∃ w, getWeekAt doc (jvOfStrOpt sel.periodId) sel.blockId sel.week = some w) :
    ∃ d, getDayAt (fixDayLevel doc sel).1
      (jvOfStrOpt (fixDayLevel doc sel).2.periodId)
      (fixDayLevel doc sel).2.blockId
      (fixDayLevel doc sel).2.week
      (fixDayLevel doc sel).2.day = some d := by
  obtain ⟨w, hw⟩ := h
  obtain ⟨D, W1, hD, hw1, hdl⟩ :
      ∃ D W1, dayDocStep doc sel w = D ∧
        getWeekAt D (jvOfStrOpt sel.periodId) sel.blockId sel.week = some W1 ∧ W1.days ≠ [] := by
    by_cases hde : w.days.isEmpty = true
    · refine ⟨_, { w with days := w.days ++ [⟨1, "Day 1", []⟩] }, rfl, ?_, by simp⟩
      unfold dayDocStep
      rw [if_pos hde, getWeekAt_updateWeekIn doc (jvOfStrOpt sel.periodId) sel.blockId sel.week
        (fun v => { v with days := v.days ++ [⟨1, "Day 1", []⟩] }) (fun v => rfl), hw]
      rfl
    · refine ⟨_, w, rfl, ?_, ?_⟩
      · unfold dayDocStep
        rw [if_neg hde]
        exact hw
      · intro hnil
        exact hde (by rw [hnil]; rfl)
  have heq : fixDayLevel doc sel = (D, daySelStep sel W1) := by
    subst hD
    exact fixDayLevel_eq doc sel w W1 hw hw1
  rw [heq]
  have hpidsel : (daySelStep sel W1).periodId = sel.periodId := by
    unfold daySelStep; split <;> rfl
  have hbidsel : (daySelStep sel W1).blockId = sel.blockId := by
    unfold daySelStep; split <;> rfl
  have hwksel : (daySelStep sel W1).week = sel.week := by
    unfold daySelStep; split <;> rfl
  show ∃ d, getDayAt D (jvOfStrOpt (daySelStep sel W1).periodId)
    (daySelStep sel W1).blockId (daySelStep sel W1).week (daySelStep sel W1).day = some d
  rw [hpidsel, hbidsel, hwksel]
  unfold daySelStep
  by_cases hcond : (!(jsTruthy sel.day) || (getDay W1 sel.day).isNone) = true
  · rw [if_pos hcond]
    rcases hdl' : W1.days with _ | ⟨d0, rest⟩
    · exact absurd hdl' hdl
    · refine ⟨d0, ?_⟩
      show getDayAt D (jvOfStrOpt sel.periodId) sel.blockId sel.week
        (.num ((d0 :: rest).headD ⟨1, "Day 1", []⟩).day) = some d0
      simp only [List.headD_cons]
      unfold getDayAt
      rw [hw1]
      show getDay W1 (.num d0.day) = some d0
      exact getDay_head W1 d0 rest hdl'
  · rw [if_neg hcond]
    rcases hgd : getDay W1 sel.day with _ | d
    · exfalso; apply hcond; rw [hgd]; simp
    · refine ⟨d, ?_⟩
      show getDayAt D (jvOfStrOpt sel.periodId) sel.blockId sel.week sel.day = some d
      unfold getDayAt
      rw [hw1]
      exact hgd

theorem fixExerciseLevel_eq (doc : Doc) (sel : Sel) (d d1 : Day)
    (hd : getDayAt doc (jvOfStrOpt sel.periodId) sel.blockId sel.week sel.day = some d)
    (hd1 : getDayAt (exerciseDocStep doc sel d) (jvOfStrOpt sel.periodId) sel.blockId sel.week sel.day = some d1) :
    fixExerciseLevel doc sel = (exerciseDocStep doc sel d, exerciseSelStep sel d1) := by
  unfold fixExerciseLevel
  rw [hd]
  show (match getDayAt (exerciseDocStep doc sel d) (jvOfStrOpt sel.periodId) sel.blockId sel.week sel.day with
    | none => (exerciseDocStep doc sel d, sel)
    | some d1 => (exerciseDocStep doc sel d, exerciseSelStep sel d1)) = _
  rw [hd1]

theorem fixExerciseLevel_found (doc : Doc) (sel : Sel)
    (h : ∃ d, getDayAt doc (jvOfStrOpt sel.periodId) sel.blockId sel.week sel.day = some d) :
    ∃ d ex, getDayAt (fixExerciseLevel doc sel).1
      (jvOfStrOpt (fixExerciseLevel doc sel).2.periodId)
      (fixExerciseLevel doc sel).2.blockId
      (fixExerciseLevel doc sel).2.week
      (fixExerciseLevel doc sel).2.day = some d ∧
      getExercise d (jvOfStrOpt (fixExerciseLevel doc sel).2.exerciseId) = some ex := by
  obtain ⟨d, hd⟩ := h
  obtain ⟨D, D1, hD, hd1, hel⟩ :
      ∃ D D1, exerciseDocStep doc sel d = D ∧
        getDayAt D (jvOfStrOpt sel.periodId) sel.blockId sel.week sel.day = some D1 ∧
        D1.exercises ≠ [] := by
    by_cases hee : d.exercises.isEmpty = true
    · refine ⟨_, { d with exercises := d.exercises ++ [defaultExercise] }, rfl, ?_, by simp⟩
      unfold exerciseDocStep
      rw [if_pos hee, getDayAt_updateDayIn doc (jvOfStrOpt sel.periodId) sel.blockId sel.week sel.day
        (fun e => { e with exercises := e.exercises ++ [defaultExercise] }) (fun e => rfl), hd]
      rfl
    · refine ⟨_, d, rfl, ?_, ?_⟩
      · unfold exerciseDocStep
        rw [if_neg hee]
        exact hd
      · intro hnil
        exact hee (by rw [hnil]; rfl)
  have heq : fixExerciseLevel doc sel = (D, exerciseSelStep sel D1) := by
    subst hD
    exact fixExerciseLevel_eq doc sel d D1 hd hd1
  rw [heq]
  have hframe : (exerciseSelStep sel D1).periodId = sel.periodId ∧
      (exerciseSelStep sel D1).blockId = sel.blockId ∧
      (exerciseSelStep sel D1).week = sel.week ∧
      (exerciseSelStep sel D1).day = sel.day := by
    unfold exerciseSelStep; split <;> exact ⟨rfl, rfl, rfl, rfl⟩
  show ∃ dd ex, getDayAt D (jvOfStrOpt (exerciseSelStep sel D1).periodId)
      (exerciseSelStep sel D1).blockId (exerciseSelStep sel D1).week
      (exerciseSelStep sel D1).day = some dd ∧
    getExercise dd (jvOfStrOpt (exerciseSelStep sel D1).exerciseId) = some ex
  rw [hframe.1, hframe.2.1, hframe.2.2.1, hframe.2.2.2]
  refine ⟨D1, ?_⟩
  unfold exerciseSelStep
  by_cases hcond : (!(jsTruthy (jvOfStrOpt sel.exerciseId)) ||
      (getExercise D1 (jvOfStrOpt sel.exerciseId)).isNone) = true
  · rw [if_pos hcond]
    rcases hel' : D1.exercises with _ | ⟨e0, rest⟩
    · exact absurd hel' hel
    · refine ⟨e0, hd1, ?_⟩
      show getExercise D1 (jvOfStrOpt (some ((e0 :: rest).headD defaultExercise).id)) = some e0
      simp only [List.headD_cons]
      show getExercise D1 (.str e0.id) = some e0
      exact getExercise_head D1 e0 rest hel'
  · rw [if_neg hcond]
    rcases hge : getExercise D1 (jvOfStrOpt sel.exerciseId) with _ | ex
    · exfalso; apply hcond; rw [hge]; simp
    · exact ⟨ex, hd1, rfl⟩

/-! ## Sort correctness (permutation and sortedness of the insertion-sort model) -/

theorem insertSorted_perm (le : α → α → Bool) (x : α) (l : List α) :
    (insertSorted le x l).Perm (x :: l) := by
  induction l with
  | nil => exact List.Perm.refl _
  | cons y ys ih =>
    unfold insertSorted
    by_cases h : le y x = true
    · rw [if_pos h]
      exact (ih.cons y).trans (List.Perm.swap x y ys)
    · rw [if_neg h]

theorem sortBy_perm (le : α → α → Bool) (l : List α) : (sortBy le l).Perm l := by
  have main : ∀ (l acc : List α),
      (l.foldl (fun acc x => insertSorted le x acc) acc).Perm (acc ++ l) := by
    intro l
    induction l with
    | nil => intro acc; simp
    | cons x xs ih =>
      intro acc
      rw [List.foldl_cons]
      refine (ih (insertSorted le x acc)).trans ?_
      refine (List.Perm.append_right xs (insertSorted_perm le x acc)).trans ?_
      exact List.perm_middle.symm
  simpa using main l []

theorem chain'_insertSorted (le : α → α → Bool)
    (htot : ∀ a b, le a b = false → le b a = true) (x : α) :
    ∀ l : List α, List.Chain' (fun a b => le a b = true) l →
      List.Chain' (fun a b => le a b = true) (insertSorted le x l) := by
  intro l
  induction l with
  | nil => intro _; simp [insertSorted]
  | cons y ys ih =>
    intro h
    rw [List.chain'_cons'] at h
    unfold insertSorted
    by_cases hyx : le y x = true
    · rw [if_pos hyx, List.chain'_cons']
      refine ⟨?_, ih h.2⟩
      intro z hz
      cases ys with
      | nil =>
        simp [insertSorted] at hz
        rw [← hz]
        exact hyx
      | cons v vs =>
        by_cases h2 : le v x = true
        · rw [insertSorted, if_pos h2] at hz
          simp at hz
          rw [← hz]
          exact h.1 v (by simp)
        · rw [insertSorted, if_neg h2] at hz
          simp at hz
          rw [← hz]
          exact hyx
    · rw [if_neg hyx, List.chain'_cons']
      refine ⟨?_, List.chain'_cons'.mpr h⟩
      intro z hz
      simp at hz
      rw [← hz]
      refine htot y x ?_
      revert hyx
      cases le y x <;> simp

theorem sortBy_chain' (le : α → α → Bool)
    (htot : ∀ a b, le a b = false → le b a = true) (l : List α) :
    List.Chain' (fun a b => le a b = true) (sortBy le l) := by
  have main : ∀ (l acc : List α), List.Chain' (fun a b => le a b = true) acc →
      List.Chain' (fun a b => le a b = true)
        (l.foldl (fun acc x => insertSorted le x acc) acc) := by
    intro l
    induction l with
    | nil => intro acc h; exact h
    | cons x xs ih =>
      intro acc h
      rw [List.foldl_cons]
      exact ih _ (chain'_insertSorted le htot x acc h)
  exact main l [] (by simp)

theorem charListLe_total : ∀ as bs : List Char,
    charListLe as bs = false → charListLe bs as = true := by
  intro as
  induction as with
  | nil => intro bs h; cases bs <;> simp [charListLe] at h
  | cons a as ih =>
    intro bs h
    cases bs with
    | nil => rfl
    | cons b bs =>
      rw [charListLe] at h ⊢
      rcases Nat.lt_trichotomy a.toNat b.toNat with h1 | h1 | h1
      · rw [if_pos h1] at h
        exact absurd h (by simp)
      · rw [if_neg (by omega), if_neg (by omega)] at h
        rw [if_neg (by omega), if_neg (by omega)]
        exact ih bs h
      · rw [if_pos h1]

theorem sortBy_isEmpty_append (le : α → α → Bool) (l : List α) (x : α) :
    (sortBy le (l ++ [x])).isEmpty = false := by
  rcases hs : sortBy le (l ++ [x]) with _ | ⟨y, ys⟩
  · have := (sortBy_perm le (l ++ [x])).length_eq
    rw [hs] at this
    simp at this
  · rfl

/-! ## Projection-preservation kit for the hierarchy updates -/

theorem find?_updateFirst_map (pred1 pred2 : α → Bool) (f : α → α) (g : α → β) (l : List α)
    (hpred : ∀ a, pred2 (f a) = pred2 a) (hg : ∀ a, g (f a) = g a) :
    ((updateFirst pred1 f l).find? pred2).map g = (l.find? pred2).map g := by
  rcases find?_updateFirst_cases pred1 pred2 f l hpred with h | ⟨a, _, h2, h3⟩
  · rw [h]
  · rw [h3, h2, Option.map_some', Option.map_some', hg]

theorem getPeriod_map_updatePeriodIn (doc : Doc) (pid : JV) (f : Period → Period)
    (hid : ∀ q, (f q).id = q.id) (g : Period → β) (hg : ∀ q, g (f q) = g q) (pid0 : JV) :
    (getPeriod (updatePeriodIn doc pid f) pid0).map g = (getPeriod doc pid0).map g := by
  unfold getPeriod updatePeriodIn
  exact find?_updateFirst_map (periodPred pid) (periodPred pid0) f g doc.periods
    (fun a => by unfold periodPred; rw [hid a]) hg

theorem getBlockAt_map_updateBlockIn (doc : Doc) (pid bid : JV) (f : Block → Block)
    (hid : ∀ b, (f b).id = b.id) (g : Block → β) (hg : ∀ b, g (f b) = g b) (pid0 bid0 : JV) :
    (getBlockAt (updateBlockIn doc pid bid f) pid0 bid0).map g =
      (getBlockAt doc pid0 bid0).map g := by
  rcases find?_updateFirst_cases (periodPred pid) (periodPred pid0)
      (fun q => { q with blocks := updateFirst (blockPred bid) f q.blocks }) doc.periods
      (fun a => rfl) with h | ⟨q, _, h2, h3⟩
  · show ((getPeriod (updateBlockIn doc pid bid f) pid0).bind (fun p => getBlock p bid0)).map g =
      ((getPeriod doc pid0).bind (fun p => getBlock p bid0)).map g
    rw [show getPeriod (updateBlockIn doc pid bid f) pid0 = getPeriod doc pid0 from h]
  · show ((getPeriod (updateBlockIn doc pid bid f) pid0).bind (fun p => getBlock p bid0)).map g =
      ((getPeriod doc pid0).bind (fun p => getBlock p bid0)).map g
    rw [show getPeriod (updateBlockIn doc pid bid f) pid0 =
      some { q with blocks := updateFirst (blockPred bid) f q.blocks } from h3,
      show getPeriod doc pid0 = some q from h2]
    show (getBlock { q with blocks := updateFirst (blockPred bid) f q.blocks } bid0).map g =
      (getBlock q bid0).map g
    exact find?_updateFirst_map (blockPred bid) (blockPred bid0) f g q.blocks
      (fun a => by unfold blockPred; rw [hid a]) hg

theorem getWeekAt_map_updateWeekIn (doc : Doc) (pid bid wk : JV) (f : Week → Week)
    (hwk : ∀ w, (f w).week = w.week) (g : Week → β) (hg : ∀ w, g (f w) = g w)
    (pid0 bid0 wk0 : JV) :
    (getWeekAt (updateWeekIn doc pid bid wk f) pid0 bid0 wk0).map g =
      (getWeekAt doc pid0 bid0 wk0).map g := by
  show ((getBlockAt (updateWeekIn doc pid bid wk f) pid0 bid0).bind (fun b => getWeek b wk0)).map g =
    ((getBlockAt doc pid0 bid0).bind (fun b => getWeek b wk0)).map g
  rcases find?_updateFirst_cases (periodPred pid) (periodPred pid0)
      (fun q => { q with blocks := updateFirst (blockPred bid) (fun b => { b with weeks := updateFirst (weekPred wk) f b.weeks }) q.blocks }) doc.periods
      (fun a => rfl) with h | ⟨q, _, h2, h3⟩
  · unfold getBlockAt
    rw [show getPeriod (updateWeekIn doc pid bid wk f) pid0 = getPeriod doc pid0 from h]
  · unfold getBlockAt
    rw [show getPeriod (updateWeekIn doc pid bid wk f) pid0 =
      some { q with blocks := updateFirst (blockPred bid) (fun b => { b with weeks := updateFirst (weekPred wk) f b.weeks }) q.blocks } from h3,
      show getPeriod doc pid0 = some q from h2]
    show ((getBlock { q with blocks := updateFirst (blockPred bid) (fun b => { b with weeks := updateFirst (weekPred wk) f b.weeks }) q.blocks } bid0).bind
        (fun b => getWeek b wk0)).map g =
      ((getBlock q bid0).bind (fun b => getWeek b wk0)).map g
    rcases find?_updateFirst_cases (blockPred bid) (blockPred bid0)
        (fun b => { b with weeks := updateFirst (weekPred wk) f b.weeks }) q.blocks
        (fun a => rfl) with hb | ⟨b, _, hb2, hb3⟩
    · rw [show getBlock { q with blocks := updateFirst (blockPred bid) (fun b => { b with weeks := updateFirst (weekPred wk) f b.weeks }) q.blocks } bid0 =
          getBlock q bid0 from hb]
    · rw [show getBlock { q with blocks := updateFirst (blockPred bid) (fun b => { b with weeks := updateFirst (weekPred wk) f b.weeks }) q.blocks } bid0 =
          some { b with weeks := updateFirst (weekPred wk) f b.weeks } from hb3,
        show getBlock q bid0 = some b from hb2]
      show (getWeek { b with weeks := updateFirst (weekPred wk) f b.weeks } wk0).map g =
        (getWeek b wk0).map g
      exact find?_updateFirst_map (weekPred wk) (weekPred wk0) f g b.weeks
        (fun a => by unfold weekPred; rw [hwk a]) hg

theorem updateFirst_isEmpty (pred : α → Bool) (f : α → α) (l : List α) :
    (updateFirst pred f l).isEmpty = l.isEmpty := by
  cases l with
  | nil => rfl
  | cons x xs =>
    unfold updateFirst
    split <;> rfl

theorem isEmpty_false_of_find?_some (pred : α → Bool) (l : List α) (a : α)
    (h : l.find? pred = some a) : l.isEmpty = false := by
  cases l with
  | nil => exact absurd h (by simp)
  | cons x xs => rfl

/-- The per-level child-id projections the Structure Mutator claims are
stated through: the block numbers of the period a locator component
resolves to, and so on. -/
def blockIdsAt (doc : Doc) (pid : JV) : Option (List ℚ) :=
  (getPeriod doc pid).map (fun p => p.blocks.map Block.id)

def weekIdsAt (doc : Doc) (pid bid : JV) : Option (List ℚ) :=
  (getBlockAt doc pid bid).map (fun b => b.weeks.map Week.week)

def dayIdsAt (doc : Doc) (pid bid wk : JV) : Option (List ℚ) :=
  (getWeekAt doc pid bid wk).map (fun w => w.days.map Day.day)

theorem blockIdsAt_updateBlockIn (doc : Doc) (pid bid : JV) (f : Block → Block)
    (hid : ∀ b, (f b).id = b.id) (pid0 : JV) :
    blockIdsAt (updateBlockIn doc pid bid f) pid0 = blockIdsAt doc pid0 := by
  unfold blockIdsAt updateBlockIn
  refine getPeriod_map_updatePeriodIn doc pid
    (fun q => { q with blocks := updateFirst (blockPred bid) f q.blocks }) (fun q => rfl)
    (fun p => p.blocks.map Block.id) (fun q => ?_) pid0
  exact updateFirst_map Block.id (blockPred bid) f q.blocks hid

theorem weekIdsAt_updateWeekIn (doc : Doc) (pid bid wk : JV) (f : Week → Week)
    (hwk : ∀ w, (f w).week = w.week) (pid0 bid0 : JV) :
    weekIdsAt (updateWeekIn doc pid bid wk f) pid0 bid0 = weekIdsAt doc pid0 bid0 := by
  unfold weekIdsAt updateWeekIn
  refine getBlockAt_map_updateBlockIn doc pid bid
    (fun b => { b with weeks := updateFirst (weekPred wk) f b.weeks }) (fun b => rfl)
    (fun b => b.weeks.map Week.week) (fun b => ?_) pid0 bid0
  exact updateFirst_map Week.week (weekPred wk) f b.weeks hwk

theorem dayIdsAt_updateDayIn (doc : Doc) (pid bid wk dy : JV) (f : Day → Day)
    (hdy : ∀ d, (f d).day = d.day) (pid0 bid0 wk0 : JV) :
    dayIdsAt (updateDayIn doc pid bid wk dy f) pid0 bid0 wk0 = dayIdsAt doc pid0 bid0 wk0 := by
  unfold dayIdsAt updateDayIn
  refine getWeekAt_map_updateWeekIn doc pid bid wk
    (fun w => { w with days := updateFirst (dayPred dy) f w.days }) (fun w => rfl)
    (fun w => w.days.map Day.day) (fun w => ?_) pid0 bid0 wk0
  exact updateFirst_map Day.day (dayPred dy) f w.days hdy

theorem periodIds_updatePeriodIn (doc : Doc) (pid : JV) (f : Period → Period)
    (hid : ∀ q, (f q).id = q.id) :
    (updatePeriodIn doc pid f).periods.map Period.id = doc.periods.map Period.id := by
  unfold updatePeriodIn
  exact updateFirst_map Period.id _ f doc.periods hid

theorem periodIds_blockDocStep (doc : Doc) (sel : Sel) (p : Period) :
    (blockDocStep doc sel p).periods.map Period.id = doc.periods.map Period.id := by
  unfold blockDocStep
  split
  · exact periodIds_updatePeriodIn _ _ _ (fun q => rfl)
  · rfl

theorem periodIds_weekDocStep (doc : Doc) (sel : Sel) (b : Block) :
    (weekDocStep doc sel b).periods.map Period.id = doc.periods.map Period.id := by
  unfold weekDocStep updateBlockIn
  split
  · exact periodIds_updatePeriodIn _ _ _ (fun q => rfl)
  · rfl

theorem periodIds_dayDocStep (doc : Doc) (sel : Sel) (w : Week) :
    (dayDocStep doc sel w).periods.map Period.id = doc.periods.map Period.id := by
  unfold dayDocStep updateWeekIn updateBlockIn
  split
  · exact periodIds_updatePeriodIn _ _ _ (fun q => rfl)
  · rfl

theorem periodIds_exerciseDocStep (doc : Doc) (sel : Sel) (d : Day) :
    (exerciseDocStep doc sel d).periods.map Period.id = doc.periods.map Period.id := by
  unfold exerciseDocStep updateDayIn updateWeekIn updateBlockIn
  split
  · exact periodIds_updatePeriodIn _ _ _ (fun q => rfl)
  · rfl

theorem periodIds_fixBlockLevel (doc : Doc) (sel : Sel) :
    ((fixBlockLevel doc sel).1).periods.map Period.id = doc.periods.map Period.id := by
  unfold fixBlockLevel
  rcases hp : getPeriod doc (jvOfStrOpt sel.periodId) with _ | p
  · rfl
  · show ((match getPeriod (blockDocStep doc sel p) (jvOfStrOpt sel.periodId) with
      | none => (blockDocStep doc sel p, sel)
      | some p1 => (blockDocStep doc sel p, blockSelStep sel p1)).1).periods.map Period.id =
        doc.periods.map Period.id
    rcases hp1 : getPeriod (blockDocStep doc sel p) (jvOfStrOpt sel.periodId) with _ | p1 <;>
      exact periodIds_blockDocStep doc sel p

theorem periodIds_fixWeekLevel (doc : Doc) (sel : Sel) :
    ((fixWeekLevel doc sel).1).periods.map Period.id = doc.periods.map Period.id := by
  unfold fixWeekLevel
  rcases hb : getBlockAt doc (jvOfStrOpt sel.periodId) sel.blockId with _ | b
  · rfl
  · show ((match getBlockAt (weekDocStep doc sel b) (jvOfStrOpt sel.periodId) sel.blockId with
      | none => (weekDocStep doc sel b, sel)
      | some b1 => (weekDocStep doc sel b, weekSelStep sel b1)).1).periods.map Period.id =
        doc.periods.map Period.id
    rcases hb1 : getBlockAt (weekDocStep doc sel b) (jvOfStrOpt sel.periodId) sel.blockId with _ | b1 <;>
      exact periodIds_weekDocStep doc sel b

theorem periodIds_fixDayLevel (doc : Doc) (sel : Sel) :
    ((fixDayLevel doc sel).1).periods.map Period.id = doc.periods.map Period.id := by
  unfold fixDayLevel
  rcases hw : getWeekAt doc (jvOfStrOpt sel.periodId) sel.blockId sel.week with _ | w
  · rfl
  · show ((match getWeekAt (dayDocStep doc sel w) (jvOfStrOpt sel.periodId) sel.blockId sel.week with
      | none => (dayDocStep doc sel w, sel)
      | some w1 => (dayDocStep doc sel w, daySelStep sel w1)).1).periods.map Period.id =
        doc.periods.map Period.id
    rcases hw1 : getWeekAt (dayDocStep doc sel w) (jvOfStrOpt sel.periodId) sel.blockId sel.week with _ | w1 <;>
      exact periodIds_dayDocStep doc sel w

theorem periodIds_fixExerciseLevel (doc : Doc) (sel : Sel) :
    ((fixExerciseLevel doc sel).1).periods.map Period.id = doc.periods.map Period.id := by
  unfold fixExerciseLevel
  rcases hd : getDayAt doc (jvOfStrOpt sel.periodId) sel.blockId sel.week sel.day with _ | d
  · rfl
  · show ((match getDayAt (exerciseDocStep doc sel d) (jvOfStrOpt sel.periodId) sel.blockId sel.week sel.day with
      | none => (exerciseDocStep doc sel d, sel)
      | some d1 => (exerciseDocStep doc sel d, exerciseSelStep sel d1)).1).periods.map Period.id =
        doc.periods.map Period.id
    rcases hd1 : getDayAt (exerciseDocStep doc sel d) (jvOfStrOpt sel.periodId) sel.blockId sel.week sel.day with _ | d1 <;>
      exact periodIds_exerciseDocStep doc sel d

theorem fixBlockLevel_periodId (doc : Doc) (sel : Sel) :
    (fixBlockLevel doc sel).2.periodId = sel.periodId := by
  unfold fixBlockLevel
  rcases hp : getPeriod doc (jvOfStrOpt sel.periodId) with _ | p
  · rfl
  · show (match getPeriod (blockDocStep doc sel p) (jvOfStrOpt sel.periodId) with
      | none => (blockDocStep doc sel p, sel)
      | some p1 => (blockDocStep doc sel p, blockSelStep sel p1)).2.periodId = sel.periodId
    rcases hp1 : getPeriod (blockDocStep doc sel p) (jvOfStrOpt sel.periodId) with _ | p1
    · rfl
    · show (blockSelStep sel p1).periodId = sel.periodId
      unfold blockSelStep
      split <;> rfl

theorem fixWeekLevel_periodId (doc : Doc) (sel : Sel) :
    (fixWeekLevel doc sel).2.periodId = sel.periodId := by
  unfold fixWeekLevel
  rcases hb : getBlockAt doc (jvOfStrOpt sel.periodId) sel.blockId with _ | b
  · rfl
  · show (match getBlockAt (weekDocStep doc sel b) (jvOfStrOpt sel.periodId) sel.blockId with
      | none => (weekDocStep doc sel b, sel)
      | some b1 => (weekDocStep doc sel b, weekSelStep sel b1)).2.periodId = sel.periodId
    rcases hb1 : getBlockAt (weekDocStep doc sel b) (jvOfStrOpt sel.periodId) sel.blockId with _ | b1
    · rfl
    · show (weekSelStep sel b1).periodId = sel.periodId
      unfold weekSelStep
      split <;> rfl

theorem fixDayLevel_periodId (doc : Doc) (sel : Sel) :
    (fixDayLevel doc sel).2.periodId = sel.periodId := by
  unfold fixDayLevel
  rcases hw : getWeekAt doc (jvOfStrOpt sel.periodId) sel.blockId sel.week with _ | w
  · rfl
  · show (match getWeekAt (dayDocStep doc sel w) (jvOfStrOpt sel.periodId) sel.blockId sel.week with
      | none => (dayDocStep doc sel w, sel)
      | some w1 => (dayDocStep doc sel w, daySelStep sel w1)).2.periodId = sel.periodId
    rcases hw1 : getWeekAt (dayDocStep doc sel w) (jvOfStrOpt sel.periodId) sel.blockId sel.week with _ | w1
    · rfl
    · show (daySelStep sel w1).periodId = sel.periodId
      unfold daySelStep
      split <;> rfl

theorem fixExerciseLevel_periodId (doc : Doc) (sel : Sel) :
    (fixExerciseLevel doc sel).2.periodId = sel.periodId := by
  unfold fixExerciseLevel
  rcases hd : getDayAt doc (jvOfStrOpt sel.periodId) sel.blockId sel.week sel.day with _ | d
  · rfl
  · show (match getDayAt (exerciseDocStep doc sel d) (jvOfStrOpt sel.periodId) sel.blockId sel.week sel.day with
      | none => (exerciseDocStep doc sel d, sel)
      | some d1 => (exerciseDocStep doc sel d, exerciseSelStep sel d1)).2.periodId = sel.periodId
    rcases hd1 : getDayAt (exerciseDocStep doc sel d) (jvOfStrOpt sel.periodId) sel.blockId sel.week sel.day with _ | d1
    · rfl
    · show (exerciseSelStep sel d1).periodId = sel.periodId
      unfold exerciseSelStep
      split <;> rfl

theorem blockIdsAt_weekDocStep (doc : Doc) (sel : Sel) (b : Block) (pid0 : JV) :
    blockIdsAt (weekDocStep doc sel b) pid0 = blockIdsAt doc pid0 := by
  unfold weekDocStep
  split
  · exact blockIdsAt_updateBlockIn _ _ _ (fun c => { c with weeks := c.weeks ++ [⟨1, []⟩] }) (fun c => rfl) pid0
  · rfl

theorem blockIdsAt_dayDocStep (doc : Doc) (sel : Sel) (w : Week) (pid0 : JV) :
    blockIdsAt (dayDocStep doc sel w) pid0 = blockIdsAt doc pid0 := by
  unfold dayDocStep updateWeekIn
  split
  · exact blockIdsAt_updateBlockIn _ _ _ (fun b => { b with weeks := updateFirst (weekPred sel.week) (fun v => { v with days := v.days ++ [⟨1, "Day 1", []⟩] }) b.weeks }) (fun c => rfl) pid0
  · rfl

theorem blockIdsAt_exerciseDocStep (doc : Doc) (sel : Sel) (d : Day) (pid0 : JV) :
    blockIdsAt (exerciseDocStep doc sel d) pid0 = blockIdsAt doc pid0 := by
  unfold exerciseDocStep updateDayIn updateWeekIn
  split
  · exact blockIdsAt_updateBlockIn _ _ _ (fun b => { b with weeks := updateFirst (weekPred sel.week) (fun w => { w with days := updateFirst (dayPred sel.day) (fun e => { e with exercises := e.exercises ++ [defaultExercise] }) w.days }) b.weeks }) (fun c => rfl) pid0
  · rfl

theorem blockIdsAt_fixWeekLevel (doc : Doc) (sel : Sel) (pid0 : JV) :
    blockIdsAt (fixWeekLevel doc sel).1 pid0 = blockIdsAt doc pid0 := by
  unfold fixWeekLevel
  rcases hb : getBlockAt doc (jvOfStrOpt sel.periodId) sel.blockId with _ | b
  · rfl
  · show blockIdsAt (match getBlockAt (weekDocStep doc sel b) (jvOfStrOpt sel.periodId) sel.blockId with
      | none => (weekDocStep doc sel b, sel)
      | some b1 => (weekDocStep doc sel b, weekSelStep sel b1)).1 pid0 = blockIdsAt doc pid0
    rcases hb1 : getBlockAt (weekDocStep doc sel b) (jvOfStrOpt sel.periodId) sel.blockId with _ | b1 <;>
      exact blockIdsAt_weekDocStep doc sel b pid0

theorem blockIdsAt_fixDayLevel (doc : Doc) (sel : Sel) (pid0 : JV) :
    blockIdsAt (fixDayLevel doc sel).1 pid0 = blockIdsAt doc pid0 := by
  unfold fixDayLevel
  rcases hw : getWeekAt doc (jvOfStrOpt sel.periodId) sel.blockId sel.week with _ | w
  · rfl
  · show blockIdsAt (match getWeekAt (dayDocStep doc sel w) (jvOfStrOpt sel.periodId) sel.blockId sel.week with
      | none => (dayDocStep doc sel w, sel)
      | some w1 => (dayDocStep doc sel w, daySelStep sel w1)).1 pid0 = blockIdsAt doc pid0
    rcases hw1 : getWeekAt (dayDocStep doc sel w) (jvOfStrOpt sel.periodId) sel.blockId sel.week with _ | w1 <;>
      exact blockIdsAt_dayDocStep doc sel w pid0

theorem blockIdsAt_fixExerciseLevel (doc : Doc) (sel : Sel) (pid0 : JV) :
    blockIdsAt (fixExerciseLevel doc sel).1 pid0 = blockIdsAt doc pid0 := by
  unfold fixExerciseLevel
  rcases hd : getDayAt doc (jvOfStrOpt sel.periodId) sel.blockId sel.week sel.day with _ | d
  · rfl
  · show blockIdsAt (match getDayAt (exerciseDocStep doc sel d) (jvOfStrOpt sel.periodId) sel.blockId sel.week sel.day with
      | none => (exerciseDocStep doc sel d, sel)
      | some d1 => (exerciseDocStep doc sel d, exerciseSelStep sel d1)).1 pid0 = blockIdsAt doc pid0
    rcases hd1 : getDayAt (exerciseDocStep doc sel d) (jvOfStrOpt sel.periodId) sel.blockId sel.week sel.day with _ | d1 <;>
      exact blockIdsAt_exerciseDocStep doc sel d pid0

theorem weekIdsAt_dayDocStep (doc : Doc) (sel : Sel) (w : Week) (pid0 bid0 : JV) :
    weekIdsAt (dayDocStep doc sel w) pid0 bid0 = weekIdsAt doc pid0 bid0 := by
  unfold dayDocStep
  split
  · exact weekIdsAt_updateWeekIn _ _ _ _ (fun v => { v with days := v.days ++ [⟨1, "Day 1", []⟩] }) (fun v => rfl) pid0 bid0
  · rfl

theorem weekIdsAt_exerciseDocStep (doc : Doc) (sel : Sel) (d : Day) (pid0 bid0 : JV) :
    weekIdsAt (exerciseDocStep doc sel d) pid0 bid0 = weekIdsAt doc pid0 bid0 := by
  unfold exerciseDocStep updateDayIn
  split
  · exact weekIdsAt_updateWeekIn _ _ _ _ (fun w => { w with days := updateFirst (dayPred sel.day) (fun e => { e with exercises := e.exercises ++ [defaultExercise] }) w.days }) (fun v => rfl) pid0 bid0
  · rfl

theorem weekIdsAt_fixDayLevel (doc : Doc) (sel : Sel) (pid0 bid0 : JV) :
    weekIdsAt (fixDayLevel doc sel).1 pid0 bid0 = weekIdsAt doc pid0 bid0 := by
  unfold fixDayLevel
  rcases hw : getWeekAt doc (jvOfStrOpt sel.periodId) sel.blockId sel.week with _ | w
  · rfl
  · show weekIdsAt (match getWeekAt (dayDocStep doc sel w) (jvOfStrOpt sel.periodId) sel.blockId sel.week with
      | none => (dayDocStep doc sel w, sel)
      | some w1 => (dayDocStep doc sel w, daySelStep sel w1)).1 pid0 bid0 = weekIdsAt doc pid0 bid0
    rcases hw1 : getWeekAt (dayDocStep doc sel w) (jvOfStrOpt sel.periodId) sel.blockId sel.week with _ | w1 <;>
      exact weekIdsAt_dayDocStep doc sel w pid0 bid0

theorem weekIdsAt_fixExerciseLevel (doc : Doc) (sel : Sel) (pid0 bid0 : JV) :
    weekIdsAt (fixExerciseLevel doc sel).1 pid0 bid0 = weekIdsAt doc pid0 bid0 := by
  unfold fixExerciseLevel
  rcases hd : getDayAt doc (jvOfStrOpt sel.periodId) sel.blockId sel.week sel.day with _ | d
  · rfl
  · show weekIdsAt (match getDayAt (exerciseDocStep doc sel d) (jvOfStrOpt sel.periodId) sel.blockId sel.week sel.day with
      | none => (exerciseDocStep doc sel d, sel)
      | some d1 => (exerciseDocStep doc sel d, exerciseSelStep sel d1)).1 pid0 bid0 = weekIdsAt doc pid0 bid0
    rcases hd1 : getDayAt (exerciseDocStep doc sel d) (jvOfStrOpt sel.periodId) sel.blockId sel.week sel.day with _ | d1 <;>
      exact weekIdsAt_exerciseDocStep doc sel d pid0 bid0

theorem dayIdsAt_exerciseDocStep (doc : Doc) (sel : Sel) (d : Day) (pid0 bid0 wk0 : JV) :
    dayIdsAt (exerciseDocStep doc sel d) pid0 bid0 wk0 = dayIdsAt doc pid0 bid0 wk0 := by
  unfold exerciseDocStep
  split
  · exact dayIdsAt_updateDayIn _ _ _ _ _ (fun e => { e with exercises := e.exercises ++ [defaultExercise] }) (fun e => rfl) pid0 bid0 wk0
  · rfl

theorem dayIdsAt_fixExerciseLevel (doc : Doc) (sel : Sel) (pid0 bid0 wk0 : JV) :
    dayIdsAt (fixExerciseLevel doc sel).1 pid0 bid0 wk0 = dayIdsAt doc pid0 bid0 wk0 := by
  unfold fixExerciseLevel
  rcases hd : getDayAt doc (jvOfStrOpt sel.periodId) sel.blockId sel.week sel.day with _ | d
  · rfl
  · show dayIdsAt (match getDayAt (exerciseDocStep doc sel d) (jvOfStrOpt sel.periodId) sel.blockId sel.week sel.day with
      | none => (exerciseDocStep doc sel d, sel)
      | some d1 => (exerciseDocStep doc sel d, exerciseSelStep sel d1)).1 pid0 bid0 wk0 = dayIdsAt doc pid0 bid0 wk0
    rcases hd1 : getDayAt (exerciseDocStep doc sel d) (jvOfStrOpt sel.periodId) sel.blockId sel.week sel.day with _ | d1 <;>
      exact dayIdsAt_exerciseDocStep doc sel d pid0 bid0 wk0

/-! ## No-op characterisation of the fallback-walk stages on resolvable selections -/

theorem fixPeriodLevel_of_resolved (doc : Doc) (sel : Sel)
    (ht : jsTruthy (jvOfStrOpt sel.periodId) = true)
    (hp : (getPeriod doc (jvOfStrOpt sel.periodId)).isSome = true) :
    fixPeriodLevel doc sel = (doc, sel) := by
  have hne : doc.periods.isEmpty = false := by
    rcases Option.isSome_iff_exists.mp hp with ⟨p, hpp⟩
    exact isEmpty_false_of_find?_some _ _ p hpp
  have hds : periodDocStep doc = doc := by
    unfold periodDocStep
    rw [if_neg (by rw [hne]; exact Bool.false_ne_true)]
  unfold fixPeriodLevel
  rw [hds]
  have hss : periodSelStep doc sel = sel := by
    unfold periodSelStep
    rcases Option.isSome_iff_exists.mp hp with ⟨p, hpp⟩
    rw [if_neg (by rw [ht, hpp]; exact Bool.false_ne_true)]
  rw [hss]

theorem fixBlockLevel_of_resolved (doc : Doc) (sel : Sel) (p : Period)
    (hp : getPeriod doc (jvOfStrOpt sel.periodId) = some p)
    (hne : p.blocks.isEmpty = false)
    (ht : jsTruthy sel.blockId = true)
    (hb : (getBlock p sel.blockId).isSome = true) :
    fixBlockLevel doc sel = (doc, sel) := by
  have hds : blockDocStep doc sel p = doc := by
    unfold blockDocStep
    rw [if_neg (by rw [hne]; exact Bool.false_ne_true)]
  unfold fixBlockLevel
  rw [hp]
  show (match getPeriod (blockDocStep doc sel p) (jvOfStrOpt sel.periodId) with
    | none => (blockDocStep doc sel p, sel)
    | some p1 => (blockDocStep doc sel p, blockSelStep sel p1)) = (doc, sel)
  rw [hds, hp]
  show (doc, blockSelStep sel p) = (doc, sel)
  have hss : blockSelStep sel p = sel := by
    unfold blockSelStep
    rcases Option.isSome_iff_exists.mp hb with ⟨b, hbb⟩
    rw [if_neg (by rw [ht, hbb]; exact Bool.false_ne_true)]
  rw [hss]

theorem fixWeekLevel_of_resolved (doc : Doc) (sel : Sel) (b : Block)
    (hb : getBlockAt doc (jvOfStrOpt sel.periodId) sel.blockId = some b)
    (hne : b.weeks.isEmpty = false)
    (ht : jsTruthy sel.week = true)
    (hw : (getWeek b sel.week).isSome = true) :
    fixWeekLevel doc sel = (doc, sel) := by
  have hds : weekDocStep doc sel b = doc := by
    unfold weekDocStep
    rw [if_neg (by rw [hne]; exact Bool.false_ne_true)]
  unfold fixWeekLevel
  rw [hb]
  show (match getBlockAt (weekDocStep doc sel b) (jvOfStrOpt sel.periodId) sel.blockId with
    | none => (weekDocStep doc sel b, sel)
    | some b1 => (weekDocStep doc sel b, weekSelStep sel b1)) = (doc, sel)
  rw [hds, hb]
  show (doc, weekSelStep sel b) = (doc, sel)
  have hss : weekSelStep sel b = sel := by
    unfold weekSelStep
    rcases Option.isSome_iff_exists.mp hw with ⟨w, hww⟩
    rw [if_neg (by rw [ht, hww]; exact Bool.false_ne_true)]
  rw [hss]

theorem fixDayLevel_of_resolved (doc : Doc) (sel : Sel) (w : Week)
    (hw : getWeekAt doc (jvOfStrOpt sel.periodId) sel.blockId sel.week = some w)
    (hne : w.days.isEmpty = false)
    (ht : jsTruthy sel.day = true)
    (hd : (getDay w sel.day).isSome = true) :
    fixDayLevel doc sel = (doc, sel) := by
  have hds : dayDocStep doc sel w = doc := by
    unfold dayDocStep
    rw [if_neg (by rw [hne]; exact Bool.false_ne_true)]
  unfold fixDayLevel
  rw [hw]
  show (match getWeekAt (dayDocStep doc sel w) (jvOfStrOpt sel.periodId) sel.blockId sel.week with
    | none => (dayDocStep doc sel w, sel)
    | some w1 => (dayDocStep doc sel w, daySelStep sel w1)) = (doc, sel)
  rw [hds, hw]
  show (doc, daySelStep sel w) = (doc, sel)
  have hss : daySelStep sel w = sel := by
    unfold daySelStep
    rcases Option.isSome_iff_exists.mp hd with ⟨d, hdd⟩
    rw [if_neg (by rw [ht, hdd]; exact Bool.false_ne_true)]
  rw [hss]

theorem fixExerciseLevel_doc_of_nonempty (doc : Doc) (sel : Sel) (d : Day)
    (hd : getDayAt doc (jvOfStrOpt sel.periodId) sel.blockId sel.week sel.day = some d)
    (hne : d.exercises.isEmpty = false) :
    (fixExerciseLevel doc sel).1 = doc := by
  have hds : exerciseDocStep doc sel d = doc := by
    unfold exerciseDocStep
    rw [if_neg (by rw [hne]; exact Bool.false_ne_true)]
  unfold fixExerciseLevel
  rw [hd]
  show (match getDayAt (exerciseDocStep doc sel d) (jvOfStrOpt sel.periodId) sel.blockId sel.week sel.day with
    | none => (exerciseDocStep doc sel d, sel)
    | some d1 => (exerciseDocStep doc sel d, exerciseSelStep sel d1)).1 = doc
  rw [hds, hd]

theorem periodIds_ensureSelected (doc : Doc) (sel : Sel) (h : doc.periods.isEmpty = false) :
    ((ensureSelected doc sel).1).periods.map Period.id = doc.periods.map Period.id := by
  have h1 : (fixPeriodLevel doc sel).1 = doc := by
    show periodDocStep doc = doc
    unfold periodDocStep
    rw [if_neg (by rw [h]; exact Bool.false_ne_true)]
  calc ((ensureSelected doc sel).1).periods.map Period.id
      = ((fixDayLevel _ _).1).periods.map Period.id := periodIds_fixExerciseLevel _ _
    _ = ((fixWeekLevel _ _).1).periods.map Period.id := periodIds_fixDayLevel _ _
    _ = ((fixBlockLevel _ _).1).periods.map Period.id := periodIds_fixWeekLevel _ _
    _ = ((fixPeriodLevel doc sel).1).periods.map Period.id := periodIds_fixBlockLevel _ _
    _ = doc.periods.map Period.id := by rw [h1]

/-! ## Structure Mutator insert characterisation (claim C7 kit) -/

theorem addPeriod_emptyName (st : St) (s : String) (h : (jsTrim s).isEmpty = true) :
    addPeriod st s = st := by
  simp only [addPeriod]
  rw [if_pos h]

theorem addPeriod_dup (st : St) (s : String) (h1 : (jsTrim s).isEmpty = false)
    (h2 : st.doc.periods.any (fun p => p.id == slugify (jsTrim s)) = true) :
    addPeriod st s = st := by
  simp only [addPeriod]
  rw [if_neg (by rw [h1]; exact Bool.false_ne_true), if_pos h2]

theorem addPeriod_success (st : St) (s : String) (h1 : (jsTrim s).isEmpty = false)
    (h2 : st.doc.periods.any (fun p => p.id == slugify (jsTrim s)) = false) :
    (addPeriod st s).edits = st.edits ∧
    (addPeriod st s).doc.periods.map Period.id =
      st.doc.periods.map Period.id ++ [slugify (jsTrim s)] := by
  simp only [addPeriod]
  rw [if_neg (by rw [h1]; exact Bool.false_ne_true), if_neg (by rw [h2]; exact Bool.false_ne_true)]
  refine ⟨rfl, ?_⟩
  rw [periodIds_ensureSelected]
  · show (st.doc.periods ++ [(⟨slugify (jsTrim s), jsTrim s, []⟩ : Period)]).map Period.id =
      st.doc.periods.map Period.id ++ [slugify (jsTrim s)]
    rw [List.map_append]
    rfl
  · show (st.doc.periods ++ [(⟨slugify (jsTrim s), jsTrim s, []⟩ : Period)]).isEmpty = false
    rcases h : st.doc.periods with _ | ⟨a, l⟩ <;> rfl

theorem addBlock_nan (st : St) (t : String) (h : jsStringToNumber t = none) :
    addBlock st t = some st := by
  unfold addBlock
  rw [h]

theorem addBlock_lt1 (st : St) (t : String) (x : ℚ)
    (hx : jsStringToNumber t = some x) (hlt : x < 1) : addBlock st t = some st := by
  unfold addBlock
  rw [hx]
  simp [decide_eq_true hlt]

theorem addBlock_dup (st : St) (t : String) (x : ℚ) (p : Period)
    (hx : jsStringToNumber t = some x) (hge : 1 ≤ x)
    (hp : getPeriod st.doc (jvOfStrOpt st.sel.periodId) = some p)
    (hdup : p.blocks.any (fun b => b.id == x) = true) : addBlock st t = some st := by
  have h0 : (x == 0 || decide (x < 1)) = false := by
    rw [beq_eq_false_iff_ne.mpr (zero_lt_one.trans_le hge).ne',
      decide_eq_false (not_lt.mpr hge), Bool.or_false]
  unfold addBlock
  rw [hx]
  simp [h0, hp, hdup]

theorem addBlock_success (st : St) (t : String) (x : ℚ) (p : Period)
    (hx : jsStringToNumber t = some x) (hge : 1 ≤ x)
    (ht : jsTruthy (jvOfStrOpt st.sel.periodId) = true)
    (hp : getPeriod st.doc (jvOfStrOpt st.sel.periodId) = some p)
    (hdup : p.blocks.any (fun b => b.id == x) = false) :
    ∃ st', addBlock st t = some st' ∧ st'.edits = st.edits ∧
      blockIdsAt st'.doc (jvOfStrOpt st.sel.periodId) =
        some ((sortBy blockLe (p.blocks ++ [⟨x, []⟩])).map Block.id) := by
  have h0 : (x == 0 || decide (x < 1)) = false := by
    rw [beq_eq_false_iff_ne.mpr (zero_lt_one.trans_le hge).ne',
      decide_eq_false (not_lt.mpr hge), Bool.or_false]
  have hstep : addBlock st t = some
      ⟨(ensureSelected (updatePeriodIn st.doc (jvOfStrOpt st.sel.periodId)
          (fun q => { q with blocks := sortBy blockLe (q.blocks ++ [⟨x, []⟩]) }))
        { st.sel with blockId := JV.num x, week := JV.nul, day := JV.nul, exerciseId := none }).1,
       (ensureSelected (updatePeriodIn st.doc (jvOfStrOpt st.sel.periodId)
          (fun q => { q with blocks := sortBy blockLe (q.blocks ++ [⟨x, []⟩]) }))
        { st.sel with blockId := JV.num x, week := JV.nul, day := JV.nul, exerciseId := none }).2,
       st.edits⟩ := by
    unfold addBlock
    rw [hx]
    simp [h0, hp, hdup]
  refine ⟨_, hstep, rfl, ?_⟩
  show blockIdsAt (ensureSelected (updatePeriodIn st.doc (jvOfStrOpt st.sel.periodId)
      (fun q => { q with blocks := sortBy blockLe (q.blocks ++ [⟨x, []⟩]) }))
    { st.sel with blockId := JV.num x, week := JV.nul, day := JV.nul, exerciseId := none }).1
      (jvOfStrOpt st.sel.periodId) =
    some ((sortBy blockLe (p.blocks ++ [⟨x, []⟩])).map Block.id)
  have hdoc1 : getPeriod (updatePeriodIn st.doc (jvOfStrOpt st.sel.periodId)
      (fun q => { q with blocks := sortBy blockLe (q.blocks ++ [⟨x, []⟩]) }))
      (jvOfStrOpt st.sel.periodId) =
      some { p with blocks := sortBy blockLe (p.blocks ++ [⟨x, []⟩]) } := by
    rw [getPeriod_updatePeriodIn st.doc (jvOfStrOpt st.sel.periodId)
      (fun q => { q with blocks := sortBy blockLe (q.blocks ++ [⟨x, []⟩]) }) (fun q => rfl), hp]
    rfl
  have h1 : fixPeriodLevel (updatePeriodIn st.doc (jvOfStrOpt st.sel.periodId)
      (fun q => { q with blocks := sortBy blockLe (q.blocks ++ [⟨x, []⟩]) }))
      { st.sel with blockId := JV.num x, week := JV.nul, day := JV.nul, exerciseId := none } =
      (updatePeriodIn st.doc (jvOfStrOpt st.sel.periodId)
        (fun q => { q with blocks := sortBy blockLe (q.blocks ++ [⟨x, []⟩]) }),
       { st.sel with blockId := JV.num x, week := JV.nul, day := JV.nul, exerciseId := none }) := by
    refine fixPeriodLevel_of_resolved _ _ ht ?_
    rw [hdoc1]
    rfl
  have hbfind : (getBlock { p with blocks := sortBy blockLe (p.blocks ++ [⟨x, []⟩]) }
      (JV.num x)).isSome = true := by
    show ((sortBy blockLe (p.blocks ++ [⟨x, []⟩])).find? (blockPred (JV.num x))).isSome = true
    rw [List.find?_isSome]
    refine ⟨⟨x, []⟩, (sortBy_perm _ _).mem_iff.mpr (by simp), ?_⟩
    unfold blockPred
    exact beq_self_eq_true _
  have h2 : fixBlockLevel (updatePeriodIn st.doc (jvOfStrOpt st.sel.periodId)
      (fun q => { q with blocks := sortBy blockLe (q.blocks ++ [⟨x, []⟩]) }))
      { st.sel with blockId := JV.num x, week := JV.nul, day := JV.nul, exerciseId := none } =
      (updatePeriodIn st.doc (jvOfStrOpt st.sel.periodId)
        (fun q => { q with blocks := sortBy blockLe (q.blocks ++ [⟨x, []⟩]) }),
       { st.sel with blockId := JV.num x, week := JV.nul, day := JV.nul, exerciseId := none }) := by
    refine fixBlockLevel_of_resolved _ _
      { p with blocks := sortBy blockLe (p.blocks ++ [⟨x, []⟩]) } hdoc1
      (sortBy_isEmpty_append _ _ _) ?_ hbfind
    exact decide_eq_true (zero_lt_one.trans_le hge).ne'
  unfold ensureSelected
  rw [blockIdsAt_fixExerciseLevel, blockIdsAt_fixDayLevel, blockIdsAt_fixWeekLevel, h1]
  rw [show fixBlockLevel (updatePeriodIn st.doc (jvOfStrOpt st.sel.periodId)
      (fun q => { q with blocks := sortBy blockLe (q.blocks ++ [⟨x, []⟩]) }),
      { st.sel with blockId := JV.num x, week := JV.nul, day := JV.nul, exerciseId := none }).1
      (updatePeriodIn st.doc (jvOfStrOpt st.sel.periodId)
      (fun q => { q with blocks := sortBy blockLe (q.blocks ++ [⟨x, []⟩]) }),
      { st.sel with blockId := JV.num x, week := JV.nul, day := JV.nul, exerciseId := none }).2 =
      (updatePeriodIn st.doc (jvOfStrOpt st.sel.periodId)
        (fun q => { q with blocks := sortBy blockLe (q.blocks ++ [⟨x, []⟩]) }),
       { st.sel with blockId := JV.num x, week := JV.nul, day := JV.nul, exerciseId := none }) from h2]
  show blockIdsAt (updatePeriodIn st.doc (jvOfStrOpt st.sel.periodId)
      (fun q => { q with blocks := sortBy blockLe (q.blocks ++ [⟨x, []⟩]) }))
      (jvOfStrOpt st.sel.periodId) =
    some ((sortBy blockLe (p.blocks ++ [⟨x, []⟩])).map Block.id)
  unfold blockIdsAt
  rw [hdoc1]
  rfl

theorem addWeek_nan (st : St) (t : String) (p : Period)
    (hp : getPeriod st.doc (jvOfStrOpt st.sel.periodId) = some p)
    (h : jsStringToNumber t = none) : addWeek st t = some st := by
  unfold addWeek
  rw [hp]
  simp [h]

theorem addWeek_lt1 (st : St) (t : String) (p : Period) (x : ℚ)
    (hp : getPeriod st.doc (jvOfStrOpt st.sel.periodId) = some p)
    (hx : jsStringToNumber t = some x) (hlt : x < 1) : addWeek st t = some st := by
  unfold addWeek
  rw [hp]
  simp [hx, decide_eq_true hlt]

theorem addWeek_dup (st : St) (t : String) (p : Period) (b : Block) (x : ℚ)
    (hp : getPeriod st.doc (jvOfStrOpt st.sel.periodId) = some p)
    (hb : getBlock p st.sel.blockId = some b)
    (hx : jsStringToNumber t = some x) (hge : 1 ≤ x)
    (hdup : b.weeks.any (fun w => w.week == x) = true) : addWeek st t = some st := by
  have h0 : (x == 0 || decide (x < 1)) = false := by
    rw [beq_eq_false_iff_ne.mpr (zero_lt_one.trans_le hge).ne',
      decide_eq_false (not_lt.mpr hge), Bool.or_false]
  unfold addWeek
  rw [hp]
  simp [hx, h0, hb, hdup]

theorem addWeek_success (st : St) (t : String) (p : Period) (b : Block) (x : ℚ)
    (hp : getPeriod st.doc (jvOfStrOpt st.sel.periodId) = some p)
    (hb : getBlock p st.sel.blockId = some b)
    (hx : jsStringToNumber t = some x) (hge : 1 ≤ x)
    (htp : jsTruthy (jvOfStrOpt st.sel.periodId) = true)
    (htb : jsTruthy st.sel.blockId = true)
    (hdup : b.weeks.any (fun w => w.week == x) = false) :
    ∃ st', addWeek st t = some st' ∧ st'.edits = st.edits ∧
      weekIdsAt st'.doc (jvOfStrOpt st.sel.periodId) st.sel.blockId =
        some ((sortBy weekLe (b.weeks ++ [⟨x, []⟩])).map Week.week) := by
  have h0 : (x == 0 || decide (x < 1)) = false := by
    rw [beq_eq_false_iff_ne.mpr (zero_lt_one.trans_le hge).ne',
      decide_eq_false (not_lt.mpr hge), Bool.or_false]
  have hstep : addWeek st t = some
      ⟨(ensureSelected (updateBlockIn st.doc (jvOfStrOpt st.sel.periodId) st.sel.blockId
          (fun c => { c with weeks := sortBy weekLe (c.weeks ++ [⟨x, []⟩]) }))
        { st.sel with week := JV.num x, day := JV.nul, exerciseId := none }).1,
       (ensureSelected (updateBlockIn st.doc (jvOfStrOpt st.sel.periodId) st.sel.blockId
          (fun c => { c with weeks := sortBy weekLe (c.weeks ++ [⟨x, []⟩]) }))
        { st.sel with week := JV.num x, day := JV.nul, exerciseId := none }).2,
       st.edits⟩ := by
    unfold addWeek
    rw [hp]
    simp [hx, h0, hb, hdup]
  refine ⟨_, hstep, rfl, ?_⟩
  have hbAt : getBlockAt st.doc (jvOfStrOpt st.sel.periodId) st.sel.blockId = some b := by
    unfold getBlockAt
    rw [hp]
    exact hb
  have hdocB : getBlockAt (updateBlockIn st.doc (jvOfStrOpt st.sel.periodId) st.sel.blockId
      (fun c => { c with weeks := sortBy weekLe (c.weeks ++ [⟨x, []⟩]) }))
      (jvOfStrOpt st.sel.periodId) st.sel.blockId =
      some { b with weeks := sortBy weekLe (b.weeks ++ [⟨x, []⟩]) } := by
    rw [getBlockAt_updateBlockIn st.doc (jvOfStrOpt st.sel.periodId) st.sel.blockId
      (fun c => { c with weeks := sortBy weekLe (c.weeks ++ [⟨x, []⟩]) }) (fun c => rfl), hbAt]
    rfl
  have hdocP : getPeriod (updateBlockIn st.doc (jvOfStrOpt st.sel.periodId) st.sel.blockId
      (fun c => { c with weeks := sortBy weekLe (c.weeks ++ [⟨x, []⟩]) }))
      (jvOfStrOpt st.sel.periodId) =
      some { p with blocks := updateFirst (blockPred st.sel.blockId) (fun c => { c with weeks := sortBy weekLe (c.weeks ++ [⟨x, []⟩]) }) p.blocks } := by
    rw [show getPeriod (updateBlockIn st.doc (jvOfStrOpt st.sel.periodId) st.sel.blockId
        (fun c => { c with weeks := sortBy weekLe (c.weeks ++ [⟨x, []⟩]) }))
        (jvOfStrOpt st.sel.periodId) =
      (getPeriod st.doc (jvOfStrOpt st.sel.periodId)).map
        (fun q => { q with blocks := updateFirst (blockPred st.sel.blockId) (fun c => { c with weeks := sortBy weekLe (c.weeks ++ [⟨x, []⟩]) }) q.blocks }) from
      getPeriod_updatePeriodIn st.doc (jvOfStrOpt st.sel.periodId)
        (fun q => { q with blocks := updateFirst (blockPred st.sel.blockId) (fun c => { c with weeks := sortBy weekLe (c.weeks ++ [⟨x, []⟩]) }) q.blocks })
        (fun q => rfl), hp]
    rfl
  have hblocksne : ({ p with blocks := updateFirst (blockPred st.sel.blockId) (fun c => { c with weeks := sortBy weekLe (c.weeks ++ [⟨x, []⟩]) }) p.blocks } :
        Period).blocks.isEmpty = false := by
    show (updateFirst (blockPred st.sel.blockId) (fun c => { c with weeks := sortBy weekLe (c.weeks ++ [⟨x, []⟩]) }) p.blocks).isEmpty = false
    rw [updateFirst_isEmpty]
    exact isEmpty_false_of_find?_some _ _ b hb
  have hbsome : (getBlock { p with blocks := updateFirst (blockPred st.sel.blockId) (fun c => { c with weeks := sortBy weekLe (c.weeks ++ [⟨x, []⟩]) }) p.blocks }
      st.sel.blockId).isSome = true := by
    show ((updateFirst (blockPred st.sel.blockId) (fun c => { c with weeks := sortBy weekLe (c.weeks ++ [⟨x, []⟩]) }) p.blocks).find?
        (blockPred st.sel.blockId)).isSome = true
    rw [find?_updateFirst_same (blockPred st.sel.blockId)
      (fun c => { c with weeks := sortBy weekLe (c.weeks ++ [⟨x, []⟩]) }) p.blocks
      (fun c => rfl),
      show List.find? (blockPred st.sel.blockId) p.blocks = some b from hb]
    rfl
  have h1 : fixPeriodLevel (updateBlockIn st.doc (jvOfStrOpt st.sel.periodId) st.sel.blockId
      (fun c => { c with weeks := sortBy weekLe (c.weeks ++ [⟨x, []⟩]) }))
      { st.sel with week := JV.num x, day := JV.nul, exerciseId := none } =
      (updateBlockIn st.doc (jvOfStrOpt st.sel.periodId) st.sel.blockId
        (fun c => { c with weeks := sortBy weekLe (c.weeks ++ [⟨x, []⟩]) }),
       { st.sel with week := JV.num x, day := JV.nul, exerciseId := none }) := by
    refine fixPeriodLevel_of_resolved _ _ htp ?_
    rw [hdocP]
    rfl
  have h2 : fixBlockLevel (updateBlockIn st.doc (jvOfStrOpt st.sel.periodId) st.sel.blockId
      (fun c => { c with weeks := sortBy weekLe (c.weeks ++ [⟨x, []⟩]) }))
      { st.sel with week := JV.num x, day := JV.nul, exerciseId := none } =
      (updateBlockIn st.doc (jvOfStrOpt st.sel.periodId) st.sel.blockId
        (fun c => { c with weeks := sortBy weekLe (c.weeks ++ [⟨x, []⟩]) }),
       { st.sel with week := JV.num x, day := JV.nul, exerciseId := none }) := by
    exact fixBlockLevel_of_resolved _ _ _ hdocP hblocksne htb hbsome
  have h3 : fixWeekLevel (updateBlockIn st.doc (jvOfStrOpt st.sel.periodId) st.sel.blockId
      (fun c => { c with weeks := sortBy weekLe (c.weeks ++ [⟨x, []⟩]) }))
      { st.sel with week := JV.num x, day := JV.nul, exerciseId := none } =
      (updateBlockIn st.doc (jvOfStrOpt st.sel.periodId) st.sel.blockId
        (fun c => { c with weeks := sortBy weekLe (c.weeks ++ [⟨x, []⟩]) }),
       { st.sel with week := JV.num x, day := JV.nul, exerciseId := none }) := by
    refine fixWeekLevel_of_resolved _ _ { b with weeks := sortBy weekLe (b.weeks ++ [⟨x, []⟩]) }
      hdocB (sortBy_isEmpty_append _ _ _)
      (decide_eq_true (zero_lt_one.trans_le hge).ne') ?_
    show ((sortBy weekLe (b.weeks ++ [⟨x, []⟩])).find? (weekPred (JV.num x))).isSome = true
    rw [List.find?_isSome]
    refine ⟨⟨x, []⟩, (sortBy_perm _ _).mem_iff.mpr (by simp), ?_⟩
    unfold weekPred jsToNumber
    exact beq_self_eq_true _
  unfold ensureSelected
  rw [weekIdsAt_fixExerciseLevel, weekIdsAt_fixDayLevel, h1]
  rw [show fixBlockLevel (updateBlockIn st.doc (jvOfStrOpt st.sel.periodId) st.sel.blockId
        (fun c => { c with weeks := sortBy weekLe (c.weeks ++ [⟨x, []⟩]) }),
      { st.sel with week := JV.num x, day := JV.nul, exerciseId := none }).1
      (updateBlockIn st.doc (jvOfStrOpt st.sel.periodId) st.sel.blockId
        (fun c => { c with weeks := sortBy weekLe (c.weeks ++ [⟨x, []⟩]) }),
      { st.sel with week := JV.num x, day := JV.nul, exerciseId := none }).2 =
      (updateBlockIn st.doc (jvOfStrOpt st.sel.periodId) st.sel.blockId
        (fun c => { c with weeks := sortBy weekLe (c.weeks ++ [⟨x, []⟩]) }),
       { st.sel with week := JV.num x, day := JV.nul, exerciseId := none }) from h2]
  rw [show fixWeekLevel (updateBlockIn st.doc (jvOfStrOpt st.sel.periodId) st.sel.blockId
        (fun c => { c with weeks := sortBy weekLe (c.weeks ++ [⟨x, []⟩]) }),
      { st.sel with week := JV.num x, day := JV.nul, exerciseId := none }).1
      (updateBlockIn st.doc (jvOfStrOpt st.sel.periodId) st.sel.blockId
        (fun c => { c with weeks := sortBy weekLe (c.weeks ++ [⟨x, []⟩]) }),
      { st.sel with week := JV.num x, day := JV.nul, exerciseId := none }).2 =
      (updateBlockIn st.doc (jvOfStrOpt st.sel.periodId) st.sel.blockId
        (fun c => { c with weeks := sortBy weekLe (c.weeks ++ [⟨x, []⟩]) }),
       { st.sel with week := JV.num x, day := JV.nul, exerciseId := none }) from h3]
  show weekIdsAt (updateBlockIn st.doc (jvOfStrOpt st.sel.periodId) st.sel.blockId
      (fun c => { c with weeks := sortBy weekLe (c.weeks ++ [⟨x, []⟩]) }))
      (jvOfStrOpt st.sel.periodId) st.sel.blockId =
    some ((sortBy weekLe (b.weeks ++ [⟨x, []⟩])).map Week.week)
  unfold weekIdsAt
  rw [hdocB]
  rfl

theorem addDay_nan (st : St) (t u : String) (p : Period) (b : Block)
    (hp : getPeriod st.doc (jvOfStrOpt st.sel.periodId) = some p)
    (hb : getBlock p st.sel.blockId = some b)
    (h : jsStringToNumber t = none) : addDay st t u = some st := by
  unfold addDay
  rw [hp]
  simp [hb, h]

theorem addDay_lt1 (st : St) (t u : String) (p : Period) (b : Block) (x : ℚ)
    (hp : getPeriod st.doc (jvOfStrOpt st.sel.periodId) = some p)
    (hb : getBlock p st.sel.blockId = some b)
    (hx : jsStringToNumber t = some x) (hlt : x < 1) : addDay st t u = some st := by
  unfold addDay
  rw [hp]
  simp [hb, hx, decide_eq_true hlt]

theorem addDay_dup (st : St) (t u : String) (p : Period) (b : Block) (w : Week) (x : ℚ)
    (hp : getPeriod st.doc (jvOfStrOpt st.sel.periodId) = some p)
    (hb : getBlock p st.sel.blockId = some b)
    (hw : getWeek b st.sel.week = some w)
    (hx : jsStringToNumber t = some x) (hge : 1 ≤ x)
    (hdup : w.days.any (fun d => d.day == x) = true) : addDay st t u = some st := by
  have h0 : (x == 0 || decide (x < 1)) = false := by
    rw [beq_eq_false_iff_ne.mpr (zero_lt_one.trans_le hge).ne',
      decide_eq_false (not_lt.mpr hge), Bool.or_false]
  unfold addDay
  rw [hp]
  simp [hb, hx, h0, hw, hdup]

theorem addDay_success (st : St) (t u : String) (p : Period) (b : Block) (w : Week)
    (x : ℚ) (lbl : String)
    (hp : getPeriod st.doc (jvOfStrOpt st.sel.periodId) = some p)
    (hb : getBlock p st.sel.blockId = some b)
    (hw : getWeek b st.sel.week = some w)
    (hx : jsStringToNumber t = some x) (hge : 1 ≤ x)
    (htp : jsTruthy (jvOfStrOpt st.sel.periodId) = true)
    (htb : jsTruthy st.sel.blockId = true)
    (htw : jsTruthy st.sel.week = true)
    (hlbl : (if (jsTrim u).isEmpty then "Day " ++ jsNumToString x else jsTrim u) = lbl)
    (hdup : w.days.any (fun d => d.day == x) = false) :
    ∃ st', addDay st t u = some st' ∧ st'.edits = st.edits ∧
      dayIdsAt st'.doc (jvOfStrOpt st.sel.periodId) st.sel.blockId st.sel.week =
        some ((sortBy dayLe (w.days ++ [⟨x, lbl, []⟩])).map Day.day) := by
  have h0 : (x == 0 || decide (x < 1)) = false := by
    rw [beq_eq_false_iff_ne.mpr (zero_lt_one.trans_le hge).ne',
      decide_eq_false (not_lt.mpr hge), Bool.or_false]
  have hstep : addDay st t u = some
      ⟨(ensureSelected (updateWeekIn st.doc (jvOfStrOpt st.sel.periodId) st.sel.blockId st.sel.week
          (fun v => { v with days := sortBy dayLe (v.days ++ [⟨x, lbl, []⟩]) }))
        { st.sel with day := JV.num x, exerciseId := none }).1,
       (ensureSelected (updateWeekIn st.doc (jvOfStrOpt st.sel.periodId) st.sel.blockId st.sel.week
          (fun v => { v with days := sortBy dayLe (v.days ++ [⟨x, lbl, []⟩]) }))
        { st.sel with day := JV.num x, exerciseId := none }).2,
       st.edits⟩ := by
    unfold addDay
    rw [hp]
    simp [hb, hx, h0, hw, hdup, hlbl]
  refine ⟨_, hstep, rfl, ?_⟩
  have hbAt : getBlockAt st.doc (jvOfStrOpt st.sel.periodId) st.sel.blockId = some b := by
    unfold getBlockAt
    rw [hp]
    exact hb
  have hwAt : getWeekAt st.doc (jvOfStrOpt st.sel.periodId) st.sel.blockId st.sel.week = some w := by
    unfold getWeekAt
    rw [hbAt]
    exact hw
  have hdocW : getWeekAt (updateWeekIn st.doc (jvOfStrOpt st.sel.periodId) st.sel.blockId st.sel.week
      (fun v => { v with days := sortBy dayLe (v.days ++ [⟨x, lbl, []⟩]) }))
      (jvOfStrOpt st.sel.periodId) st.sel.blockId st.sel.week =
      some { w with days := sortBy dayLe (w.days ++ [⟨x, lbl, []⟩]) } := by
    rw [getWeekAt_updateWeekIn st.doc (jvOfStrOpt st.sel.periodId) st.sel.blockId st.sel.week
      (fun v => { v with days := sortBy dayLe (v.days ++ [⟨x, lbl, []⟩]) }) (fun v => rfl), hwAt]
    rfl
  have hdocB : getBlockAt (updateWeekIn st.doc (jvOfStrOpt st.sel.periodId) st.sel.blockId st.sel.week
      (fun v => { v with days := sortBy dayLe (v.days ++ [⟨x, lbl, []⟩]) }))
      (jvOfStrOpt st.sel.periodId) st.sel.blockId =
      some { b with weeks := updateFirst (weekPred st.sel.week) (fun c => { c with days := sortBy dayLe (c.days ++ [⟨x, lbl, []⟩]) }) b.weeks } := by
    rw [show getBlockAt (updateWeekIn st.doc (jvOfStrOpt st.sel.periodId) st.sel.blockId st.sel.week
        (fun v => { v with days := sortBy dayLe (v.days ++ [⟨x, lbl, []⟩]) }))
        (jvOfStrOpt st.sel.periodId) st.sel.blockId =
      (getBlockAt st.doc (jvOfStrOpt st.sel.periodId) st.sel.blockId).map
        (fun c => { c with weeks := updateFirst (weekPred st.sel.week) (fun v => { v with days := sortBy dayLe (v.days ++ [⟨x, lbl, []⟩]) }) c.weeks }) from
      getBlockAt_updateBlockIn st.doc (jvOfStrOpt st.sel.periodId) st.sel.blockId
        (fun c => { c with weeks := updateFirst (weekPred st.sel.week) (fun v => { v with days := sortBy dayLe (v.days ++ [⟨x, lbl, []⟩]) }) c.weeks })
        (fun c => rfl), hbAt]
    rfl
  have hdocP : getPeriod (updateWeekIn st.doc (jvOfStrOpt st.sel.periodId) st.sel.blockId st.sel.week
      (fun v => { v with days := sortBy dayLe (v.days ++ [⟨x, lbl, []⟩]) }))
      (jvOfStrOpt st.sel.periodId) =
      some { p with blocks := updateFirst (blockPred st.sel.blockId) (fun c => { c with weeks := updateFirst (weekPred st.sel.week) (fun v => { v with days := sortBy dayLe (v.days ++ [⟨x, lbl, []⟩]) }) c.weeks }) p.blocks } := by
    rw [show getPeriod (updateWeekIn st.doc (jvOfStrOpt st.sel.periodId) st.sel.blockId st.sel.week
        (fun v => { v with days := sortBy dayLe (v.days ++ [⟨x, lbl, []⟩]) }))
        (jvOfStrOpt st.sel.periodId) =
      (getPeriod st.doc (jvOfStrOpt st.sel.periodId)).map
        (fun q => { q with blocks := updateFirst (blockPred st.sel.blockId) (fun c => { c with weeks := updateFirst (weekPred st.sel.week) (fun v => { v with days := sortBy dayLe (v.days ++ [⟨x, lbl, []⟩]) }) c.weeks }) q.blocks }) from
      getPeriod_updatePeriodIn st.doc (jvOfStrOpt st.sel.periodId)
        (fun q => { q with blocks := updateFirst (blockPred st.sel.blockId) (fun c => { c with weeks := updateFirst (weekPred st.sel.week) (fun v => { v with days := sortBy dayLe (v.days ++ [⟨x, lbl, []⟩]) }) c.weeks }) q.blocks })
        (fun q => rfl), hp]
    rfl
  have hblocksne : (updateFirst (blockPred st.sel.blockId) (fun c => { c with weeks := updateFirst (weekPred st.sel.week) (fun v => { v with days := sortBy dayLe (v.days ++ [⟨x, lbl, []⟩]) }) c.weeks }) p.blocks).isEmpty = false := by
    rw [updateFirst_isEmpty]
    exact isEmpty_false_of_find?_some _ _ b hb
  have hbsome : (getBlock { p with blocks := updateFirst (blockPred st.sel.blockId) (fun c => { c with weeks := updateFirst (weekPred st.sel.week) (fun v => { v with days := sortBy dayLe (v.days ++ [⟨x, lbl, []⟩]) }) c.weeks }) p.blocks } st.sel.blockId).isSome = true := by
    show ((updateFirst (blockPred st.sel.blockId) (fun c => { c with weeks := updateFirst (weekPred st.sel.week) (fun v => { v with days := sortBy dayLe (v.days ++ [⟨x, lbl, []⟩]) }) c.weeks }) p.blocks).find? (blockPred st.sel.blockId)).isSome = true
    rw [find?_updateFirst_same (blockPred st.sel.blockId)
      (fun c => { c with weeks := updateFirst (weekPred st.sel.week) (fun v => { v with days := sortBy dayLe (v.days ++ [⟨x, lbl, []⟩]) }) c.weeks }) p.blocks
      (fun c => rfl),
      show List.find? (blockPred st.sel.blockId) p.blocks = some b from hb]
    rfl
  have hweeksne : ({ b with weeks := updateFirst (weekPred st.sel.week) (fun c => { c with days := sortBy dayLe (c.days ++ [⟨x, lbl, []⟩]) }) b.weeks } : Block).weeks.isEmpty = false := by
    show (updateFirst (weekPred st.sel.week) (fun c => { c with days := sortBy dayLe (c.days ++ [⟨x, lbl, []⟩]) }) b.weeks).isEmpty = false
    rw [updateFirst_isEmpty]
    exact isEmpty_false_of_find?_some _ _ w hw
  have hwsome : (getWeek { b with weeks := updateFirst (weekPred st.sel.week) (fun c => { c with days := sortBy dayLe (c.days ++ [⟨x, lbl, []⟩]) }) b.weeks } st.sel.week).isSome = true := by
    show ((updateFirst (weekPred st.sel.week) (fun c => { c with days := sortBy dayLe (c.days ++ [⟨x, lbl, []⟩]) }) b.weeks).find? (weekPred st.sel.week)).isSome = true
    rw [find?_updateFirst_same (weekPred st.sel.week)
      (fun c => { c with days := sortBy dayLe (c.days ++ [⟨x, lbl, []⟩]) }) b.weeks
      (fun c => rfl),
      show List.find? (weekPred st.sel.week) b.weeks = some w from hw]
    rfl
  have h1 : fixPeriodLevel (updateWeekIn st.doc (jvOfStrOpt st.sel.periodId) st.sel.blockId st.sel.week
      (fun v => { v with days := sortBy dayLe (v.days ++ [⟨x, lbl, []⟩]) }))
      { st.sel with day := JV.num x, exerciseId := none } =
      (updateWeekIn st.doc (jvOfStrOpt st.sel.periodId) st.sel.blockId st.sel.week
        (fun v => { v with days := sortBy dayLe (v.days ++ [⟨x, lbl, []⟩]) }),
       { st.sel with day := JV.num x, exerciseId := none }) := by
    refine fixPeriodLevel_of_resolved _ _ htp ?_
    rw [hdocP]
    rfl
  have h2 : fixBlockLevel (updateWeekIn st.doc (jvOfStrOpt st.sel.periodId) st.sel.blockId st.sel.week
      (fun v => { v with days := sortBy dayLe (v.days ++ [⟨x, lbl, []⟩]) }))
      { st.sel with day := JV.num x, exerciseId := none } =
      (updateWeekIn st.doc (jvOfStrOpt st.sel.periodId) st.sel.blockId st.sel.week
        (fun v => { v with days := sortBy dayLe (v.days ++ [⟨x, lbl, []⟩]) }),
       { st.sel with day := JV.num x, exerciseId := none }) := by
    exact fixBlockLevel_of_resolved _ _ _ hdocP hblocksne htb hbsome
  have h3 : fixWeekLevel (updateWeekIn st.doc (jvOfStrOpt st.sel.periodId) st.sel.blockId st.sel.week
      (fun v => { v with days := sortBy dayLe (v.days ++ [⟨x, lbl, []⟩]) }))
      { st.sel with day := JV.num x, exerciseId := none } =
      (updateWeekIn st.doc (jvOfStrOpt st.sel.periodId) st.sel.blockId st.sel.week
        (fun v => { v with days := sortBy dayLe (v.days ++ [⟨x, lbl, []⟩]) }),
       { st.sel with day := JV.num x, exerciseId := none }) := by
    exact fixWeekLevel_of_resolved _ _ _ hdocB hweeksne htw hwsome
  have h4 : fixDayLevel (updateWeekIn st.doc (jvOfStrOpt st.sel.periodId) st.sel.blockId st.sel.week
      (fun v => { v with days := sortBy dayLe (v.days ++ [⟨x, lbl, []⟩]) }))
      { st.sel with day := JV.num x, exerciseId := none } =
      (updateWeekIn st.doc (jvOfStrOpt st.sel.periodId) st.sel.blockId st.sel.week
        (fun v => { v with days := sortBy dayLe (v.days ++ [⟨x, lbl, []⟩]) }),
       { st.sel with day := JV.num x, exerciseId := none }) := by
    refine fixDayLevel_of_resolved _ _ { w with days := sortBy dayLe (w.days ++ [⟨x, lbl, []⟩]) }
      hdocW (sortBy_isEmpty_append _ _ _)
      (decide_eq_true (zero_lt_one.trans_le hge).ne') ?_
    show ((sortBy dayLe (w.days ++ [⟨x, lbl, []⟩])).find? (dayPred (JV.num x))).isSome = true
    rw [List.find?_isSome]
    refine ⟨⟨x, lbl, []⟩, (sortBy_perm _ _).mem_iff.mpr (by simp), ?_⟩
    unfold dayPred jsToNumber
    exact beq_self_eq_true _
  unfold ensureSelected
  rw [dayIdsAt_fixExerciseLevel, h1]
  rw [show fixBlockLevel (updateWeekIn st.doc (jvOfStrOpt st.sel.periodId) st.sel.blockId st.sel.week
        (fun v => { v with days := sortBy dayLe (v.days ++ [⟨x, lbl, []⟩]) }),
      { st.sel with day := JV.num x, exerciseId := none }).1
      (updateWeekIn st.doc (jvOfStrOpt st.sel.periodId) st.sel.blockId st.sel.week
        (fun v => { v with days := sortBy dayLe (v.days ++ [⟨x, lbl, []⟩]) }),
      { st.sel with day := JV.num x, exerciseId := none }).2 =
      (updateWeekIn st.doc (jvOfStrOpt st.sel.periodId) st.sel.blockId st.sel.week
        (fun v => { v with days := sortBy dayLe (v.days ++ [⟨x, lbl, []⟩]) }),
       { st.sel with day := JV.num x, exerciseId := none }) from h2]
  rw [show fixWeekLevel (updateWeekIn st.doc (jvOfStrOpt st.sel.periodId) st.sel.blockId st.sel.week
        (fun v => { v with days := sortBy dayLe (v.days ++ [⟨x, lbl, []⟩]) }),
      { st.sel with day := JV.num x, exerciseId := none }).1
      (updateWeekIn st.doc (jvOfStrOpt st.sel.periodId) st.sel.blockId st.sel.week
        (fun v => { v with days := sortBy dayLe (v.days ++ [⟨x, lbl, []⟩]) }),
      { st.sel with day := JV.num x, exerciseId := none }).2 =
      (updateWeekIn st.doc (jvOfStrOpt st.sel.periodId) st.sel.blockId st.sel.week
        (fun v => { v with days := sortBy dayLe (v.days ++ [⟨x, lbl, []⟩]) }),
       { st.sel with day := JV.num x, exerciseId := none }) from h3]
  rw [show fixDayLevel (updateWeekIn st.doc (jvOfStrOpt st.sel.periodId) st.sel.blockId st.sel.week
        (fun v => { v with days := sortBy dayLe (v.days ++ [⟨x, lbl, []⟩]) }),
      { st.sel with day := JV.num x, exerciseId := none }).1
      (updateWeekIn st.doc (jvOfStrOpt st.sel.periodId) st.sel.blockId st.sel.week
        (fun v => { v with days := sortBy dayLe (v.days ++ [⟨x, lbl, []⟩]) }),
      { st.sel with day := JV.num x, exerciseId := none }).2 =
      (updateWeekIn st.doc (jvOfStrOpt st.sel.periodId) st.sel.blockId st.sel.week
        (fun v => { v with days := sortBy dayLe (v.days ++ [⟨x, lbl, []⟩]) }),
       { st.sel with day := JV.num x, exerciseId := none }) from h4]
  show dayIdsAt (updateWeekIn st.doc (jvOfStrOpt st.sel.periodId) st.sel.blockId st.sel.week
      (fun v => { v with days := sortBy dayLe (v.days ++ [⟨x, lbl, []⟩]) }))
      (jvOfStrOpt st.sel.periodId) st.sel.blockId st.sel.week =
    some ((sortBy dayLe (w.days ++ [⟨x, lbl, []⟩])).map Day.day)
  unfold dayIdsAt
  rw [hdocW]
  rfl

theorem addExercise_emptyName (st : St) (s u : String) (p : Period) (b : Block) (w : Week)
    (hp : getPeriod st.doc (jvOfStrOpt st.sel.periodId) = some p)
    (hb : getBlock p st.sel.blockId = some b)
    (hw : getWeek b st.sel.week = some w)
    (h : (jsTrim s).isEmpty = true) : addExercise st s u = some st := by
  unfold addExercise
  rw [hp]
  simp [hb, hw, h]

theorem addExercise_dup (st : St) (s u : String) (p : Period) (b : Block) (w : Week) (d : Day)
    (hp : getPeriod st.doc (jvOfStrOpt st.sel.periodId) = some p)
    (hb : getBlock p st.sel.blockId = some b)
    (hw : getWeek b st.sel.week = some w)
    (hd : getDay w st.sel.day = some d)
    (h1 : (jsTrim s).isEmpty = false)
    (hdup : d.exercises.any (fun e => e.id == slugify (jsTrim s)) = true) :
    addExercise st s u = some st := by
  unfold addExercise
  rw [hp]
  simp [hb, hw, hd, h1, hdup]

theorem addExercise_success (st : St) (s u : String) (p : Period) (b : Block) (w : Week)
    (d : Day) (nm eid wrk : String)
    (hp : getPeriod st.doc (jvOfStrOpt st.sel.periodId) = some p)
    (hb : getBlock p st.sel.blockId = some b)
    (hw : getWeek b st.sel.week = some w)
    (hd : getDay w st.sel.day = some d)
    (hnm : jsTrim s = nm) (h1 : nm.isEmpty = false)
    (hid : slugify nm = eid) (hwrk : jsTrim u = wrk)
    (htp : jsTruthy (jvOfStrOpt st.sel.periodId) = true)
    (htb : jsTruthy st.sel.blockId = true)
    (htw : jsTruthy st.sel.week = true)
    (htd : jsTruthy st.sel.day = true)
    (hdup : d.exercises.any (fun e => e.id == eid) = false) :
    ∃ st', addExercise st s u = some st' ∧ st'.edits = st.edits ∧
      getDayAt st'.doc (jvOfStrOpt st.sel.periodId) st.sel.blockId st.sel.week st.sel.day =
        some { d with exercises := sortBy exerciseLe (d.exercises ++ [⟨eid, nm, some wrk, some [], some "", some "", none⟩]) } := by
  have hstep : addExercise st s u = some
      ⟨(ensureSelected (updateDayIn st.doc (jvOfStrOpt st.sel.periodId) st.sel.blockId st.sel.week st.sel.day
          (fun e => { e with exercises := sortBy exerciseLe (e.exercises ++ [⟨eid, nm, some wrk, some [], some "", some "", none⟩]) }))
        { st.sel with exerciseId := some eid }).1,
       (ensureSelected (updateDayIn st.doc (jvOfStrOpt st.sel.periodId) st.sel.blockId st.sel.week st.sel.day
          (fun e => { e with exercises := sortBy exerciseLe (e.exercises ++ [⟨eid, nm, some wrk, some [], some "", some "", none⟩]) }))
        { st.sel with exerciseId := some eid }).2,
       st.edits⟩ := by
    unfold addExercise
    rw [hp]
    simp [hb, hw, hd, hnm, h1, hid, hwrk, hdup]
  refine ⟨_, hstep, rfl, ?_⟩
  have hbAt : getBlockAt st.doc (jvOfStrOpt st.sel.periodId) st.sel.blockId = some b := by
    unfold getBlockAt
    rw [hp]
    exact hb
  have hwAt : getWeekAt st.doc (jvOfStrOpt st.sel.periodId) st.sel.blockId st.sel.week = some w := by
    unfold getWeekAt
    rw [hbAt]
    exact hw
  have hdAt : getDayAt st.doc (jvOfStrOpt st.sel.periodId) st.sel.blockId st.sel.week st.sel.day = some d := by
    unfold getDayAt
    rw [hwAt]
    exact hd
  have hdocD : getDayAt (updateDayIn st.doc (jvOfStrOpt st.sel.periodId) st.sel.blockId st.sel.week st.sel.day
      (fun e => { e with exercises := sortBy exerciseLe (e.exercises ++ [⟨eid, nm, some wrk, some [], some "", some "", none⟩]) }))
      (jvOfStrOpt st.sel.periodId) st.sel.blockId st.sel.week st.sel.day =
      some { d with exercises := sortBy exerciseLe (d.exercises ++ [⟨eid, nm, some wrk, some [], some "", some "", none⟩]) } := by
    rw [getDayAt_updateDayIn st.doc (jvOfStrOpt st.sel.periodId) st.sel.blockId st.sel.week st.sel.day
      (fun e => { e with exercises := sortBy exerciseLe (e.exercises ++ [⟨eid, nm, some wrk, some [], some "", some "", none⟩]) }) (fun e => rfl), hdAt]
    rfl
  have hdocW : getWeekAt (updateDayIn st.doc (jvOfStrOpt st.sel.periodId) st.sel.blockId st.sel.week st.sel.day
      (fun e => { e with exercises := sortBy exerciseLe (e.exercises ++ [⟨eid, nm, some wrk, some [], some "", some "", none⟩]) }))
      (jvOfStrOpt st.sel.periodId) st.sel.blockId st.sel.week =
      some { w with days := updateFirst (dayPred st.sel.day) (fun e => { e with exercises := sortBy exerciseLe (e.exercises ++ [⟨eid, nm, some wrk, some [], some "", some "", none⟩]) }) w.days } := by
    rw [show getWeekAt (updateDayIn st.doc (jvOfStrOpt st.sel.periodId) st.sel.blockId st.sel.week st.sel.day
        (fun e => { e with exercises := sortBy exerciseLe (e.exercises ++ [⟨eid, nm, some wrk, some [], some "", some "", none⟩]) }))
        (jvOfStrOpt st.sel.periodId) st.sel.blockId st.sel.week =
      (getWeekAt st.doc (jvOfStrOpt st.sel.periodId) st.sel.blockId st.sel.week).map
        (fun v => { v with days := updateFirst (dayPred st.sel.day) (fun e => { e with exercises := sortBy exerciseLe (e.exercises ++ [⟨eid, nm, some wrk, some [], some "", some "", none⟩]) }) v.days }) from
      getWeekAt_updateWeekIn st.doc (jvOfStrOpt st.sel.periodId) st.sel.blockId st.sel.week
        (fun v => { v with days := updateFirst (dayPred st.sel.day) (fun e => { e with exercises := sortBy exerciseLe (e.exercises ++ [⟨eid, nm, some wrk, some [], some "", some "", none⟩]) }) v.days })
        (fun v => rfl), hwAt]
    rfl
  have hdocB : getBlockAt (updateDayIn st.doc (jvOfStrOpt st.sel.periodId) st.sel.blockId st.sel.week st.sel.day
      (fun e => { e with exercises := sortBy exerciseLe (e.exercises ++ [⟨eid, nm, some wrk, some [], some "", some "", none⟩]) }))
      (jvOfStrOpt st.sel.periodId) st.sel.blockId =
      some { b with weeks := updateFirst (weekPred st.sel.week) (fun v => { v with days := updateFirst (dayPred st.sel.day) (fun e => { e with exercises := sortBy exerciseLe (e.exercises ++ [⟨eid, nm, some wrk, some [], some "", some "", none⟩]) }) v.days }) b.weeks } := by
    rw [show getBlockAt (updateDayIn st.doc (jvOfStrOpt st.sel.periodId) st.sel.blockId st.sel.week st.sel.day
        (fun e => { e with exercises := sortBy exerciseLe (e.exercises ++ [⟨eid, nm, some wrk, some [], some "", some "", none⟩]) }))
        (jvOfStrOpt st.sel.periodId) st.sel.blockId =
      (getBlockAt st.doc (jvOfStrOpt st.sel.periodId) st.sel.blockId).map
        (fun c => { c with weeks := updateFirst (weekPred st.sel.week) (fun v => { v with days := updateFirst (dayPred st.sel.day) (fun e => { e with exercises := sortBy exerciseLe (e.exercises ++ [⟨eid, nm, some wrk, some [], some "", some "", none⟩]) }) v.days }) c.weeks }) from
      getBlockAt_updateBlockIn st.doc (jvOfStrOpt st.sel.periodId) st.sel.blockId
        (fun c => { c with weeks := updateFirst (weekPred st.sel.week) (fun v => { v with days := updateFirst (dayPred st.sel.day) (fun e => { e with exercises := sortBy exerciseLe (e.exercises ++ [⟨eid, nm, some wrk, some [], some "", some "", none⟩]) }) v.days }) c.weeks })
        (fun c => rfl), hbAt]
    rfl
  have hdocP : getPeriod (updateDayIn st.doc (jvOfStrOpt st.sel.periodId) st.sel.blockId st.sel.week st.sel.day
      (fun e => { e with exercises := sortBy exerciseLe (e.exercises ++ [⟨eid, nm, some wrk, some [], some "", some "", none⟩]) }))
      (jvOfStrOpt st.sel.periodId) =
      some { p with blocks := updateFirst (blockPred st.sel.blockId) (fun c => { c with weeks := updateFirst (weekPred st.sel.week) (fun v => { v with days := updateFirst (dayPred st.sel.day) (fun e => { e with exercises := sortBy exerciseLe (e.exercises ++ [⟨eid, nm, some wrk, some [], some "", some "", none⟩]) }) v.days }) c.weeks }) p.blocks } := by
    rw [show getPeriod (updateDayIn st.doc (jvOfStrOpt st.sel.periodId) st.sel.blockId st.sel.week st.sel.day
        (fun e => { e with exercises := sortBy exerciseLe (e.exercises ++ [⟨eid, nm, some wrk, some [], some "", some "", none⟩]) }))
        (jvOfStrOpt st.sel.periodId) =
      (getPeriod st.doc (jvOfStrOpt st.sel.periodId)).map
        (fun q => { q with blocks := updateFirst (blockPred st.sel.blockId) (fun c => { c with weeks := updateFirst (weekPred st.sel.week) (fun v => { v with days := updateFirst (dayPred st.sel.day) (fun e => { e with exercises := sortBy exerciseLe (e.exercises ++ [⟨eid, nm, some wrk, some [], some "", some "", none⟩]) }) v.days }) c.weeks }) q.blocks }) from
      getPeriod_updatePeriodIn st.doc (jvOfStrOpt st.sel.periodId)
        (fun q => { q with blocks := updateFirst (blockPred st.sel.blockId) (fun c => { c with weeks := updateFirst (weekPred st.sel.week) (fun v => { v with days := updateFirst (dayPred st.sel.day) (fun e => { e with exercises := sortBy exerciseLe (e.exercises ++ [⟨eid, nm, some wrk, some [], some "", some "", none⟩]) }) v.days }) c.weeks }) q.blocks })
        (fun q => rfl), hp]
    rfl
  have hblocksne : (updateFirst (blockPred st.sel.blockId) (fun c => { c with weeks := updateFirst (weekPred st.sel.week) (fun v => { v with days := updateFirst (dayPred st.sel.day) (fun e => { e with exercises := sortBy exerciseLe (e.exercises ++ [⟨eid, nm, some wrk, some [], some "", some "", none⟩]) }) v.days }) c.weeks }) p.blocks).isEmpty = false := by
    rw [updateFirst_isEmpty]
    exact isEmpty_false_of_find?_some _ _ b hb
  have hbsome : (getBlock { p with blocks := updateFirst (blockPred st.sel.blockId) (fun c => { c with weeks := updateFirst (weekPred st.sel.week) (fun v => { v with days := updateFirst (dayPred st.sel.day) (fun e => { e with exercises := sortBy exerciseLe (e.exercises ++ [⟨eid, nm, some wrk, some [], some "", some "", none⟩]) }) v.days }) c.weeks }) p.blocks } st.sel.blockId).isSome = true := by
    show ((updateFirst (blockPred st.sel.blockId) (fun c => { c with weeks := updateFirst (weekPred st.sel.week) (fun v => { v with days := updateFirst (dayPred st.sel.day) (fun e => { e with exercises := sortBy exerciseLe (e.exercises ++ [⟨eid, nm, some wrk, some [], some "", some "", none⟩]) }) v.days }) c.weeks }) p.blocks).find? (blockPred st.sel.blockId)).isSome = true
    rw [find?_updateFirst_same (blockPred st.sel.blockId)
      (fun c => { c with weeks := updateFirst (weekPred st.sel.week) (fun v => { v with days := updateFirst (dayPred st.sel.day) (fun e => { e with exercises := sortBy exerciseLe (e.exercises ++ [⟨eid, nm, some wrk, some [], some "", some "", none⟩]) }) v.days }) c.weeks }) p.blocks
      (fun c => rfl),
      show List.find? (blockPred st.sel.blockId) p.blocks = some b from hb]
    rfl
  have hweeksne : ({ b with weeks := updateFirst (weekPred st.sel.week) (fun v => { v with days := updateFirst (dayPred st.sel.day) (fun e => { e with exercises := sortBy exerciseLe (e.exercises ++ [⟨eid, nm, some wrk, some [], some "", some "", none⟩]) }) v.days }) b.weeks } : Block).weeks.isEmpty = false := by
    show (updateFirst (weekPred st.sel.week) (fun v => { v with days := updateFirst (dayPred st.sel.day) (fun e => { e with exercises := sortBy exerciseLe (e.exercises ++ [⟨eid, nm, some wrk, some [], some "", some "", none⟩]) }) v.days }) b.weeks).isEmpty = false
    rw [updateFirst_isEmpty]
    exact isEmpty_false_of_find?_some _ _ w hw
  have hwsome : (getWeek { b with weeks := updateFirst (weekPred st.sel.week) (fun v => { v with days := updateFirst (dayPred st.sel.day) (fun e => { e with exercises := sortBy exerciseLe (e.exercises ++ [⟨eid, nm, some wrk, some [], some "", some "", none⟩]) }) v.days }) b.weeks } st.sel.week).isSome = true := by
    show ((updateFirst (weekPred st.sel.week) (fun v => { v with days := updateFirst (dayPred st.sel.day) (fun e => { e with exercises := sortBy exerciseLe (e.exercises ++ [⟨eid, nm, some wrk, some [], some "", some "", none⟩]) }) v.days }) b.weeks).find? (weekPred st.sel.week)).isSome = true
    rw [find?_updateFirst_same (weekPred st.sel.week)
      (fun v => { v with days := updateFirst (dayPred st.sel.day) (fun e => { e with exercises := sortBy exerciseLe (e.exercises ++ [⟨eid, nm, some wrk, some [], some "", some "", none⟩]) }) v.days }) b.weeks
      (fun v => rfl),
      show List.find? (weekPred st.sel.week) b.weeks = some w from hw]
    rfl
  have hdaysne : ({ w with days := updateFirst (dayPred st.sel.day) (fun e => { e with exercises := sortBy exerciseLe (e.exercises ++ [⟨eid, nm, some wrk, some [], some "", some "", none⟩]) }) w.days } : Week).days.isEmpty = false := by
    show (updateFirst (dayPred st.sel.day) (fun e => { e with exercises := sortBy exerciseLe (e.exercises ++ [⟨eid, nm, some wrk, some [], some "", some "", none⟩]) }) w.days).isEmpty = false
    rw [updateFirst_isEmpty]
    exact isEmpty_false_of_find?_some _ _ d hd
  have hdsome : (getDay { w with days := updateFirst (dayPred st.sel.day) (fun e => { e with exercises := sortBy exerciseLe (e.exercises ++ [⟨eid, nm, some wrk, some [], some "", some "", none⟩]) }) w.days } st.sel.day).isSome = true := by
    show ((updateFirst (dayPred st.sel.day) (fun e => { e with exercises := sortBy exerciseLe (e.exercises ++ [⟨eid, nm, some wrk, some [], some "", some "", none⟩]) }) w.days).find? (dayPred st.sel.day)).isSome = true
    rw [find?_updateFirst_same (dayPred st.sel.day)
      (fun e => { e with exercises := sortBy exerciseLe (e.exercises ++ [⟨eid, nm, some wrk, some [], some "", some "", none⟩]) }) w.days
      (fun e => rfl),
      show List.find? (dayPred st.sel.day) w.days = some d from hd]
    rfl
  have h1 : fixPeriodLevel (updateDayIn st.doc (jvOfStrOpt st.sel.periodId) st.sel.blockId st.sel.week st.sel.day
      (fun e => { e with exercises := sortBy exerciseLe (e.exercises ++ [⟨eid, nm, some wrk, some [], some "", some "", none⟩]) }))
      { st.sel with exerciseId := some eid } =
      (updateDayIn st.doc (jvOfStrOpt st.sel.periodId) st.sel.blockId st.sel.week st.sel.day
        (fun e => { e with exercises := sortBy exerciseLe (e.exercises ++ [⟨eid, nm, some wrk, some [], some "", some "", none⟩]) }),
       { st.sel with exerciseId := some eid }) := by
    refine fixPeriodLevel_of_resolved _ _ htp ?_
    rw [hdocP]
    rfl
  have h2 : fixBlockLevel (updateDayIn st.doc (jvOfStrOpt st.sel.periodId) st.sel.blockId st.sel.week st.sel.day
      (fun e => { e with exercises := sortBy exerciseLe (e.exercises ++ [⟨eid, nm, some wrk, some [], some "", some "", none⟩]) }))
      { st.sel with exerciseId := some eid } =
      (updateDayIn st.doc (jvOfStrOpt st.sel.periodId) st.sel.blockId st.sel.week st.sel.day
        (fun e => { e with exercises := sortBy exerciseLe (e.exercises ++ [⟨eid, nm, some wrk, some [], some "", some "", none⟩]) }),
       { st.sel with exerciseId := some eid }) := by
    exact fixBlockLevel_of_resolved _ _ _ hdocP hblocksne htb hbsome
  have h3 : fixWeekLevel (updateDayIn st.doc (jvOfStrOpt st.sel.periodId) st.sel.blockId st.sel.week st.sel.day
      (fun e => { e with exercises := sortBy exerciseLe (e.exercises ++ [⟨eid, nm, some wrk, some [], some "", some "", none⟩]) }))
      { st.sel with exerciseId := some eid } =
      (updateDayIn st.doc (jvOfStrOpt st.sel.periodId) st.sel.blockId st.sel.week st.sel.day
        (fun e => { e with exercises := sortBy exerciseLe (e.exercises ++ [⟨eid, nm, some wrk, some [], some "", some "", none⟩]) }),
       { st.sel with exerciseId := some eid }) := by
    exact fixWeekLevel_of_resolved _ _ _ hdocB hweeksne htw hwsome
  have h4 : fixDayLevel (updateDayIn st.doc (jvOfStrOpt st.sel.periodId) st.sel.blockId st.sel.week st.sel.day
      (fun e => { e with exercises := sortBy exerciseLe (e.exercises ++ [⟨eid, nm, some wrk, some [], some "", some "", none⟩]) }))
      { st.sel with exerciseId := some eid } =
      (updateDayIn st.doc (jvOfStrOpt st.sel.periodId) st.sel.blockId st.sel.week st.sel.day
        (fun e => { e with exercises := sortBy exerciseLe (e.exercises ++ [⟨eid, nm, some wrk, some [], some "", some "", none⟩]) }),
       { st.sel with exerciseId := some eid }) := by
    exact fixDayLevel_of_resolved _ _ _ hdocW hdaysne htd hdsome
  have h5 : (fixExerciseLevel (updateDayIn st.doc (jvOfStrOpt st.sel.periodId) st.sel.blockId st.sel.week st.sel.day
      (fun e => { e with exercises := sortBy exerciseLe (e.exercises ++ [⟨eid, nm, some wrk, some [], some "", some "", none⟩]) }))
      { st.sel with exerciseId := some eid }).1 =
      updateDayIn st.doc (jvOfStrOpt st.sel.periodId) st.sel.blockId st.sel.week st.sel.day
        (fun e => { e with exercises := sortBy exerciseLe (e.exercises ++ [⟨eid, nm, some wrk, some [], some "", some "", none⟩]) }) := by
    exact fixExerciseLevel_doc_of_nonempty _ _
      { d with exercises := sortBy exerciseLe (d.exercises ++ [⟨eid, nm, some wrk, some [], some "", some "", none⟩]) }
      hdocD (sortBy_isEmpty_append _ _ _)
  unfold ensureSelected
  simp only [h1, h2, h3, h4, h5]
  exact hdocD

theorem sortBy_map_perm (f : α → β) (le : α → α → Bool) (l : List α) (x : α) :
    ((sortBy le (l ++ [x])).map f).Perm (l.map f ++ [f x]) := by
  have h := (sortBy_perm le (l ++ [x])).map f
  simpa using h

theorem sortBy_map_chain' (f : α → ℚ) (le : α → α → Bool)
    (hle : ∀ a b, le a b = decide (f a ≤ f b)) (l : List α) :
    List.Chain' (fun a b : ℚ => a ≤ b) ((sortBy le l).map f) := by
  have htot : ∀ a b, le a b = false → le b a = true := by
    intro a b hab
    rw [hle] at hab
    rw [hle]
    exact decide_eq_true (le_of_not_le (of_decide_eq_false hab))
  have h := sortBy_chain' le htot l
  rw [List.chain'_map]
  exact List.Chain'.imp (fun a b hab => by rw [hle] at hab; exact of_decide_eq_true hab) h

theorem sortBy_map_chain'_str (f : α → String) (le : α → α → Bool)
    (hle : ∀ a b, le a b = charListLe (f a).data (f b).data) (l : List α) :
    List.Chain' (fun a b : String => strLe a b = true) ((sortBy le l).map f) := by
  have htot : ∀ a b, le a b = false → le b a = true := by
    intro a b hab
    rw [hle] at hab
    rw [hle]
    exact charListLe_total _ _ hab
  have h := sortBy_chain' le htot l
  rw [List.chain'_map]
  exact List.Chain'.imp (fun a b hab => by rw [hle] at hab; exact hab) h

/-! ## Claim C7 -/

/-- C7 (corrected): characterisation of the five insert handlers.  A failed
validation (empty trimmed name for periods/exercises, `NaN`, zero or a
number below one for blocks/weeks/days) or a duplicate identifier leaves
the whole state — document, selection and overlay — unchanged.  A
successful insert leaves the overlay unchanged and re-sorts the parent's
child sequence: the period-id list gains the new slug at the end
(insertion order), while block/week/day number lists and the exercise
name list become the stable insertion sort of the old sequence plus the
new node — a permutation of old-plus-new, ascending (numerically, or by
code-point order for exercise names).  The correction: the numeric
validation `!n || n < 1` accepts every number `≥ 1`, not only positive
integers — see the counterexample with `"1.5"`. -/
theorem c7_insert_validation_amended (st : St) (sp sb sw sd sdl se sew : String) :
    ((jsTrim sp).isEmpty = true → addPeriod st sp = st) ∧
    ((jsTrim sp).isEmpty = false →
      st.doc.periods.any (fun p => p.id == slugify (jsTrim sp)) = true → addPeriod st sp = st) ∧
    ((jsTrim sp).isEmpty = false →
      st.doc.periods.any (fun p => p.id == slugify (jsTrim sp)) = false →
      (addPeriod st sp).edits = st.edits ∧
      (addPeriod st sp).doc.periods.map Period.id =
        st.doc.periods.map Period.id ++ [slugify (jsTrim sp)]) ∧
    (jsStringToNumber sb = none → addBlock st sb = some st) ∧
    (∀ x : ℚ, jsStringToNumber sb = some x → x < 1 → addBlock st sb = some st) ∧
    (∀ (x : ℚ) (p : Period), jsStringToNumber sb = some x → 1 ≤ x →
      getPeriod st.doc (jvOfStrOpt st.sel.periodId) = some p →
      p.blocks.any (fun b => b.id == x) = true → addBlock st sb = some st) ∧
    (∀ (x : ℚ) (p : Period), jsStringToNumber sb = some x → 1 ≤ x →
      jsTruthy (jvOfStrOpt st.sel.periodId) = true →
      getPeriod st.doc (jvOfStrOpt st.sel.periodId) = some p →
      p.blocks.any (fun b => b.id == x) = false →
      (∃ st', addBlock st sb = some st' ∧ st'.edits = st.edits ∧
        blockIdsAt st'.doc (jvOfStrOpt st.sel.periodId) =
          some ((sortBy blockLe (p.blocks ++ [⟨x, []⟩])).map Block.id)) ∧
      ((sortBy blockLe (p.blocks ++ [⟨x, []⟩])).map Block.id).Perm
        (p.blocks.map Block.id ++ [x]) ∧
      List.Chain' (fun a b : ℚ => a ≤ b) ((sortBy blockLe (p.blocks ++ [⟨x, []⟩])).map Block.id)) ∧
    (∀ p : Period, getPeriod st.doc (jvOfStrOpt st.sel.periodId) = some p →
      jsStringToNumber sw = none → addWeek st sw = some st) ∧
    (∀ (p : Period) (x : ℚ), getPeriod st.doc (jvOfStrOpt st.sel.periodId) = some p →
      jsStringToNumber sw = some x → x < 1 → addWeek st sw = some st) ∧
    (∀ (p : Period) (b : Block) (x : ℚ),
      getPeriod st.doc (jvOfStrOpt st.sel.periodId) = some p →
      getBlock p st.sel.blockId = some b →
      jsStringToNumber sw = some x → 1 ≤ x →
      b.weeks.any (fun w => w.week == x) = true → addWeek st sw = some st) ∧
    (∀ (p : Period) (b : Block) (x : ℚ),
      getPeriod st.doc (jvOfStrOpt st.sel.periodId) = some p →
      getBlock p st.sel.blockId = some b →
      jsStringToNumber sw = some x → 1 ≤ x →
      jsTruthy (jvOfStrOpt st.sel.periodId) = true →
      jsTruthy st.sel.blockId = true →
      b.weeks.any (fun w => w.week == x) = false →
      (∃ st', addWeek st sw = some st' ∧ st'.edits = st.edits ∧
        weekIdsAt st'.doc (jvOfStrOpt st.sel.periodId) st.sel.blockId =
          some ((sortBy weekLe (b.weeks ++ [⟨x, []⟩])).map Week.week)) ∧
      ((sortBy weekLe (b.weeks ++ [⟨x, []⟩])).map Week.week).Perm
        (b.weeks.map Week.week ++ [x]) ∧
      List.Chain' (fun a b : ℚ => a ≤ b) ((sortBy weekLe (b.weeks ++ [⟨x, []⟩])).map Week.week)) ∧
    (∀ (p : Period) (b : Block),
      getPeriod st.doc (jvOfStrOpt st.sel.periodId) = some p →
      getBlock p st.sel.blockId = some b →
      jsStringToNumber sd = none → addDay st sd sdl = some st) ∧
    (∀ (p : Period) (b : Block) (x : ℚ),
      getPeriod st.doc (jvOfStrOpt st.sel.periodId) = some p →
      getBlock p st.sel.blockId = some b →
      jsStringToNumber sd = some x → x < 1 → addDay st sd sdl = some st) ∧
    (∀ (p : Period) (b : Block) (w : Week) (x : ℚ),
      getPeriod st.doc (jvOfStrOpt st.sel.periodId) = some p →
      getBlock p st.sel.blockId = some b →
      getWeek b st.sel.week = some w →
      jsStringToNumber sd = some x → 1 ≤ x →
      w.days.any (fun d => d.day == x) = true → addDay st sd sdl = some st) ∧
    (∀ (p : Period) (b : Block) (w : Week) (x : ℚ),
      getPeriod st.doc (jvOfStrOpt st.sel.periodId) = some p →
      getBlock p st.sel.blockId = some b →
      getWeek b st.sel.week = some w →
      jsStringToNumber sd = some x → 1 ≤ x →
      jsTruthy (jvOfStrOpt st.sel.periodId) = true →
      jsTruthy st.sel.blockId = true →
      jsTruthy st.sel.week = true →
      w.days.any (fun d => d.day == x) = false →
      (∃ st', addDay st sd sdl = some st' ∧ st'.edits = st.edits ∧
        dayIdsAt st'.doc (jvOfStrOpt st.sel.periodId) st.sel.blockId st.sel.week =
          some ((sortBy dayLe (w.days ++ [⟨x, (if (jsTrim sdl).isEmpty then "Day " ++ jsNumToString x else jsTrim sdl), []⟩])).map Day.day)) ∧
      ((sortBy dayLe (w.days ++ [⟨x, (if (jsTrim sdl).isEmpty then "Day " ++ jsNumToString x else jsTrim sdl), []⟩])).map Day.day).Perm
        (w.days.map Day.day ++ [x]) ∧
      List.Chain' (fun a b : ℚ => a ≤ b)
        ((sortBy dayLe (w.days ++ [⟨x, (if (jsTrim sdl).isEmpty then "Day " ++ jsNumToString x else jsTrim sdl), []⟩])).map Day.day)) ∧
    (∀ (p : Period) (b : Block) (w : Week),
      getPeriod st.doc (jvOfStrOpt st.sel.periodId) = some p →
      getBlock p st.sel.blockId = some b →
      getWeek b st.sel.week = some w →
      (jsTrim se).isEmpty = true → addExercise st se sew = some st) ∧
    (∀ (p : Period) (b : Block) (w : Week) (d : Day),
      getPeriod st.doc (jvOfStrOpt st.sel.periodId) = some p →
      getBlock p st.sel.blockId = some b →
      getWeek b st.sel.week = some w →
      getDay w st.sel.day = some d →
      (jsTrim se).isEmpty = false →
      d.exercises.any (fun e => e.id == slugify (jsTrim se)) = true →
      addExercise st se sew = some st) ∧
    (∀ (p : Period) (b : Block) (w : Week) (d : Day),
      getPeriod st.doc (jvOfStrOpt st.sel.periodId) = some p →
      getBlock p st.sel.blockId = some b →
      getWeek b st.sel.week = some w →
      getDay w st.sel.day = some d →
      (jsTrim se).isEmpty = false →
      jsTruthy (jvOfStrOpt st.sel.periodId) = true →
      jsTruthy st.sel.blockId = true →
      jsTruthy st.sel.week = true →
      jsTruthy st.sel.day = true →
      d.exercises.any (fun e => e.id == slugify (jsTrim se)) = false →
      (∃ st', addExercise st se sew = some st' ∧ st'.edits = st.edits ∧
        getDayAt st'.doc (jvOfStrOpt st.sel.periodId) st.sel.blockId st.sel.week st.sel.day =
          some { d with exercises := sortBy exerciseLe (d.exercises ++ [⟨slugify (jsTrim se), jsTrim se, some (jsTrim sew), some [], some "", some "", none⟩]) }) ∧
      ((sortBy exerciseLe (d.exercises ++ [⟨slugify (jsTrim se), jsTrim se, some (jsTrim sew), some [], some "", some "", none⟩])).map Exercise.name).Perm
        (d.exercises.map Exercise.name ++ [jsTrim se]) ∧
      List.Chain' (fun a b : String => strLe a b = true)
        ((sortBy exerciseLe (d.exercises ++ [⟨slugify (jsTrim se), jsTrim se, some (jsTrim sew), some [], some "", some "", none⟩])).map Exercise.name)) := by
  refine ⟨fun h => addPeriod_emptyName st sp h,
    fun h1 h2 => addPeriod_dup st sp h1 h2,
    fun h1 h2 => addPeriod_success st sp h1 h2,
    fun h => addBlock_nan st sb h,
    fun x hx hlt => addBlock_lt1 st sb x hx hlt,
    fun x p hx hge hp hdup => addBlock_dup st sb x p hx hge hp hdup,
    fun x p hx hge htp hp hdup =>
      ⟨addBlock_success st sb x p hx hge htp hp hdup,
       sortBy_map_perm Block.id blockLe p.blocks ⟨x, []⟩,
       sortBy_map_chain' Block.id blockLe (fun a b => rfl) _⟩,
    fun p hp h => addWeek_nan st sw p hp h,
    fun p x hp hx hlt => addWeek_lt1 st sw p x hp hx hlt,
    fun p b x hp hb hx hge hdup => addWeek_dup st sw p b x hp hb hx hge hdup,
    fun p b x hp hb hx hge htp htb hdup =>
      ⟨addWeek_success st sw p b x hp hb hx hge htp htb hdup,
       sortBy_map_perm Week.week weekLe b.weeks ⟨x, []⟩,
       sortBy_map_chain' Week.week weekLe (fun a b => rfl) _⟩,
    fun p b hp hb h => addDay_nan st sd sdl p b hp hb h,
    fun p b x hp hb hx hlt => addDay_lt1 st sd sdl p b x hp hb hx hlt,
    fun p b w x hp hb hw hx hge hdup => addDay_dup st sd sdl p b w x hp hb hw hx hge hdup,
    fun p b w x hp hb hw hx hge htp htb htw hdup =>
      ⟨addDay_success st sd sdl p b w x _ hp hb hw hx hge htp htb htw rfl hdup,
       sortBy_map_perm Day.day dayLe w.days _,
       sortBy_map_chain' Day.day dayLe (fun a b => rfl) _⟩,
    fun p b w hp hb hw h => addExercise_emptyName st se sew p b w hp hb hw h,
    fun p b w d hp hb hw hd h1 hdup => addExercise_dup st se sew p b w d hp hb hw hd h1 hdup,
    fun p b w d hp hb hw hd h1 htp htb htw htd hdup =>
      ⟨addExercise_success st se sew p b w d (jsTrim se) (slugify (jsTrim se)) (jsTrim sew)
        hp hb hw hd rfl h1 rfl rfl htp htb htw htd hdup,
       sortBy_map_perm Exercise.name exerciseLe d.exercises _,
       sortBy_map_chain'_str Exercise.name exerciseLe (fun a b => rfl) _⟩⟩

theorem c7_insert_validation_amended_witness :
    addPeriod cSt "" = cSt ∧
    (addPeriod cSt "Serie 2 2026").doc.periods.map Period.id = ["serie-1-2026", "serie-2-2026"] ∧
    addBlock cSt "abc" = some cSt ∧
    addBlock cSt "0.5" = some cSt ∧
    addBlock cSt "1" = some cSt ∧
    (∃ st', addBlock cSt "2" = some st' ∧ st'.edits = cSt.edits ∧
      blockIdsAt st'.doc (jvOfStrOpt cSt.sel.periodId) = some [1, 2]) ∧
    addWeek cSt "1" = some cSt ∧
    (∃ st', addWeek cSt "2" = some st' ∧ st'.edits = cSt.edits ∧
      weekIdsAt st'.doc (jvOfStrOpt cSt.sel.periodId) cSt.sel.blockId = some [1, 2]) ∧
    addDay cSt "1" "" = some cSt ∧
    (∃ st', addDay cSt "2" "" = some st' ∧ st'.edits = cSt.edits ∧
      dayIdsAt st'.doc (jvOfStrOpt cSt.sel.periodId) cSt.sel.blockId cSt.sel.week = some [1, 2]) ∧
    addExercise cSt "Squat" "" = some cSt ∧
    (∃ st', addExercise cSt "Bench Press" "5x5" = some st' ∧ st'.edits = cSt.edits ∧
      (getDayAt st'.doc (jvOfStrOpt cSt.sel.periodId) cSt.sel.blockId cSt.sel.week cSt.sel.day).map
        (fun d => d.exercises.map Exercise.name) = some ["Bench Press", "Squat"]) := by
  obtain ⟨p1, _, _, b1, _, _, _, _, _, _, _, _, _, _, _, _, _, _⟩ :=
    c7_insert_validation_amended cSt "" "abc" "q" "q" "" "x" ""
  obtain ⟨_, _, p3, _, b2, _, _, _, _, w3, _, _, _, d3, _, _, e2, _⟩ :=
    c7_insert_validation_amended cSt "Serie 2 2026" "0.5" "1" "1" "" "Squat" ""
  obtain ⟨_, _, _, _, _, b3, _, _, _, _, w4, _, _, _, d4, _, _, e3⟩ :=
    c7_insert_validation_amended cSt "x" "1" "2" "2" "" "Bench Press" "5x5"
  obtain ⟨_, _, _, _, _, _, b4, _, _, _, _, _, _, _, _, _, _, _⟩ :=
    c7_insert_validation_amended cSt "x" "2" "q" "q" "" "x" ""
  refine ⟨p1 (by decide), ?_, b1 (by decide),
    b2 (mkRat 1 2) (by decide) (by decide),
    b3 1 cPeriod (by decide) (by decide) (by decide) (by decide), ?_,
    w3 cPeriod cBlock 1 (by decide) (by decide) (by decide) (by decide) (by decide), ?_,
    d3 cPeriod cBlock cWeek 1 (by decide) (by decide) (by decide) (by decide) (by decide)
      (by decide), ?_,
    e2 cPeriod cBlock cWeek cDay (by decide) (by decide) (by decide) (by decide) (by decide)
      (by decide), ?_⟩
  · have hps := p3 (by decide) (by decide)
    rw [hps.2]
    decide
  · obtain ⟨st', hs, he, hids⟩ :=
      (b4 2 cPeriod (by decide) (by decide) (by decide) (by decide) (by decide)).1
    exact ⟨st', hs, he, by rw [hids]; decide⟩
  · obtain ⟨st', hs, he, hids⟩ :=
      (w4 cPeriod cBlock 2 (by decide) (by decide) (by decide) (by decide) (by decide) (by decide)
        (by decide)).1
    exact ⟨st', hs, he, by rw [hids]; decide⟩
  · obtain ⟨st', hs, he, hids⟩ :=
      (d4 cPeriod cBlock cWeek 2 (by decide) (by decide) (by decide) (by decide) (by decide)
        (by decide) (by decide) (by decide) (by decide)).1
    exact ⟨st', hs, he, by rw [hids]; decide⟩
  · obtain ⟨st', hs, he, hday⟩ :=
      (e3 cPeriod cBlock cWeek cDay (by decide) (by decide) (by decide) (by decide) (by decide)
        (by decide) (by decide) (by decide) (by decide) (by decide)).1
    exact ⟨st', hs, he, by rw [hday]; decide⟩

/-- C7 counterexample to the specified validation: `Number("1.5")` is the
rational `3/2`, which is not a positive integer (its reduced denominator
is `2`), yet `btnAddBlock`'s guard `!blockId || blockId < 1` accepts it:
the period's block-number list becomes `[1, 3/2]` instead of the document
being left unchanged. -/
theorem c7_counterexample :
    jsStringToNumber "1.5" = some (mkRat 3 2) ∧ (mkRat 3 2).den ≠ 1 ∧
    (addBlock cSt "1.5").map (fun s => blockIdsAt s.doc (jvOfStrOpt cSt.sel.periodId)) =
      some (some [1, mkRat 3 2]) := by
  refine ⟨by decide, by decide, by decide⟩

/-! ## Claim C3 kit: the merge refinement -/

/-- Joining a split recovers the original character list. -/
theorem joinChar_splitChar (sep : Char) (cs : List Char) :
    joinChar sep (splitChar sep cs) = cs := by
  induction cs with
  | nil => rfl
  | cons c cs ih =>
    by_cases hc : c = sep
    · subst hc
      rw [splitChar_cons_sep]
      rcases hs : splitChar c cs with _ | ⟨h, t⟩
      · exact absurd hs (splitChar_ne_nil c cs)
      · rw [hs] at ih
        show [] ++ c :: joinChar c (h :: t) = c :: cs
        rw [ih]
        rfl
    · rw [splitChar_cons_ne sep c cs hc]
      rcases hs : splitChar sep cs with _ | ⟨h, t⟩
      · exact absurd hs (splitChar_ne_nil sep cs)
      · rw [hs] at ih
        cases t with
        | nil =>
          show c :: h = c :: cs
          rw [show h = cs from ih]
        | cons t1 ts =>
          show (c :: h) ++ sep :: joinChar sep (t1 :: ts) = c :: cs
          rw [← ih]
          rfl

theorem lookupEdits_eq_none_of_not_mem (m : Edits) (k : String)
    (h : k ∉ m.map Prod.fst) : lookupEdits m k = none := by
  unfold lookupEdits
  rw [List.find?_eq_none.mpr]
  · rfl
  · intro kv hkv hbeq
    exact h (List.mem_map.mpr ⟨kv, hkv, beq_iff_eq.mp hbeq⟩)

/-- In a list whose projections are all distinct, the first-match lookup
of a member's projection finds exactly that member. -/
theorem find?_eq_some_of_mem_nodup (pred : α → Bool) (g : α → β) (l : List α) (x : α)
    (hx : x ∈ l) (hpred : ∀ y ∈ l, (pred y = true ↔ g y = g x))
    (hnd : (l.map g).Nodup) : l.find? pred = some x := by
  induction l with
  | nil => exact absurd hx (List.not_mem_nil x)
  | cons y ys ih =>
    rw [List.map_cons, List.nodup_cons] at hnd
    by_cases hy : pred y = true
    · have hgy : g y = g x := (hpred y (List.mem_cons_self y ys)).mp hy
      have hxy : x = y := by
        rcases List.mem_cons.mp hx with h | h
        · exact h
        · exact absurd (hgy ▸ List.mem_map.mpr ⟨x, h, rfl⟩) hnd.1
      rw [List.find?_cons_of_pos _ hy, hxy]
    · have hxys : x ∈ ys := by
        rcases List.mem_cons.mp hx with h | h
        · exact absurd ((hpred y (List.mem_cons_self y ys)).mpr (by rw [h])) hy
        · exact h
      rw [List.find?_cons_of_neg _ hy]
      exact ih hxys (fun z hz => hpred z (List.mem_cons_of_mem y hz)) hnd.2

/-- With pairwise-distinct projections, a predicate whose matches all
share a projection matches at most one element. -/
theorem pairwise_one_match (pred : α → Bool) (g : α → β) (l : List α)
    (hg : ∀ y ∈ l, ∀ z ∈ l, pred y = true → pred z = true → g y = g z)
    (hnd : (l.map g).Nodup) :
    List.Pairwise (fun a b => pred a = false ∨ pred b = false) l := by
  induction l with
  | nil => exact List.Pairwise.nil
  | cons y ys ih =>
    rw [List.map_cons, List.nodup_cons] at hnd
    refine List.pairwise_cons.mpr ⟨?_, ih (fun a ha b hb => hg a (List.mem_cons_of_mem y ha)
      b (List.mem_cons_of_mem y hb)) hnd.2⟩
    intro z hz
    by_cases hy : pred y = true
    · by_cases hzp : pred z = true
      · have := hg y (List.mem_cons_self y ys) z (List.mem_cons_of_mem y hz) hy hzp
        exact absurd (this ▸ List.mem_map.mpr ⟨z, hz, rfl⟩) hnd.1
      · exact Or.inr (by revert hzp; cases pred z <;> simp)
    · exact Or.inl (by revert hy; cases pred y <;> simp)

/-- The generic per-exercise walk of the whole hierarchy, with the path
identifiers as arguments; `mergeBaseWithEdits` is an instance of it. -/
def mapExercises (doc : Doc) (f : String → ℚ → ℚ → ℚ → Exercise → Exercise) : Doc :=
  { periods := doc.periods.map (fun p =>
    { p with blocks := p.blocks.map (fun b =>
      { b with weeks := b.weeks.map (fun w =>
        { w with days := w.days.map (fun d =>
          { d with exercises := d.exercises.map (fun ex => f p.id b.id w.week d.day ex) }) }) }) }) }

theorem mergeBaseWithEdits_eq_mapExercises (base : Doc) (em : Edits) :
    mergeBaseWithEdits base em = mapExercises base (fun pid bid wk dy ex =>
      match lookupEdits em (exKey pid bid wk dy ex.id) with
      | none => ex
      | some patch => applyPatchToExercise ex patch) := rfl

theorem mapExercises_congr (doc : Doc) (f g : String → ℚ → ℚ → ℚ → Exercise → Exercise)
    (h : ∀ p ∈ doc.periods, ∀ b ∈ p.blocks, ∀ w ∈ b.weeks, ∀ d ∈ w.days, ∀ e ∈ d.exercises,
      f p.id b.id w.week d.day e = g p.id b.id w.week d.day e) :
    mapExercises doc f = mapExercises doc g := by
  unfold mapExercises
  congr 1
  refine List.map_congr_left (fun p hp => ?_)
  congr 1
  refine List.map_congr_left (fun b hb => ?_)
  congr 1
  refine List.map_congr_left (fun w hw => ?_)
  congr 1
  refine List.map_congr_left (fun d hd => ?_)
  congr 1
  exact List.map_congr_left (fun e he => h p hp b hb w hw d hd e he)

theorem mapExercises_id (doc : Doc) :
    mapExercises doc (fun _ _ _ _ ex => ex) = doc := by
  unfold mapExercises
  cases doc with
  | mk periods =>
    congr 1
    refine map_eq_self_of_id _ _ (fun p hp => ?_)
    show { p with blocks := p.blocks.map _ } = p
    rw [map_eq_self_of_id _ _ (fun b hb => ?_)]
    show { b with weeks := b.weeks.map _ } = b
    rw [map_eq_self_of_id _ _ (fun w hw => ?_)]
    show { w with days := w.days.map _ } = w
    rw [map_eq_self_of_id _ _ (fun d hd => ?_)]
    show { d with exercises := d.exercises.map _ } = d
    rw [map_eq_self_of_id _ _ (fun e he => rfl)]

theorem mergeBaseWithEdits_nil (doc : Doc) : mergeBaseWithEdits doc [] = doc := by
  rw [mergeBaseWithEdits_eq_mapExercises,
    mapExercises_congr doc _ (fun _ _ _ _ ex => ex) (fun p _ b _ w _ d _ e _ => rfl),
    mapExercises_id]

theorem mapExercises_comp (doc : Doc) (g f : String → ℚ → ℚ → ℚ → Exercise → Exercise) :
    mapExercises (mapExercises doc g) f =
      mapExercises doc (fun pid bid wk dy ex => f pid bid wk dy (g pid bid wk dy ex)) := by
  unfold mapExercises
  congr 1
  rw [List.map_map]
  refine List.map_congr_left (fun p hp => ?_)
  show ({ p with blocks := _ } : Period) = { p with blocks := _ }
  congr 1
  rw [List.map_map]
  refine List.map_congr_left (fun b hb => ?_)
  show ({ b with weeks := _ } : Block) = { b with weeks := _ }
  congr 1
  rw [List.map_map]
  refine List.map_congr_left (fun w hw => ?_)
  show ({ w with days := _ } : Week) = { w with days := _ }
  congr 1
  rw [List.map_map]
  refine List.map_congr_left (fun d hd => ?_)
  show ({ d with exercises := _ } : Day) = { d with exercises := _ }
  congr 1
  rw [List.map_map]
  exact List.map_congr_left (fun e he => rfl)

theorem docInv_mapExercises (doc : Doc) (f : String → ℚ → ℚ → ℚ → Exercise → Exercise)
    (hf : ∀ pid bid wk dy ex, (f pid bid wk dy ex).id = ex.id)
    (h : docInv doc) : docInv (mapExercises doc f) := by
  obtain ⟨hnd, hper⟩ := h
  refine ⟨?_, ?_⟩
  · show ((doc.periods.map _).map Period.id).Nodup
    rw [List.map_map]
    exact hnd
  · intro p' hp'
    obtain ⟨p, hp, rfl⟩ := List.mem_map.mp hp'
    obtain ⟨hslug, hbnd, hblk⟩ := hper p hp
    refine ⟨hslug, ?_, ?_⟩
    · show ((p.blocks.map _).map Block.id).Nodup
      rw [List.map_map]
      exact hbnd
    · intro b' hb'
      obtain ⟨b, hb, rfl⟩ := List.mem_map.mp hb'
      obtain ⟨hint, hwnd, hwk⟩ := hblk b hb
      refine ⟨hint, ?_, ?_⟩
      · show ((b.weeks.map _).map Week.week).Nodup
        rw [List.map_map]
        exact hwnd
      · intro w' hw'
        obtain ⟨w, hw, rfl⟩ := List.mem_map.mp hw'
        obtain ⟨hiw, hdnd, hdy⟩ := hwk w hw
        refine ⟨hiw, ?_, ?_⟩
        · show ((w.days.map _).map Day.day).Nodup
          rw [List.map_map]
          exact hdnd
        · intro d' hd'
          obtain ⟨d, hd, rfl⟩ := List.mem_map.mp hd'
          obtain ⟨hid, hend, hex⟩ := hdy d hd
          refine ⟨hid, ?_, ?_⟩
          · show ((d.exercises.map _).map Exercise.id).Nodup
            rw [List.map_map]
            have : (fun ex => Exercise.id (f p.id b.id w.week d.day ex)) = Exercise.id := by
              funext ex
              exact hf p.id b.id w.week d.day ex
            rw [show (Exercise.id ∘ fun ex => f p.id b.id w.week d.day ex) =
              Exercise.id from this]
            exact hend
          · intro e' he'
            obtain ⟨e, he, rfl⟩ := List.mem_map.mp he'
            show slugSepFree (f p.id b.id w.week d.day e).id
            rw [hf]
            exact hex e he

/-- String of an integral JavaScript number. -/
theorem jsNumToString_intQ (q : ℚ) (h : q.den = 1) :
    jsNumToString q = intDecimal q.num := by
  unfold jsNumToString
  rw [if_pos h]

theorem intQ_num_cast (q : ℚ) (h : q.den = 1) : ((q.num : ℚ)) = q := by
  have := Rat.num_div_den q
  rw [h] at this
  simpa using this

theorem jsNumToString_inj_intQ (a b : ℚ) (ha : a.den = 1) (hb : b.den = 1)
    (h : jsNumToString a = jsNumToString b) : a = b := by
  rw [jsNumToString_intQ a ha, jsNumToString_intQ b hb] at h
  have hnum := intDecimal_injective h
  rw [← intQ_num_cast a ha, ← intQ_num_cast b hb, hnum]

/-- Whether a document path (identified by its path identifiers) is the
one addressed by the five key segments: the conjunction of the five
accessor predicates. -/
def hitB (kpid kbid kwk kdy keid : String) (pid : String) (bid wk dy : ℚ) (eid : String) : Bool :=
  (JV.str kpid == JV.str pid) && (jsNumToString bid == kbid) &&
  (jsToNumber (JV.str kwk) == some wk) && (jsToNumber (JV.str kdy) == some dy) &&
  (JV.str keid == JV.str eid)

theorem exmap_id (fe : Exercise → Exercise) (cond : String → Bool) (l : List Exercise)
    (h : ∀ eid, cond eid = false) :
    l.map (fun ex => if cond ex.id = true then fe ex else ex) = l :=
  map_eq_self_of_id l _ (fun e _ => by rw [h e.id]; simp)

theorem dmap_id (fe : Exercise → Exercise) (cond : ℚ → String → Bool) (l : List Day)
    (h : ∀ dy eid, cond dy eid = false) :
    l.map (fun d => { d with exercises := d.exercises.map (fun ex => if cond d.day ex.id = true then fe ex else ex) }) = l :=
  map_eq_self_of_id l _ (fun d _ => by rw [exmap_id fe (cond d.day) d.exercises (h d.day)])

theorem wmap_id (fe : Exercise → Exercise) (cond : ℚ → ℚ → String → Bool) (l : List Week)
    (h : ∀ dy0 dy eid, cond dy0 dy eid = false) :
    l.map (fun w => { w with days := w.days.map (fun d => { d with exercises := d.exercises.map (fun ex => if cond w.week d.day ex.id = true then fe ex else ex) }) }) = l :=
  map_eq_self_of_id l _ (fun w _ => by rw [dmap_id fe (cond w.week) w.days (h w.week)])

theorem bmap_id (fe : Exercise → Exercise) (cond : ℚ → ℚ → ℚ → String → Bool) (l : List Block)
    (h : ∀ wk0 dy0 dy eid, cond wk0 dy0 dy eid = false) :
    l.map (fun b => { b with weeks := b.weeks.map (fun w => { w with days := w.days.map (fun d => { d with exercises := d.exercises.map (fun ex => if cond b.id w.week d.day ex.id = true then fe ex else ex) }) }) }) = l :=
  map_eq_self_of_id l _ (fun b _ => by rw [wmap_id fe (cond b.id) b.weeks (h b.id)])

/-- Under the §3 uniqueness invariants, the in-place first-match update
of the specified merge is the same as patching every path the key
addresses (of which there is at most one). -/
theorem updateDayIn_spec_eq_mapExercises (doc : Doc) (kpid kbid kwk kdy keid : String)
    (fe : Exercise → Exercise) (hinv : docInv doc) :
    updateDayIn doc (.str kpid) (.str kbid) (.str kwk) (.str kdy)
      (fun d => { d with exercises := updateFirst (exercisePred (.str keid)) fe d.exercises }) =
    mapExercises doc (fun pid bid wk dy ex =>
      if hitB kpid kbid kwk kdy keid pid bid wk dy ex.id = true then fe ex else ex) := by
  obtain ⟨hnd, hper⟩ := hinv
  unfold updateDayIn updateWeekIn updateBlockIn updatePeriodIn mapExercises
  congr 1
  refine updateFirst_eq_map _ _ _ doc.periods
    (pairwise_one_match _ Period.id doc.periods (fun y _ z _ hy hz => ?_) hnd) ?_ ?_
  · have h1 : JV.str kpid = JV.str y.id := beq_iff_eq.mp (by exact hy)
    have h2 : JV.str kpid = JV.str z.id := beq_iff_eq.mp (by exact hz)
    rw [← JV.str.inj h1, ← JV.str.inj h2]
  · intro p _ hp
    show ({ p with blocks := p.blocks.map _ } : Period) = p
    rw [bmap_id fe _ p.blocks (fun wk0 dy0 dy eid => by
      unfold hitB
      rw [show (JV.str kpid == JV.str p.id) = false from hp]
      simp)]
  · intro p hpmem hp
    obtain ⟨hslug, hbnd, hblk⟩ := hper p hpmem
    show ({ p with blocks := _ } : Period) = { p with blocks := _ }
    congr 1
    refine updateFirst_eq_map _ _ _ p.blocks
      (pairwise_one_match _ Block.id p.blocks (fun y hy z hz hy2 hz2 => ?_) hbnd) ?_ ?_
    · have e1 : jsNumToString y.id = kbid := beq_iff_eq.mp (by exact hy2)
      have e2 : jsNumToString z.id = kbid := beq_iff_eq.mp (by exact hz2)
      exact jsNumToString_inj_intQ y.id z.id (hblk y hy).1 (hblk z hz).1 (e1.trans e2.symm)
    · intro b _ hb
      show ({ b with weeks := b.weeks.map _ } : Block) = b
      rw [wmap_id fe _ b.weeks (fun dy0 dy eid => by
        unfold hitB
        rw [show (jsNumToString b.id == kbid) = false from hb]
        simp)]
    · intro b hbmem hb
      obtain ⟨hint, hwnd, hwk⟩ := hblk b hbmem
      show ({ b with weeks := _ } : Block) = { b with weeks := _ }
      congr 1
      refine updateFirst_eq_map _ _ _ b.weeks
        (pairwise_one_match _ Week.week b.weeks (fun y _ z _ hy hz => ?_) hwnd) ?_ ?_
      · have e1 : jsToNumber (JV.str kwk) = some y.week := beq_iff_eq.mp (by exact hy)
        have e2 : jsToNumber (JV.str kwk) = some z.week := beq_iff_eq.mp (by exact hz)
        exact Option.some.inj (e1.symm.trans e2)
      · intro w _ hw
        show ({ w with days := w.days.map _ } : Week) = w
        rw [dmap_id fe _ w.days (fun dy eid => by
          unfold hitB
          rw [show (jsToNumber (JV.str kwk) == some w.week) = false from hw]
          simp)]
      · intro w hwmem hw
        obtain ⟨hiw, hdnd, hdy⟩ := hwk w hwmem
        show ({ w with days := _ } : Week) = { w with days := _ }
        congr 1
        refine updateFirst_eq_map _ _ _ w.days
          (pairwise_one_match _ Day.day w.days (fun y _ z _ hy hz => ?_) hdnd) ?_ ?_
        · have e1 : jsToNumber (JV.str kdy) = some y.day := beq_iff_eq.mp (by exact hy)
          have e2 : jsToNumber (JV.str kdy) = some z.day := beq_iff_eq.mp (by exact hz)
          exact Option.some.inj (e1.symm.trans e2)
        · intro d _ hd
          show ({ d with exercises := d.exercises.map _ } : Day) = d
          rw [exmap_id fe _ d.exercises (fun eid => by
            unfold hitB
            rw [show (jsToNumber (JV.str kdy) == some d.day) = false from hd]
            simp)]
        · intro d hdmem hd
          obtain ⟨hid, hend, hex⟩ := hdy d hdmem
          show ({ d with exercises := _ } : Day) = { d with exercises := _ }
          congr 1
          refine updateFirst_eq_map _ _ _ d.exercises
            (pairwise_one_match _ Exercise.id d.exercises (fun y _ z _ hy hz => ?_) hend) ?_ ?_
          · have e1 : JV.str keid = JV.str y.id := beq_iff_eq.mp (by exact hy)
            have e2 : JV.str keid = JV.str z.id := beq_iff_eq.mp (by exact hz)
            rw [← JV.str.inj e1, ← JV.str.inj e2]
          · intro ex _ he
            show (if hitB kpid kbid kwk kdy keid p.id b.id w.week d.day ex.id = true
              then fe ex else ex) = ex
            rw [if_neg]
            intro hhit
            unfold hitB at hhit
            rw [show (JV.str keid == JV.str ex.id) = false from he, Bool.and_false] at hhit
            exact Bool.false_ne_true hhit
          · intro ex _ he
            show fe ex = (if hitB kpid kbid kwk kdy keid p.id b.id w.week d.day ex.id = true
              then fe ex else ex)
            rw [if_pos]
            unfold hitB
            rw [show (JV.str kpid == JV.str p.id) = true from hp,
              show (jsNumToString b.id == kbid) = true from hb,
              show (jsToNumber (JV.str kwk) == some w.week) = true from hw,
              show (jsToNumber (JV.str kdy) == some d.day) = true from hd,
              show (JV.str keid == JV.str ex.id) = true from he]
            rfl

/-- Under the uniqueness invariants, a key whose segments hit a member
path resolves to exactly that path's exercise. -/
theorem resolveLocator_of_hit (doc : Doc) (kpid kbid kwk kdy keid : String)
    (hinv : docInv doc) (p : Period) (b : Block) (w : Week) (d : Day) (e : Exercise)
    (hp : p ∈ doc.periods) (hb : b ∈ p.blocks) (hw : w ∈ b.weeks) (hd : d ∈ w.days)
    (he : e ∈ d.exercises)
    (hhit : hitB kpid kbid kwk kdy keid p.id b.id w.week d.day e.id = true) :
    resolveLocator doc (.str kpid) (.str kbid) (.str kwk) (.str kdy) (.str keid) = some e := by
  obtain ⟨hnd, hper⟩ := hinv
  obtain ⟨hslug, hbnd, hblk⟩ := hper p hp
  obtain ⟨hint, hwnd, hwk⟩ := hblk b hb
  obtain ⟨hiw, hdnd, hdy⟩ := hwk w hw
  obtain ⟨hidq, hend, hex⟩ := hdy d hd
  unfold hitB at hhit
  rw [Bool.and_eq_true, Bool.and_eq_true, Bool.and_eq_true, Bool.and_eq_true] at hhit
  obtain ⟨⟨⟨⟨h1, h2⟩, h3⟩, h4⟩, h5⟩ := hhit
  have hp1 : getPeriod doc (.str kpid) = some p := by
    refine find?_eq_some_of_mem_nodup _ Period.id doc.periods p hp (fun y _ => ?_) hnd
    constructor
    · intro hpy
      have hy : JV.str kpid = JV.str y.id := beq_iff_eq.mp (by exact hpy)
      rw [show Period.id y = y.id from rfl, ← JV.str.inj hy]
      exact JV.str.inj (beq_iff_eq.mp h1)
    · intro hyid
      show (JV.str kpid == JV.str y.id) = true
      rw [show y.id = p.id from hyid]
      exact h1
  have hb1 : getBlock p (.str kbid) = some b := by
    refine find?_eq_some_of_mem_nodup _ Block.id p.blocks b hb (fun y hy => ?_) hbnd
    constructor
    · intro hpy
      have e1 : jsNumToString y.id = kbid := beq_iff_eq.mp (by exact hpy)
      have e2 : jsNumToString b.id = kbid := beq_iff_eq.mp h2
      exact jsNumToString_inj_intQ _ _ (hblk y hy).1 hint (e1.trans e2.symm)
    · intro hyid
      show (jsNumToString y.id == kbid) = true
      rw [show Block.id y = y.id from rfl] at hyid
      rw [hyid]
      exact h2
  have hw1 : getWeek b (.str kwk) = some w := by
    refine find?_eq_some_of_mem_nodup _ Week.week b.weeks w hw (fun y _ => ?_) hwnd
    constructor
    · intro hpy
      have e1 : jsToNumber (JV.str kwk) = some y.week := beq_iff_eq.mp (by exact hpy)
      have e2 : jsToNumber (JV.str kwk) = some w.week := beq_iff_eq.mp h3
      exact Option.some.inj (e1.symm.trans e2)
    · intro hyid
      show (jsToNumber (JV.str kwk) == some y.week) = true
      rw [show Week.week y = y.week from rfl] at hyid
      rw [hyid]
      exact h3
  have hd1 : getDay w (.str kdy) = some d := by
    refine find?_eq_some_of_mem_nodup _ Day.day w.days d hd (fun y _ => ?_) hdnd
    constructor
    · intro hpy
      have e1 : jsToNumber (JV.str kdy) = some y.day := beq_iff_eq.mp (by exact hpy)
      have e2 : jsToNumber (JV.str kdy) = some d.day := beq_iff_eq.mp h4
      exact Option.some.inj (e1.symm.trans e2)
    · intro hyid
      show (jsToNumber (JV.str kdy) == some y.day) = true
      rw [show Day.day y = y.day from rfl] at hyid
      rw [hyid]
      exact h4
  have he1 : getExercise d (.str keid) = some e := by
    refine find?_eq_some_of_mem_nodup _ Exercise.id d.exercises e he (fun y _ => ?_) hend
    constructor
    · intro hpy
      have hy : JV.str keid = JV.str y.id := beq_iff_eq.mp (by exact hpy)
      rw [show Exercise.id y = y.id from rfl, ← JV.str.inj hy]
      exact JV.str.inj (beq_iff_eq.mp h5)
    · intro hyid
      show (JV.str keid == JV.str y.id) = true
      rw [show y.id = e.id from hyid]
      exact h5
  rw [resolveLocator_eq_bind]
  have hday : getDayAt doc (.str kpid) (.str kbid) (.str kwk) (.str kdy) = some d := by
    unfold getDayAt getWeekAt getBlockAt
    rw [hp1, Option.some_bind]
    rw [hb1, Option.some_bind]
    rw [hw1, Option.some_bind]
    exact hd1
  rw [hday, Option.some_bind]
  exact he1

theorem split5_data (k : String) (kpid kbid kwk kdy keid : String)
    (h : (splitChar '|' k.data).map String.mk = [kpid, kbid, kwk, kdy, keid]) :
    splitChar '|' k.data = [kpid.data, kbid.data, kwk.data, kdy.data, keid.data] := by
  have h2 := congrArg (List.map String.data) h
  rw [List.map_map,
    show (String.data ∘ String.mk) = (fun l : List Char => l) from funext (fun l => rfl),
    show (splitChar '|' k.data).map (fun l : List Char => l) = splitChar '|' k.data from
      map_eq_self_of_id _ _ (fun l _ => rfl)] at h2
  exact h2

theorem k_data_join (k : String) (kpid kbid kwk kdy keid : String)
    (h : (splitChar '|' k.data).map String.mk = [kpid, kbid, kwk, kdy, keid]) :
    k.data = joinChar '|' [kpid.data, kbid.data, kwk.data, kdy.data, keid.data] := by
  rw [← split5_data k kpid kbid kwk kdy keid h]
  exact (joinChar_splitChar '|' k.data).symm

/-- A canonical key segment parsing to a number pins the number's
rendering back to the segment. -/
theorem canon_seg_inv (s : String) (q : ℚ)
    (hc : canonIntSeg s = true) (hq : jsStringToNumber s = some q) :
    jsNumToString q = s := by
  unfold canonIntSeg at hc
  rcases hpi : parseIntStrict s.data with _ | n
  · rw [hpi] at hc
    exact absurd hc (by simp)
  · rw [hpi] at hc
    have hs : intDecimal n = s := beq_iff_eq.mp hc
    rw [← hs, jsStringToNumber_intDecimal] at hq
    have hqn : q = (n : ℚ) := (Option.some.inj hq).symm
    rw [hqn, jsNumToString_intQ _ (Rat.den_intCast n), Rat.num_intCast, hs]

/-- A key whose segments hit a path is the canonical key of that path. -/
theorem key_eq_of_hit (k kpid kbid kwk kdy keid : String) (pid : String) (bid wk dy : ℚ)
    (eid : String)
    (hsplit : (splitChar '|' k.data).map String.mk = [kpid, kbid, kwk, kdy, keid])
    (hck : canonKey k)
    (hhit : hitB kpid kbid kwk kdy keid pid bid wk dy eid = true) :
    k = exKey pid bid wk dy eid := by
  have hc : canonKeyB k = true := hck
  unfold canonKeyB at hc
  rw [hsplit] at hc
  rw [Bool.and_eq_true, Bool.and_eq_true] at hc
  obtain ⟨⟨hcb, hcw⟩, hcd⟩ := hc
  unfold hitB at hhit
  rw [Bool.and_eq_true, Bool.and_eq_true, Bool.and_eq_true, Bool.and_eq_true] at hhit
  obtain ⟨⟨⟨⟨h1, h2⟩, h3⟩, h4⟩, h5⟩ := hhit
  have e1 : kpid = pid := JV.str.inj (beq_iff_eq.mp h1)
  have e2 : jsNumToString bid = kbid := beq_iff_eq.mp h2
  have e3 : jsNumToString wk = kwk :=
    canon_seg_inv kwk wk hcw (beq_iff_eq.mp (show (jsStringToNumber kwk == some wk) = true from h3))
  have e4 : jsNumToString dy = kdy :=
    canon_seg_inv kdy dy hcd (beq_iff_eq.mp (show (jsStringToNumber kdy == some dy) = true from h4))
  have e5 : keid = eid := JV.str.inj (beq_iff_eq.mp h5)
  have hdata : k.data = (exKey pid bid wk dy eid).data := by
    rw [k_data_join k kpid kbid kwk kdy keid hsplit, e1, ← e2, ← e3, ← e4, e5]
    rfl
  exact congrArg String.mk hdata

/-- The canonical key of a path with separator-free slugs and integral
numbers hits exactly its own segments. -/
theorem hit_of_key_eq (k kpid kbid kwk kdy keid : String) (pid : String) (bid wk dy : ℚ)
    (eid : String)
    (hsplit : (splitChar '|' k.data).map String.mk = [kpid, kbid, kwk, kdy, keid])
    (hsf : slugSepFree pid) (hbint : intQ bid) (hwint : intQ wk) (hdint : intQ dy)
    (hesf : slugSepFree eid)
    (hkey : k = exKey pid bid wk dy eid) :
    hitB kpid kbid kwk kdy keid pid bid wk dy eid = true := by
  have hxdata : (exKey pid bid wk dy eid).data =
      joinChar '|' [pid.data, (jsNumToString bid).data, (jsNumToString wk).data,
        (jsNumToString dy).data, eid.data] := rfl
  have hfree : ∀ s ∈ [pid.data, (jsNumToString bid).data, (jsNumToString wk).data,
      (jsNumToString dy).data, eid.data], '|' ∉ s := by
    intro s hs
    simp only [List.mem_cons, List.not_mem_nil, or_false] at hs
    rcases hs with rfl | rfl | rfl | rfl | rfl
    · exact hsf
    · rw [jsNumToString_intQ bid hbint]
      exact pipe_not_mem_intDecimal bid.num
    · rw [jsNumToString_intQ wk hwint]
      exact pipe_not_mem_intDecimal wk.num
    · rw [jsNumToString_intQ dy hdint]
      exact pipe_not_mem_intDecimal dy.num
    · exact hesf
  have hscan : (splitChar '|' k.data).map String.mk =
      [pid, jsNumToString bid, jsNumToString wk, jsNumToString dy, eid] := by
    rw [hkey, hxdata, splitChar_joinChar '|' _ (by simp) hfree]
    rfl
  rw [hscan] at hsplit
  obtain ⟨g1, hsplit⟩ := List.cons.inj hsplit
  obtain ⟨g2, hsplit⟩ := List.cons.inj hsplit
  obtain ⟨g3, hsplit⟩ := List.cons.inj hsplit
  obtain ⟨g4, hsplit⟩ := List.cons.inj hsplit
  obtain ⟨g5, _⟩ := List.cons.inj hsplit
  unfold hitB
  rw [← g1, ← g2, ← g3, ← g4, ← g5]
  rw [show (JV.str pid == JV.str pid) = true from beq_self_eq_true _,
    show (jsNumToString bid == jsNumToString bid) = true from beq_self_eq_true _]
  have hwparse : jsToNumber (JV.str (jsNumToString wk)) = some wk := by
    show jsStringToNumber (jsNumToString wk) = some wk
    rw [jsNumToString_intQ wk hwint, jsStringToNumber_intDecimal, intQ_num_cast wk hwint]
  have hdparse : jsToNumber (JV.str (jsNumToString dy)) = some dy := by
    show jsStringToNumber (jsNumToString dy) = some dy
    rw [jsNumToString_intQ dy hdint, jsStringToNumber_intDecimal, intQ_num_cast dy hdint]
  rw [show (jsToNumber (JV.str (jsNumToString wk)) == some wk) = true from
      by rw [hwparse]; exact beq_self_eq_true _,
    show (jsToNumber (JV.str (jsNumToString dy)) == some dy) = true from
      by rw [hdparse]; exact beq_self_eq_true _,
    show (JV.str eid == JV.str eid) = true from beq_self_eq_true _]
  rfl

theorem canonKey_split5 (k : String) (hck : canonKey k) :
    ∃ a b c d e, (splitChar '|' k.data).map String.mk = [a, b, c, d, e] := by
  have hc : canonKeyB k = true := hck
  unfold canonKeyB at hc
  rcases hs : (splitChar '|' k.data).map String.mk with
    _ | ⟨a, _ | ⟨b, _ | ⟨c, _ | ⟨d, _ | ⟨e, _ | ⟨f, t⟩⟩⟩⟩⟩⟩
  · rw [hs] at hc
    exact absurd hc (by simp)
  · rw [hs] at hc
    exact absurd hc (by simp)
  · rw [hs] at hc
    exact absurd hc (by simp)
  · rw [hs] at hc
    exact absurd hc (by simp)
  · rw [hs] at hc
    exact absurd hc (by simp)
  · exact ⟨a, b, c, d, e, rfl⟩
  · rw [hs] at hc
    exact absurd hc (by simp)

theorem applyOverlayKeySpec_of_unresolved (doc : Doc) (k : String) (pt : Patch)
    (kpid kbid kwk kdy keid : String)
    (hsplit : (splitChar '|' k.data).map String.mk = [kpid, kbid, kwk, kdy, keid])
    (hres : resolveLocator doc (.str kpid) (.str kbid) (.str kwk) (.str kdy) (.str keid) = none) :
    applyOverlayKeySpec doc k pt = doc := by
  unfold applyOverlayKeySpec
  rw [hsplit]
  simp [hres]

theorem applyOverlayKeySpec_of_resolved (doc : Doc) (k : String) (pt : Patch)
    (kpid kbid kwk kdy keid : String) (ex0 : Exercise)
    (hsplit : (splitChar '|' k.data).map String.mk = [kpid, kbid, kwk, kdy, keid])
    (hres : resolveLocator doc (.str kpid) (.str kbid) (.str kwk) (.str kdy) (.str keid) = some ex0) :
    applyOverlayKeySpec doc k pt = updateDayIn doc (.str kpid) (.str kbid) (.str kwk) (.str kdy)
      (fun d => { d with exercises := updateFirst (exercisePred (.str keid)) (fun ex => applyPatchToExercise ex pt) d.exercises }) := by
  unfold applyOverlayKeySpec
  rw [hsplit]
  simp [hres]

theorem docInv_applyOverlayKeySpec (doc : Doc) (k : String) (pt : Patch)
    (hinv : docInv doc) : docInv (applyOverlayKeySpec doc k pt) := by
  rcases hs : (splitChar '|' k.data).map String.mk with
    _ | ⟨a, _ | ⟨b, _ | ⟨c, _ | ⟨d, _ | ⟨e, _ | ⟨f, t⟩⟩⟩⟩⟩⟩
  · rw [show applyOverlayKeySpec doc k pt = doc from by unfold applyOverlayKeySpec; rw [hs]]
    exact hinv
  · rw [show applyOverlayKeySpec doc k pt = doc from by unfold applyOverlayKeySpec; rw [hs]]
    exact hinv
  · rw [show applyOverlayKeySpec doc k pt = doc from by unfold applyOverlayKeySpec; rw [hs]]
    exact hinv
  · rw [show applyOverlayKeySpec doc k pt = doc from by unfold applyOverlayKeySpec; rw [hs]]
    exact hinv
  · rw [show applyOverlayKeySpec doc k pt = doc from by unfold applyOverlayKeySpec; rw [hs]]
    exact hinv
  · rcases hres : resolveLocator doc (.str a) (.str b) (.str c) (.str d) (.str e) with _ | ex0
    · rw [applyOverlayKeySpec_of_unresolved doc k pt a b c d e hs hres]
      exact hinv
    · rw [applyOverlayKeySpec_of_resolved doc k pt a b c d e ex0 hs hres,
        updateDayIn_spec_eq_mapExercises doc a b c d e _ hinv]
      refine docInv_mapExercises doc _ (fun pid bid wk dy ex => ?_) hinv
      by_cases hh : hitB a b c d e pid bid wk dy ex.id = true
      · rw [if_pos hh]
        rfl
      · rw [if_neg hh]
  · rw [show applyOverlayKeySpec doc k pt = doc from by unfold applyOverlayKeySpec; rw [hs]]
    exact hinv

/-- One fold step of the specified merge commutes with the implemented
one-pass walk: applying the head key first and walking the tail over the
updated document is the same as walking the whole overlay at once. -/
theorem mergeBaseWithEdits_cons_comm (doc : Doc) (k : String) (pt : Patch) (rest : Edits)
    (hinv : docInv doc) (hck : canonKey k) (hnm : k ∉ rest.map Prod.fst) :
    mergeBaseWithEdits doc ((k, pt) :: rest) =
      mergeBaseWithEdits (applyOverlayKeySpec doc k pt) rest := by
  obtain ⟨kpid, kbid, kwk, kdy, keid, hsplit⟩ := canonKey_split5 k hck
  rcases hres : resolveLocator doc (.str kpid) (.str kbid) (.str kwk) (.str kdy) (.str keid)
    with _ | ex0
  · rw [applyOverlayKeySpec_of_unresolved doc k pt kpid kbid kwk kdy keid hsplit hres,
      mergeBaseWithEdits_eq_mapExercises, mergeBaseWithEdits_eq_mapExercises]
    refine mapExercises_congr doc _ _ (fun p hp b hb w hw d hd e he => ?_)
    have hkne : k ≠ exKey p.id b.id w.week d.day e.id := by
      intro hkeq
      obtain ⟨hnd2, hper⟩ := hinv
      obtain ⟨hslug, hbnd, hblk⟩ := hper p hp
      obtain ⟨hint, hwnd, hwk2⟩ := hblk b hb
      obtain ⟨hiw, hdnd, hdy2⟩ := hwk2 w hw
      obtain ⟨hidq, hend, hex⟩ := hdy2 d hd
      have hhit := hit_of_key_eq k kpid kbid kwk kdy keid p.id b.id w.week d.day e.id hsplit
        hslug hint hiw hidq (hex e he) hkeq
      have hsome := resolveLocator_of_hit doc kpid kbid kwk kdy keid ⟨hnd2, hper⟩ p b w d e
        hp hb hw hd he hhit
      rw [hres] at hsome
      exact Option.noConfusion hsome
    show (match lookupEdits ((k, pt) :: rest) (exKey p.id b.id w.week d.day e.id) with
      | none => e
      | some patch => applyPatchToExercise e patch) =
      (match lookupEdits rest (exKey p.id b.id w.week d.day e.id) with
      | none => e
      | some patch => applyPatchToExercise e patch)
    rw [lookupEdits_cons, if_neg hkne]
  · rw [applyOverlayKeySpec_of_resolved doc k pt kpid kbid kwk kdy keid ex0 hsplit hres,
      updateDayIn_spec_eq_mapExercises doc kpid kbid kwk kdy keid _ hinv,
      mergeBaseWithEdits_eq_mapExercises, mergeBaseWithEdits_eq_mapExercises,
      mapExercises_comp]
    refine mapExercises_congr doc _ _ (fun p hp b hb w hw d hd e he => ?_)
    show (match lookupEdits ((k, pt) :: rest) (exKey p.id b.id w.week d.day e.id) with
      | none => e
      | some patch => applyPatchToExercise e patch) =
      (match lookupEdits rest (exKey p.id b.id w.week d.day
          (if hitB kpid kbid kwk kdy keid p.id b.id w.week d.day e.id = true
            then applyPatchToExercise e pt else e).id) with
      | none => (if hitB kpid kbid kwk kdy keid p.id b.id w.week d.day e.id = true
            then applyPatchToExercise e pt else e)
      | some patch => applyPatchToExercise (if hitB kpid kbid kwk kdy keid p.id b.id w.week d.day e.id = true
            then applyPatchToExercise e pt else e) patch)
    by_cases hh : hitB kpid kbid kwk kdy keid p.id b.id w.week d.day e.id = true
    · have hkeq := key_eq_of_hit k kpid kbid kwk kdy keid p.id b.id w.week d.day e.id
        hsplit hck hh
      rw [if_pos hh, show (applyPatchToExercise e pt).id = e.id from rfl,
        lookupEdits_cons, if_pos hkeq,
        lookupEdits_eq_none_of_not_mem rest (exKey p.id b.id w.week d.day e.id)
          (by rw [← hkeq]; exact hnm)]
    · have hkne : k ≠ exKey p.id b.id w.week d.day e.id := by
        intro hkeq
        obtain ⟨hnd2, hper⟩ := hinv
        obtain ⟨hslug, hbnd, hblk⟩ := hper p hp
        obtain ⟨hint, hwnd, hwk2⟩ := hblk b hb
        obtain ⟨hiw, hdnd, hdy2⟩ := hwk2 w hw
        obtain ⟨hidq, hend, hex⟩ := hdy2 d hd
        exact hh (hit_of_key_eq k kpid kbid kwk kdy keid p.id b.id w.week d.day e.id hsplit
          hslug hint hiw hidq (hex e he) hkeq)
      rw [if_neg hh, lookupEdits_cons, if_neg hkne]

theorem merge_refinement_aux : ∀ (overlay : Edits) (doc : Doc), docInv doc →
    (∀ kv ∈ overlay, canonKey kv.1) → (overlay.map Prod.fst).Nodup →
    mergeBaseWithEdits doc overlay = mergeOverlayIntoBaseSpec doc overlay := by
  intro overlay
  induction overlay with
  | nil => intro doc _ _ _; exact mergeBaseWithEdits_nil doc
  | cons kv rest ih =>
    intro doc hinv hck hnd
    obtain ⟨k, pt⟩ := kv
    rw [List.map_cons, List.nodup_cons] at hnd
    rw [mergeBaseWithEdits_cons_comm doc k pt rest hinv (hck (k, pt) (List.mem_cons_self _ _))
      hnd.1]
    rw [show mergeOverlayIntoBaseSpec doc ((k, pt) :: rest) =
      mergeOverlayIntoBaseSpec (applyOverlayKeySpec doc k pt) rest from rfl]
    exact ih (applyOverlayKeySpec doc k pt) (docInv_applyOverlayKeySpec doc k pt hinv)
      (fun kv2 h2 => hck kv2 (List.mem_cons_of_mem _ h2)) hnd.2

/-! ## Claim C3 -/

/-- C3: for every base document satisfying the §3 uniqueness/shape
invariants and every overlay whose keys are canonical five-segment
encodings of locators, with no duplicate keys, the implemented one-pass
merge (`mergeBaseWithEdits`: walk every exercise of the copy and apply
the patch stored under its canonical key) produces exactly the document
of the specified algorithm (`mergeOverlayIntoBaseSpec`: fold every
overlay entry, decode it, resolve it with the hierarchy accessor and
overwrite in place); moreover a key whose locator does not resolve is
silently skipped by the specified algorithm — it is a no-op, not an
error. -/
theorem c3_merge_refinement (doc : Doc) (overlay : Edits)
    (hinv : docInv doc)
    (hck : ∀ kv ∈ overlay, canonKey kv.1)
    (hnd : (overlay.map Prod.fst).Nodup) :
    mergeBaseWithEdits doc overlay = mergeOverlayIntoBaseSpec doc overlay ∧
    (∀ (k : String) (pt : Patch) (kpid kbid kwk kdy keid : String),
      (splitChar '|' k.data).map String.mk = [kpid, kbid, kwk, kdy, keid] →
      resolveLocator doc (.str kpid) (.str kbid) (.str kwk) (.str kdy) (.str keid) = none →
      applyOverlayKeySpec doc k pt = doc) :=
  ⟨merge_refinement_aux overlay doc hinv hck hnd,
   fun k pt kpid kbid kwk kdy keid hsplit hres =>
     applyOverlayKeySpec_of_unresolved doc k pt kpid kbid kwk kdy keid hsplit hres⟩

theorem c3_merge_refinement_witness :
    docInv cDoc ∧ (∀ kv ∈ cEdits, canonKey kv.1) ∧ (cEdits.map Prod.fst).Nodup ∧
    mergeBaseWithEdits cDoc cEdits = mergeOverlayIntoBaseSpec cDoc cEdits := by
  refine ⟨by decide, by decide, by decide, ?_⟩
  exact (c3_merge_refinement cDoc cEdits (by decide) (by decide) (by decide)).1

/-! ## Claim C9 -/

/-- C9: after the fallback-selection walk, the selection resolves in the
(possibly extended) document — the document is never left in an
unselectable state.  Additionally: an empty document receives exactly
one placeholder period subtree, and a selection whose period component
was absent or unresolvable is defaulted to the first period of the
document. -/
theorem c9_ensureSelected_resolves (doc : Doc) (sel : Sel) :
    (resolveLocator (ensureSelected doc sel).1
      (jvOfStrOpt (ensureSelected doc sel).2.periodId)
      (ensureSelected doc sel).2.blockId
      (ensureSelected doc sel).2.week
      (ensureSelected doc sel).2.day
      (jvOfStrOpt (ensureSelected doc sel).2.exerciseId)).isSome = true ∧
    (doc.periods = [] →
      ((ensureSelected doc sel).1).periods.map Period.id = ["period-1"]) ∧
    (doc.periods ≠ [] →
      jsTruthy (jvOfStrOpt sel.periodId) = false ∨ getPeriod doc (jvOfStrOpt sel.periodId) = none →
      (ensureSelected doc sel).2.periodId = some ((doc.periods.headD defaultPeriodSubtree).id)) := by
  have h1 := fixPeriodLevel_found doc sel
  have h2 := fixBlockLevel_found (fixPeriodLevel doc sel).1 (fixPeriodLevel doc sel).2 h1
  have h3 := fixWeekLevel_found (fixBlockLevel (fixPeriodLevel doc sel).1 (fixPeriodLevel doc sel).2).1
    (fixBlockLevel (fixPeriodLevel doc sel).1 (fixPeriodLevel doc sel).2).2 h2
  have h4 := fixDayLevel_found _ _ h3
  have h5 := fixExerciseLevel_found _ _ h4
  refine ⟨?_, ?_, ?_⟩
  · obtain ⟨d, ex, hd, he⟩ := h5
    rw [show ensureSelected doc sel = fixExerciseLevel
      (fixDayLevel (fixWeekLevel (fixBlockLevel (fixPeriodLevel doc sel).1
        (fixPeriodLevel doc sel).2).1 (fixBlockLevel (fixPeriodLevel doc sel).1
        (fixPeriodLevel doc sel).2).2).1 (fixWeekLevel (fixBlockLevel
        (fixPeriodLevel doc sel).1 (fixPeriodLevel doc sel).2).1 (fixBlockLevel
        (fixPeriodLevel doc sel).1 (fixPeriodLevel doc sel).2).2).2).1
      (fixDayLevel (fixWeekLevel (fixBlockLevel (fixPeriodLevel doc sel).1
        (fixPeriodLevel doc sel).2).1 (fixBlockLevel (fixPeriodLevel doc sel).1
        (fixPeriodLevel doc sel).2).2).1 (fixWeekLevel (fixBlockLevel
        (fixPeriodLevel doc sel).1 (fixPeriodLevel doc sel).2).1 (fixBlockLevel
        (fixPeriodLevel doc sel).1 (fixPeriodLevel doc sel).2).2).2).2 from rfl]
    rw [resolveLocator_eq_bind, hd]
    show (getExercise d _).isSome = true
    rw [he]
    rfl
  · intro hempty
    have hpds : (periodDocStep doc) = ⟨[defaultPeriodSubtree]⟩ := by
      unfold periodDocStep
      rw [hempty]
      rfl
    have hstage1 : ((fixPeriodLevel doc sel).1).periods.map Period.id = ["period-1"] := by
      show ((periodDocStep doc)).periods.map Period.id = ["period-1"]
      rw [hpds]
      rfl
    calc ((ensureSelected doc sel).1).periods.map Period.id
        = ((fixDayLevel _ _).1).periods.map Period.id := periodIds_fixExerciseLevel _ _
      _ = ((fixWeekLevel _ _).1).periods.map Period.id := periodIds_fixDayLevel _ _
      _ = ((fixBlockLevel _ _).1).periods.map Period.id := periodIds_fixWeekLevel _ _
      _ = ((fixPeriodLevel doc sel).1).periods.map Period.id := periodIds_fixBlockLevel _ _
      _ = ["period-1"] := hstage1
  · intro hne hstale
    have hpds : periodDocStep doc = doc := by
      unfold periodDocStep
      rw [if_neg (by simpa using hne)]
    have hsel1 : (fixPeriodLevel doc sel).2.periodId =
        some ((doc.periods.headD defaultPeriodSubtree).id) := by
      show (periodSelStep (periodDocStep doc) sel).periodId = _
      unfold periodSelStep
      rw [if_pos]
      · rw [hpds]
      · rcases hstale with h | h
        · rw [h]; rfl
        · rw [hpds, h]
          simp
    calc (ensureSelected doc sel).2.periodId
        = (fixDayLevel _ _).2.periodId := fixExerciseLevel_periodId _ _
      _ = (fixWeekLevel _ _).2.periodId := fixDayLevel_periodId _ _
      _ = (fixBlockLevel _ _).2.periodId := fixWeekLevel_periodId _ _
      _ = (fixPeriodLevel doc sel).2.periodId := fixBlockLevel_periodId _ _
      _ = some ((doc.periods.headD defaultPeriodSubtree).id) := hsel1

theorem c9_ensureSelected_resolves_witness :
    ((resolveLocator (ensureSelected (⟨[]⟩ : Doc) ⟨none, JV.nul, JV.nul, JV.nul, none⟩).1
      (jvOfStrOpt (ensureSelected (⟨[]⟩ : Doc) ⟨none, JV.nul, JV.nul, JV.nul, none⟩).2.periodId)
      (ensureSelected (⟨[]⟩ : Doc) ⟨none, JV.nul, JV.nul, JV.nul, none⟩).2.blockId
      (ensureSelected (⟨[]⟩ : Doc) ⟨none, JV.nul, JV.nul, JV.nul, none⟩).2.week
      (ensureSelected (⟨[]⟩ : Doc) ⟨none, JV.nul, JV.nul, JV.nul, none⟩).2.day
      (jvOfStrOpt (ensureSelected (⟨[]⟩ : Doc) ⟨none, JV.nul, JV.nul, JV.nul, none⟩).2.exerciseId)).isSome
        = true ∧
     ((ensureSelected (⟨[]⟩ : Doc) ⟨none, JV.nul, JV.nul, JV.nul, none⟩).1).periods.map Period.id
        = ["period-1"]) ∧
    (ensureSelected cDoc ⟨none, JV.nul, JV.nul, JV.nul, none⟩).2.periodId = some "serie-1-2026" := by
  have h1 := c9_ensureSelected_resolves (⟨[]⟩ : Doc) ⟨none, JV.nul, JV.nul, JV.nul, none⟩
  have h2 := c9_ensureSelected_resolves cDoc ⟨none, JV.nul, JV.nul, JV.nul, none⟩
  refine ⟨⟨h1.1, h1.2.1 rfl⟩, ?_⟩
  have h3 := h2.2.2 (by decide) (Or.inl rfl)
  rw [h3]
  rfl

/-! ## Claim C8 -/

/-- C8 (amended): at the exercise level the purge works: a successful
exercise removal deletes the selection's entry key from the overlay,
re-inserting an exercise never writes the overlay, and resolving any
entry whose key has no overlay patch yields exactly the defaulted base
fields — so an exercise removed and re-created under the same key starts
with base-derived fields only.  (At the day/week/block/period levels the
overlay is not purged and old patches do resurface; see the
counterexample.) -/
theorem c8_no_resurrection_amended (st : St) (p : Period) (b : Block) (w : Week) (d : Day)
    (hp : getPeriod st.doc (jvOfStrOpt st.sel.periodId) = some p)
    (hb : getBlock p st.sel.blockId = some b)
    (hw : getWeek b st.sel.week = some w)
    (hd : getDay w st.sel.day = some d)
    (hfound : d.exercises.any (fun e => jvOfStrOpt st.sel.exerciseId == JV.str e.id) = true) :
    (∀ st', removeExercise st = some st' → lookupEdits st'.edits (selKey st.sel) = none) ∧
    (∀ st2 : St, ∀ n wtxt : String, ∀ st3, addExercise st2 n wtxt = some st3 → st3.edits = st2.edits) ∧
    (∀ doc2 edits2, ∀ pid bid wk dy eid : JV,
      lookupEdits edits2 (entryKey pid bid wk dy eid) = none →
      ∀ p2 b2 w2 d2 ex2, getPeriod doc2 pid = some p2 → getBlock p2 bid = some b2 →
        getWeek b2 wk = some w2 → getDay w2 dy = some d2 → getExercise d2 eid = some ex2 →
        getPatchedEntry doc2 edits2 pid bid wk dy eid =
          some (baseEntryOf pid p2 b2 w2 d2 ex2)) := by
  refine ⟨?_, ?_, ?_⟩
  · intro st' h
    simp only [removeExercise] at h
    rw [hp] at h
    simp only [hb, hw, hd, hfound, if_true] at h
    injection h with h
    subst h
    show lookupEdits (eraseEdits st.edits (selKey st.sel)) (selKey st.sel) = none
    rw [lookupEdits_eraseEdits, if_pos rfl]
  · intro st2 n wtxt st3 h
    simp only [addExercise] at h
    split at h
    · exact absurd h (by simp)
    · split at h
      · exact absurd h (by simp)
      · split at h
        · exact absurd h (by simp)
        · split at h
          · injection h with h; subst h; rfl
          · split at h
            · exact absurd h (by simp)
            · split at h
              · injection h with h; subst h; rfl
              · injection h with h; subst h; rfl
  · intro doc2 edits2 pid bid wk dy eid hnone p2 b2 w2 d2 ex2 hp2 hb2 hw2 hd2 he2
    have := (c2_getPatchedEntry_resolution doc2 edits2 pid bid wk dy eid).2
      p2 b2 w2 d2 ex2 hp2 hb2 hw2 hd2 he2
    rw [this, hnone]
    rfl

def cStExRemoved : St := (removeExercise cSt).getD cSt

theorem c8_no_resurrection_amended_witness :
    lookupEdits cStExRemoved.edits (selKey cSt.sel) = none :=
  (c8_no_resurrection_amended cSt cPeriod cBlock cWeek cDay rfl rfl rfl rfl
    (by decide)).1 cStExRemoved (by decide)

/-- C8 counterexample: remove the selected day (the fallback walk
re-creates an empty day 1), re-insert an exercise with the same
identifier, and resolve it: the work text of the patch written before
the removal reappears, although the re-inserted base exercise has empty
work. -/
theorem c8_counterexample :
    ((removeDay cSt).bind (fun st => addExercise st "Squat" "")).map
      (fun st => (getPatchedEntry st.doc st.edits
        (.str "serie-1-2026") (.num 1) (.num 1) (.num 1) (.str "squat")).map
          (fun e => e.work)) = some (some "OLD") ∧
    ((removeDay cSt).bind (fun st => addExercise st "Squat" "")).map
      (fun st => (resolveLocator st.doc
        (.str "serie-1-2026") (.num 1) (.num 1) (.num 1) (.str "squat")).map
          (fun ex => ex.work)) = some (some (some "")) ∧
    cPatch.work = some (.str "OLD") := by
  refine ⟨?_, ?_, ?_⟩ <;> decide

end TrainLog
